import Mathlib

/-!
# Graph transforms: six pattern-driven rewrites over a node graph

Shallow embedding of the six transforms of `tensorflow/tools/graph_transforms`
(`remove_noop_split.cc`, `remove_noop_padv2.cc`, `dilation_to_maxpool.cc`,
`fold_transposed_pads.cc`, `swap_trans_mul_add.cc`, `swap_trans_relu.cc`).

The rewrite callbacks are translated from the sources.  The engine they call
(`transform_utils`: name parsing, the pattern matcher, the graph rebuilder and
the reference renamer) is described by the specification only; every definition
that stands for a part of it says so in its doc comment.

A `std::string` is a list of characters, a `GraphDef` its list of nodes, a
`std::map` an association list that holds one entry per key, and a run that
hits a failed `CHECK` or an out-of-range access has no result (`none`).
-/

namespace GraphTransforms

/-- Strings of the program, as character lists. -/
abbrev Str := List Char

/-- Modelled from the spec: the element types (`DataType`) of the tensors the
transforms read and write; the type is declared outside the sources. -/
inductive DataType
  | DT_INVALID
  | DT_FLOAT
  | DT_INT32
deriving DecidableEq, Repr

/-- Modelled from the spec: the tensor payload of section 3 (`Tensor`), declared
outside the sources: element type, shape and the row-major list of its scalars
(a float scalar is carried as an uninterpreted number: the transforms only
move scalars, they never compute with them). -/
structure Tensor where
  dtype : DataType
  shape : List Nat
  vals : List Int
deriving DecidableEq, Repr

/-- Modelled from the spec: the value of a node attribute (`AttrValue`), declared
outside the sources: a tagged variant (section 9). -/
inductive AttrValue
  | i (v : Int)
  | list_i (vs : List Int)
  | s (v : Str)
  | b (v : Bool)
  | type (t : DataType)
  | tensor (t : Tensor)
deriving DecidableEq, Repr

/-- Modelled from the spec: the node of section 3 (`NodeDef`), declared outside
the sources. -/
structure NodeDef where
  name : Str
  op : Str
  device : Str
  input : List Str
  attr : List (Str × AttrValue)
deriving DecidableEq, Repr

/-- Modelled from the spec: the graph of section 3 (`GraphDef`), declared outside
the sources: the ordered sequence of its nodes. -/
abbrev GraphDef := List NodeDef

/-- Modelled from the spec: the context of a transform call (section 6,
`TransformFuncContext`), declared outside the sources: the declared graph inputs
and outputs. -/
structure TransformFuncContext where
  input_names : List Str
  output_names : List Str
deriving DecidableEq, Repr

/-- Modelled from the spec: the pattern of section 3 (`OpTypePattern`), declared
outside the sources. -/
inductive OpTypePattern
  | mk (op : Str) (inputs : List OpTypePattern)

/-- Modelled from the spec: the match of section 3 (`NodeMatch`), declared outside
the sources: the matched node and one match per matched input. -/
inductive NodeMatch
  | mk (node : NodeDef) (inputs : List NodeMatch)

/-- Root node of a match (`match.node`). -/
def NodeMatch.node : NodeMatch → NodeDef
  | .mk n _ => n

/-- Input matches of a match (`match.inputs`). -/
def NodeMatch.inputs : NodeMatch → List NodeMatch
  | .mk _ ins => ins

/-! ## Attribute maps -/

/-- Lookup in an attribute map (`attr().count(key)`, `attr().at(key)`). -/
def attrFind (attrs : List (Str × AttrValue)) (key : Str) : Option AttrValue :=
  (attrs.find? (fun e => e.1 = key)).map Prod.snd

/-- Assignment `(*attr)[key] = value` in an attribute map. -/
def attrSet (attrs : List (Str × AttrValue)) (key : Str) (value : AttrValue) :
    List (Str × AttrValue) :=
  attrs.filter (fun e => e.1 ≠ key) ++ [(key, value)]

/-- Assignment `m[key] = value` in a `std::map<string, string>`. -/
def mapSet (m : List (Str × Str)) (key value : Str) : List (Str × Str) :=
  (key, value) :: m.filter (fun e => e.1 ≠ key)

/-! ## Names and references (engine) -/

/-- Modelled from the spec: `NodeNameFromInput` of `transform_utils`, absent
from the sources.  It gives the base node name of a reference: the text before
the output-index suffix `:k`, with a leading control marker `^` stripped. -/
def NodeNameFromInput (input_name : Str) : Str :=
  match input_name.takeWhile (fun c => c ≠ ':') with
  | '^' :: rest => rest
  | p => p

/-- Modelled from the spec: canonical form of a data reference, absent from the
sources.  The spec gives a reference the default output index 0, so `name` and
`name:0` are the same reference. -/
def CanonicalInputName (input_name : Str) : Str :=
  if input_name.dropWhile (fun c => c ≠ ':') = [] then input_name ++ [':', '0']
  else input_name

/-- Modelled from the spec: the name-to-node index of the graph, absent from the
sources (names are unique keys; the first node of a name answers). -/
def nodeByName (g : GraphDef) (name : Str) : Option NodeDef :=
  g.find? (fun n => n.name = name)

/-- Modelled from the spec: the data inputs of a node, the references the matcher
looks at: the non-empty references that are not control references. -/
def nonControlInputs (node : NodeDef) : List Str :=
  node.input.filter (fun s => s ≠ [] ∧ s.head? ≠ some '^')

/-! ## Pattern matcher (engine) -/

mutual
/-- Modelled from the spec: the pattern matcher (section 4.1), absent from the
sources.  Top-down and deterministic: a node consumed by an earlier match does
not match; the wildcard matches any other node and does not recurse into its
inputs; otherwise the op must equal the pattern op, the node must have as many
data inputs as the pattern has children (control inputs are never matched
against a pattern), and each data input, resolved to its base node, must match
the child pattern.  A failure is the answer `none`, never an error. -/
def DoesOpTypeMatch (g : GraphDef) (previously_matched_nodes : List Str)
    (node : NodeDef) : OpTypePattern → Option NodeMatch
  | .mk op inputs =>
    if node.name ∈ previously_matched_nodes then none
    else if op = ['*'] then some (.mk node [])
    else if node.op ≠ op then none
    else if (nonControlInputs node).length ≠ inputs.length then none
    else (matchInputs g previously_matched_nodes (nonControlInputs node) inputs).map
      (NodeMatch.mk node)
/-- Modelled from the spec: the child loop of the pattern matcher. -/
def matchInputs (g : GraphDef) (previously_matched_nodes : List Str) :
    List Str → List OpTypePattern → Option (List NodeMatch)
  | r :: rs, p :: ps =>
    match nodeByName g (NodeNameFromInput r) with
    | none => none
    | some input_node =>
      match DoesOpTypeMatch g previously_matched_nodes input_node p with
      | none => none
      | some m =>
        match matchInputs g previously_matched_nodes rs ps with
        | none => none
        | some ms => some (m :: ms)
  | _, _ => some []
end

mutual
/-- Modelled from the spec: every node bound by a match, root first, inputs left
to right (the traversal behind `MatchedNodesAsArray` and the consumed set). -/
def NodeMatch.allNodes : NodeMatch → List NodeDef
  | .mk node inputs => node :: allNodesList inputs
/-- Modelled from the spec: every node bound by a list of matches. -/
def allNodesList : List NodeMatch → List NodeDef
  | [] => []
  | m :: ms => m.allNodes ++ allNodesList ms
end

/-- Modelled from the spec: the filter of `MatchedNodesAsArray` that keeps the
first node of every name. -/
def dedupByName : List NodeDef → List NodeDef
  | [] => []
  | n :: rest => n :: (dedupByName rest).filter (fun k => k.name ≠ n.name)

/-- Modelled from the spec: `MatchedNodesAsArray` of `transform_utils`, absent
from the sources: the original matched nodes, each one once. -/
def MatchedNodesAsArray (m : NodeMatch) : List NodeDef :=
  dedupByName m.allNodes

/-- Modelled from the spec: `CopyOriginalMatch` of `transform_utils`, absent from
the sources: it appends the original matched nodes, verbatim, to `new_nodes`. -/
def CopyOriginalMatch (m : NodeMatch) (new_nodes : List NodeDef) : List NodeDef :=
  new_nodes ++ MatchedNodesAsArray m

/-- Modelled from the spec: the consumed-node set after a match is recorded. -/
def RecordMatchedNodes (m : NodeMatch) (matched_nodes : List Str) : List Str :=
  m.allNodes.map NodeDef.name ++ matched_nodes

/-- Modelled from the spec: the scan of section 4.1, absent from the sources.
Every node, in the original node order, is a candidate root; a node consumed by
an earlier match is neither a later root nor a later interior node. -/
def scanMatches (g : GraphDef) (pattern : OpTypePattern) :
    List NodeDef → List Str → List NodeMatch
  | [], _ => []
  | node :: rest, matched_nodes =>
    if node.name ∈ matched_nodes then scanMatches g pattern rest matched_nodes
    else
      match DoesOpTypeMatch g matched_nodes node pattern with
      | some m => m :: scanMatches g pattern rest (RecordMatchedNodes m matched_nodes)
      | none => scanMatches g pattern rest matched_nodes

/-- Modelled from the spec: `GetOpTypeMatches`, all matches of a pattern. -/
def GetOpTypeMatches (g : GraphDef) (pattern : OpTypePattern) : List NodeMatch :=
  scanMatches g pattern g []

/-! ## Graph rebuilder and reference renamer (engine) -/

/-- Side tables a rewrite callback writes while a transform runs:
`inputs_to_rename` and `nodes_to_ignore`. -/
structure RewriteState where
  inputs_to_rename : List (Str × Str)
  nodes_to_ignore : List Str
deriving DecidableEq, Repr

/-- Rewrite callback: from a match and the side tables to the replacement
nodes and the new side tables. -/
abbrev NodeGenerator := NodeMatch → RewriteState → Option (List NodeDef × RewriteState)

/-- Modelled from the spec: the names of all nodes consumed by a list of matches
(the consumed-node set of the rebuilder). -/
def matchedNames (ms : List NodeMatch) : List Str :=
  (allNodesList ms).map NodeDef.name

/-- Modelled from the spec: the node loop of the graph rebuilder (section 4.3),
absent from the sources.  The root of a match is replaced by the fragment the
callback returns for that match, a node interior to a match is dropped (the
fragment stands for it), every other node is copied unchanged. -/
def rebuildNodes (ms : List NodeMatch) (node_generator : NodeGenerator) :
    List NodeDef → RewriteState → Option (List NodeDef × RewriteState)
  | [], st => some ([], st)
  | input_node :: rest, st =>
    match ms.find? (fun m => m.node.name = input_node.name) with
    | some m =>
      match node_generator m st with
      | none => none
      | some (new_nodes, st1) =>
        match rebuildNodes ms node_generator rest st1 with
        | none => none
        | some (out, st2) => some (new_nodes ++ out, st2)
    | none =>
      if input_node.name ∈ matchedNames ms then rebuildNodes ms node_generator rest st
      else
        match rebuildNodes ms node_generator rest st with
        | none => none
        | some (out, st2) => some (input_node :: out, st2)

/-- Modelled from the spec: `ReplaceMatchingOpTypes` of `transform_utils`, absent
from the sources: find all matches, then rebuild the graph from the fragments
and the untouched nodes. -/
def ReplaceMatchingOpTypes (input_graph_def : GraphDef) (pattern : OpTypePattern)
    (node_generator : NodeGenerator) (st : RewriteState) :
    Option (GraphDef × RewriteState) :=
  rebuildNodes (GetOpTypeMatches input_graph_def pattern) node_generator input_graph_def st

/-- Modelled from the spec: the target of a data reference in the rename map,
the value of the first key that is the same reference (`name` and `name:0`
are one reference, as the split-elision scenario of section 8 requires). -/
def renameTarget (inputs_to_rename : List (Str × Str)) (ref : Str) : Option Str :=
  (inputs_to_rename.find? (fun e => CanonicalInputName e.1 = CanonicalInputName ref)).map
    Prod.snd

/-- Modelled from the spec: the renamer on one input entry (section 4.4), absent
from the sources.  The control marker is stripped before the lookup and restored
afterwards; an entry that matches no key is left verbatim. -/
def renameInput (inputs_to_rename : List (Str × Str)) (input_name : Str) : Str :=
  match input_name with
  | '^' :: ref =>
    match renameTarget inputs_to_rename ref with
    | some target => '^' :: target
    | none => input_name
  | _ =>
    match renameTarget inputs_to_rename input_name with
    | some target => target
    | none => input_name

/-- Modelled from the spec: the renamer on one node; a node whose own name is in
the exclusion set keeps its inputs. -/
def renameNode (inputs_to_rename : List (Str × Str)) (nodes_to_ignore : List Str)
    (node : NodeDef) : NodeDef :=
  if node.name ∈ nodes_to_ignore then node
  else { node with input := node.input.map (renameInput inputs_to_rename) }

/-- Modelled from the spec: `RenameNodeInputs` of `transform_utils`, absent from
the sources: one pass over the node list, no chained resolution. -/
def RenameNodeInputs (input_graph_def : GraphDef) (inputs_to_rename : List (Str × Str))
    (nodes_to_ignore : List Str) : GraphDef :=
  input_graph_def.map (renameNode inputs_to_rename nodes_to_ignore)

/-- Required names: the base names of the declared graph inputs and outputs
(the loop at the head of each transform). -/
def requiredNodes (context : TransformFuncContext) : List Str :=
  context.input_names.map NodeNameFromInput ++ context.output_names.map NodeNameFromInput

/-! ## Collaborators of the callbacks -/

/-- Modelled from the spec: `CopyNodeAttr` of `transform_utils`, absent from the
sources: copies one attribute of `source` into `dest`; the run has no result
when `source` lacks the key. -/
def CopyNodeAttr (source : NodeDef) (source_key dest_key : Str) (dest : NodeDef) :
    Option NodeDef :=
  match attrFind source.attr source_key with
  | none => none
  | some v => some { dest with attr := attrSet dest.attr dest_key v }

/-- Modelled from the spec: `SetNodeAttr` of the node-definition utilities, absent
from the sources. -/
def SetNodeAttr (key : Str) (value : AttrValue) (node : NodeDef) : NodeDef :=
  { node with attr := attrSet node.attr key value }

/-- Modelled from the spec: `AddNodeInput` of `transform_utils`, absent from the
sources: appends one input reference. -/
def AddNodeInput (input_name : Str) (node : NodeDef) : NodeDef :=
  { node with input := node.input ++ [input_name] }

/-- Modelled from the spec: the tensor-attribute reader of section 6
(`GetNodeTensorAttr`), absent from the sources.  The run has no result when the
attribute is absent, is not a tensor, or its payload does not fill its shape. -/
def GetNodeTensorAttr (node : NodeDef) (key : Str) : Option Tensor :=
  match attrFind node.attr key with
  | some (.tensor t) => if t.vals.length = t.shape.prod then some t else none
  | _ => none

/-- Modelled from the spec: the tensor-attribute writer of section 6
(`SetNodeTensorAttr`), absent from the sources: it stores the tensor, shape
included, under the key. -/
def SetNodeTensorAttr (key : Str) (tensor : Tensor) (node : NodeDef) : NodeDef :=
  SetNodeAttr key (.tensor tensor) node

/-- Modelled from the spec: the typed view `flat<int32_t>()` of the tensor
reader, absent from the sources: the scalars of an `int32` tensor, no result
for another element type. -/
def Tensor.flatInt32 (t : Tensor) : Option (List Int) :=
  if t.dtype = .DT_INT32 then some t.vals else none

/-- Modelled from the spec: the typed view `flat_outer_dims<int32_t, 2>()` of the
tensor reader, absent from the sources: row count, row length and the scalars
of an `int32` tensor seen as a matrix over its first dimension. -/
def Tensor.flatOuterDims2 (t : Tensor) : Option (Nat × Nat × List Int) :=
  if t.dtype = .DT_INT32 then some (t.shape.headD 1, t.shape.tail.prod, t.vals) else none

/-- Modelled from the spec: the typed view `tensor<float, 4>()` of the tensor
reader, absent from the sources: the four dimensions and the scalars of a 4-D
`float` tensor, no result for another element type or rank. -/
def Tensor.tensor4 (t : Tensor) : Option (Nat × Nat × Nat × Nat × List Int) :=
  if t.dtype = .DT_FLOAT then
    match t.shape with
    | [d0, d1, d2, d3] => some (d0, d1, d2, d3, t.vals)
    | _ => none
  else none

/-- Chain `v(0) != e0 || v(1) != e1 || ...`, evaluated left to right: `some true`
at the first difference, `some false` when all agree, no result when an
element that is read lies outside the vector. -/
def permDiffers : List Int → List Int → Option Bool
  | _, [] => some false
  | [], _ :: _ => none
  | x :: v, e :: es => if x ≠ e then some true else permDiffers v es

/-- Row `i` of a matrix with rows of length `cols`
(`slice({i, 0}, {1, cols})`); no result outside the matrix. -/
def sliceRow (rows cols : Nat) (vals : List Int) (i : Nat) : Option (List Int) :=
  if i < rows then some ((vals.drop (i * cols)).take cols) else none

/-- The expression `vector.shuffle(shuffling)` with `shuffling = {0, 2, 3, 1}` on
the row-major scalars of a 4-D tensor of shape `(d0, d1, d2, d3)`.  `shuffle` is
an operation of the tensor library the sources call, not of the sources; by its
documentation output dimension `n` is input dimension `shuffling[n]`, so the
result has shape `(d0, d2, d3, d1)` and its entry `[a, b, c, d]` is the entry
`[a, d, b, c]` of the argument.  The scalars are listed in row-major order. -/
def shuffle0231 (d0 d1 d2 d3 : Nat) (vals : List Int) : List Int :=
  (List.range d0).flatMap fun a =>
    (List.range d2).flatMap fun b =>
      (List.range d3).flatMap fun c =>
        (List.range d1).map fun d => vals.getD (((a * d1 + d) * d2 + b) * d3 + c) 0

/-- The two assignments every renaming callback ends with:
`inputs_to_rename[old] = target; inputs_to_rename["^" + old] = "^" + target`. -/
def RewriteState.addRename (st : RewriteState) (old target : Str) : RewriteState :=
  { st with inputs_to_rename :=
      mapSet (mapSet st.inputs_to_rename old target) ('^' :: old) ('^' :: target) }

/-- Insertion `nodes_to_ignore.insert(name)`. -/
def RewriteState.addIgnore (st : RewriteState) (name : Str) : RewriteState :=
  { st with nodes_to_ignore :=
      if name ∈ st.nodes_to_ignore then st.nodes_to_ignore else name :: st.nodes_to_ignore }

/-- A freshly constructed `NodeDef`. -/
def NodeDef.empty : NodeDef :=
  { name := [], op := [], device := [], input := [], attr := [] }

/-! ## remove_noop_split.cc -/

/-- The prefix scan of `RemoveNoopSplit` and `RemoveNoopPadV2` over the inputs of
the removed node: the first input that starts with `target_name` and either ends
there or goes on with `:` replaces `target_name`. -/
def scanTargetName (target_name : Str) : List Str → Str
  | [] => target_name
  | input :: rest =>
    if input.take target_name.length = target_name ∧
        (input.length = target_name.length ∨ input.get? target_name.length = some ':') then
      input
    else scanTargetName target_name rest

/-- Pattern of `RemoveNoopSplit`. -/
def splitPattern : OpTypePattern :=
  .mk "Split".data [.mk ['*'] [], .mk ['*'] []]

/-- Callback of `RemoveNoopSplit`. -/
def RemoveNoopSplitCallback (required_nodes : List Str) : NodeGenerator :=
  fun m st =>
    let replace_node := m.node
    if replace_node.name ∈ required_nodes then
      some (CopyOriginalMatch m [], st)
    else
      match attrFind m.node.attr "num_split".data with
      | some (.i 1) =>
        match m.inputs[1]? with
        | none => none
        | some input_match =>
          let input_node := input_match.node
          let target_name := scanTargetName input_node.name replace_node.input
          some ([input_node], st.addRename replace_node.name target_name)
      | _ => some (CopyOriginalMatch m [], st)

/-- Result of a transform run: the output graph, and the two side tables as they
stand when the transform returns. -/
structure TransformRun where
  output_graph_def : GraphDef
  inputs_to_rename : List (Str × Str)
  nodes_to_ignore : List Str
deriving DecidableEq, Repr

/-- Transform `remove_noop_split`. -/
def RemoveNoopSplit (input_graph_def : GraphDef) (context : TransformFuncContext) :
    Option TransformRun :=
  let required_nodes := requiredNodes context
  match ReplaceMatchingOpTypes input_graph_def splitPattern
      (RemoveNoopSplitCallback required_nodes) ⟨[], []⟩ with
  | none => none
  | some (replaced_graph_def, st) =>
    some ⟨RenameNodeInputs replaced_graph_def st.inputs_to_rename [],
      st.inputs_to_rename, []⟩

/-! ## remove_noop_padv2.cc -/

/-- Pattern of `RemoveNoopPadV2`. -/
def padV2Pattern : OpTypePattern :=
  .mk "PadV2".data [.mk ['*'] [], .mk ['*'] [], .mk ['*'] []]

/-- Callback of `RemoveNoopPadV2`. -/
def RemoveNoopPadV2Callback (required_nodes : List Str) : NodeGenerator :=
  fun m st =>
    let replace_node := m.node
    if replace_node.name ∈ required_nodes then
      some (CopyOriginalMatch m [], st)
    else
      match m.inputs[0]? with
      | none => none
      | some input_match =>
        let input_node := input_match.node
        let target_name := scanTargetName input_node.name replace_node.input
        some ([input_node], st.addRename replace_node.name target_name)

/-- Transform `remove_noop_padv2`. -/
def RemoveNoopPadV2 (input_graph_def : GraphDef) (context : TransformFuncContext) :
    Option TransformRun :=
  let required_nodes := requiredNodes context
  match ReplaceMatchingOpTypes input_graph_def padV2Pattern
      (RemoveNoopPadV2Callback required_nodes) ⟨[], []⟩ with
  | none => none
  | some (replaced_graph_def, st) =>
    some ⟨RenameNodeInputs replaced_graph_def st.inputs_to_rename [],
      st.inputs_to_rename, []⟩

/-! ## dilation_to_maxpool.cc -/

/-- Pattern of `Dilation2DToMaxPool2D`. -/
def dilationPattern : OpTypePattern :=
  .mk "Dilation2D".data [.mk ['*'] [], .mk ['*'] []]

/-- Callback of `Dilation2DToMaxPool2D`; it writes no side table. -/
def Dilation2DToMaxPool2DCallback (required_nodes : List Str) : NodeGenerator :=
  fun m st =>
    let replace_node := m.node
    if replace_node.name ∈ required_nodes then
      some (CopyOriginalMatch m [], st)
    else
      match m.inputs[0]? with
      | none => none
      | some input_match =>
        let input_node := input_match.node
        let maxpool_node : NodeDef :=
          { NodeDef.empty with op := "MaxPool".data, name := m.node.name,
                               device := m.node.device }
        let maxpool_node := SetNodeAttr "ksize".data (.list_i [1, 2, 2, 1]) maxpool_node
        match CopyNodeAttr m.node "strides".data "strides".data maxpool_node with
        | none => none
        | some maxpool_node =>
          match CopyNodeAttr m.node "padding".data "padding".data maxpool_node with
          | none => none
          | some maxpool_node =>
            match (if (attrFind m.node.attr "use_cudnn_on_gpu".data).isSome then
                CopyNodeAttr m.node "use_cudnn_on_gpu".data "use_cudnn_on_gpu".data maxpool_node
              else some maxpool_node) with
            | none => none
            | some maxpool_node =>
              let maxpool_node := AddNodeInput input_node.name maxpool_node
              some ([input_node, maxpool_node], st)

/-- Transform `dilation2d_to_maxpool2d`; it has no rename map and calls no
renamer. -/
def Dilation2DToMaxPool2D (input_graph_def : GraphDef) (context : TransformFuncContext) :
    Option TransformRun :=
  let required_nodes := requiredNodes context
  match ReplaceMatchingOpTypes input_graph_def dilationPattern
      (Dilation2DToMaxPool2DCallback required_nodes) ⟨[], []⟩ with
  | none => none
  | some (output_graph_def, _) => some ⟨output_graph_def, [], []⟩

/-! ## fold_transposed_pads.cc -/

/-- Pattern of `FoldTransposedPads`. -/
def foldPattern : OpTypePattern :=
  .mk "Transpose".data
    [.mk "Pad".data
      [.mk "Transpose".data [.mk ['*'] [], .mk "Const".data []],
       .mk "Const".data []],
     .mk "Const".data []]

/-- The re-ordered paddings tensor of `FoldTransposedPads`: same shape, rows
0, 2, 3, 1 of the source in the places 0, 1, 2, 3.  Rows past the fourth are
never written by the source (their content is whatever the fresh tensor holds);
they are carried here as zeros. -/
def reorderPaddings (paddings : Tensor) : Option Tensor :=
  match paddings.flatOuterDims2 with
  | none => none
  | some (rows, cols, vals) =>
    match sliceRow rows cols vals 0, sliceRow rows cols vals 2,
        sliceRow rows cols vals 3, sliceRow rows cols vals 1 with
    | some r0, some r2, some r3, some r1 =>
      some { dtype := .DT_INT32, shape := paddings.shape,
             vals := r0 ++ r2 ++ r3 ++ r1 ++ List.replicate ((rows - 4) * cols) 0 }
    | _, _, _, _ => none

/-- Callback of `FoldTransposedPads`. -/
def FoldTransposedPadsCallback (required_nodes : List Str) : NodeGenerator :=
  fun m st =>
    let transpose2_node := m.node
    match m.inputs[1]?, m.inputs[0]? with
    | some perm2_match, some pad_match =>
      match pad_match.inputs[1]?, pad_match.inputs[0]? with
      | some paddings_match, some transpose1_match =>
        match transpose1_match.inputs[1]?, transpose1_match.inputs[0]? with
        | some perm1_match, some input_match =>
          let perm2_node := perm2_match.node
          let pad_node := pad_match.node
          let paddings_node := paddings_match.node
          let transpose1_node := transpose1_match.node
          let perm1_node := perm1_match.node
          let input_node := input_match.node
          if ∃ node ∈ [transpose2_node, perm2_node, pad_node, paddings_node,
              transpose1_node, perm1_node], node.name ∈ required_nodes then
            some (CopyOriginalMatch m [], st)
          else
            match GetNodeTensorAttr perm2_node "value".data,
                GetNodeTensorAttr paddings_node "value".data,
                GetNodeTensorAttr perm1_node "value".data with
            | some perm2, some paddings, some perm1 =>
              match perm1.flatInt32, perm2.flatInt32, paddings.flatOuterDims2 with
              | some perm1_vector, some perm2_vector, some _ =>
                match permDiffers perm1_vector [0, 3, 1, 2] with
                | none => none
                | some true => some (CopyOriginalMatch m [], st)
                | some false =>
                  match permDiffers perm2_vector [0, 2, 3, 1] with
                  | none => none
                  | some true => some (CopyOriginalMatch m [], st)
                  | some false =>
                    match reorderPaddings paddings with
                    | none => none
                    | some new_paddings =>
                      let new_paddings_node : NodeDef :=
                        { NodeDef.empty with op := "Const".data, name := paddings_node.name }
                      let new_paddings_node :=
                        SetNodeAttr "dtype".data (.type .DT_INT32) new_paddings_node
                      let new_paddings_node :=
                        SetNodeTensorAttr "value".data new_paddings new_paddings_node
                      let new_pad_node : NodeDef :=
                        { NodeDef.empty with op := "Pad".data, name := pad_node.name,
                                             device := pad_node.device }
                      let new_pad_node := SetNodeAttr "T".data (.type .DT_FLOAT) new_pad_node
                      let new_pad_node := AddNodeInput input_node.name new_pad_node
                      let new_pad_node := AddNodeInput new_paddings_node.name new_pad_node
                      let target_name := new_pad_node.name
                      some ([new_paddings_node, new_pad_node, input_node, transpose1_node,
                             perm1_node],
                            st.addRename transpose2_node.name target_name)
              | _, _, _ => none
            | _, _, _ => none
        | _, _ => none
      | _, _ => none
    | _, _ => none

/-- Transform `fold_transposed_pads`. -/
def FoldTransposedPads (input_graph_def : GraphDef) (context : TransformFuncContext) :
    Option TransformRun :=
  let required_nodes := requiredNodes context
  match ReplaceMatchingOpTypes input_graph_def foldPattern
      (FoldTransposedPadsCallback required_nodes) ⟨[], []⟩ with
  | none => none
  | some (replaced_graph_def, st) =>
    some ⟨RenameNodeInputs replaced_graph_def st.inputs_to_rename [],
      st.inputs_to_rename, []⟩

/-! ## swap_trans_mul_add.cc -/

/-- Pattern of `SwapTransMulAdd`. -/
def mulAddPattern : OpTypePattern :=
  .mk "AddV2".data
    [.mk "Mul".data
      [.mk "Transpose".data [.mk ['*'] [], .mk "Const".data []],
       .mk "Const".data []],
     .mk "Const".data []]

/-- A 4-D float tensor moved to the layout before the transpose: shape
`(d0, d2, d3, d1)`, scalars shuffled by `shuffle0231`. -/
def shuffledTensor (d0 d1 d2 d3 : Nat) (vals : List Int) : Tensor :=
  { dtype := .DT_FLOAT, shape := [d0, d2, d3, d1], vals := shuffle0231 d0 d1 d2 d3 vals }

/-- Callback of `SwapTransMulAdd`. -/
def SwapTransMulAddCallback (required_nodes : List Str) : NodeGenerator :=
  fun m st =>
    let add_node := m.node
    match m.inputs[1]?, m.inputs[0]? with
    | some bias_match, some mul_match =>
      match mul_match.inputs[1]?, mul_match.inputs[0]? with
      | some weights_match, some transpose_match =>
        match transpose_match.inputs[1]?, transpose_match.inputs[0]? with
        | some perm_match, some input_match =>
          let bias_node := bias_match.node
          let mul_node := mul_match.node
          let weights_node := weights_match.node
          let transpose_node := transpose_match.node
          let perm_node := perm_match.node
          let input_node := input_match.node
          if ∃ node ∈ [add_node, bias_node, mul_node, weights_node, transpose_node,
              perm_node], node.name ∈ required_nodes then
            some (CopyOriginalMatch m [], st)
          else
            match GetNodeTensorAttr perm_node "value".data,
                GetNodeTensorAttr weights_node "value".data,
                GetNodeTensorAttr bias_node "value".data with
            | some perm, some weights, some bias =>
              match perm.flatInt32, weights.tensor4, bias.tensor4 with
              | some perm_vector, some (w0, w1, w2, w3, weights_vector),
                  some (b0, b1, b2, b3, bias_vector) =>
                match permDiffers perm_vector [0, 3, 1, 2] with
                | none => none
                | some true => some (CopyOriginalMatch m [], st)
                | some false =>
                  let new_weights := shuffledTensor w0 w1 w2 w3 weights_vector
                  let new_bias := shuffledTensor b0 b1 b2 b3 bias_vector
                  let new_weights_node : NodeDef :=
                    { NodeDef.empty with op := "Const".data, name := weights_node.name }
                  let new_weights_node :=
                    SetNodeAttr "dtype".data (.type .DT_FLOAT) new_weights_node
                  let new_weights_node :=
                    SetNodeTensorAttr "value".data new_weights new_weights_node
                  let new_mul_node : NodeDef :=
                    { NodeDef.empty with op := "Mul".data, name := mul_node.name }
                  let new_mul_node := SetNodeAttr "T".data (.type .DT_FLOAT) new_mul_node
                  let new_mul_node := AddNodeInput input_node.name new_mul_node
                  let new_mul_node := AddNodeInput new_weights_node.name new_mul_node
                  let new_bias_node : NodeDef :=
                    { NodeDef.empty with op := "Const".data, name := bias_node.name }
                  let new_bias_node :=
                    SetNodeAttr "dtype".data (.type .DT_FLOAT) new_bias_node
                  let new_bias_node := SetNodeTensorAttr "value".data new_bias new_bias_node
                  let new_add_node : NodeDef :=
                    { NodeDef.empty with op := "AddV2".data, name := add_node.name }
                  match (if (attrFind add_node.attr "fused_activation_function".data).isSome then
                      CopyNodeAttr add_node "fused_activation_function".data
                        "fused_activation_function".data new_add_node
                    else some new_add_node) with
                  | none => none
                  | some new_add_node =>
                    let new_add_node := SetNodeAttr "T".data (.type .DT_FLOAT) new_add_node
                    let new_add_node := AddNodeInput new_mul_node.name new_add_node
                    let new_add_node := AddNodeInput new_bias_node.name new_add_node
                    let new_transpose_node : NodeDef :=
                      { transpose_node with input := transpose_node.input.set 0 new_add_node.name }
                    let target_name := new_transpose_node.name
                    some ([input_node, new_weights_node, new_mul_node, new_bias_node,
                           new_add_node, perm_node, new_transpose_node],
                          (st.addRename add_node.name target_name).addIgnore
                            new_transpose_node.name)
              | _, _, _ => none
            | _, _, _ => none
        | _, _ => none
      | _, _ => none
    | _, _ => none

/-- Transform `swap_trans_mul_add`. -/
def SwapTransMulAdd (input_graph_def : GraphDef) (context : TransformFuncContext) :
    Option TransformRun :=
  let required_nodes := requiredNodes context
  match ReplaceMatchingOpTypes input_graph_def mulAddPattern
      (SwapTransMulAddCallback required_nodes) ⟨[], []⟩ with
  | none => none
  | some (replaced_graph_def, st) =>
    some ⟨RenameNodeInputs replaced_graph_def st.inputs_to_rename st.nodes_to_ignore,
      st.inputs_to_rename, st.nodes_to_ignore⟩

/-! ## swap_trans_relu.cc -/

/-- Pattern of `SwapTransRelu`. -/
def reluPattern : OpTypePattern :=
  .mk "Relu".data [.mk "Transpose".data [.mk ['*'] [], .mk "Const".data []]]

/-- Callback of `SwapTransRelu`. -/
def SwapTransReluCallback (required_nodes : List Str) : NodeGenerator :=
  fun m st =>
    let relu_node := m.node
    match m.inputs[0]? with
    | none => none
    | some transpose_match =>
      match transpose_match.inputs[1]?, transpose_match.inputs[0]? with
      | some perm_match, some input_match =>
        let transpose_node := transpose_match.node
        let perm_node := perm_match.node
        let input_node := input_match.node
        if ∃ node ∈ [relu_node, transpose_node, perm_node, input_node],
            node.name ∈ required_nodes then
          some (CopyOriginalMatch m [], st)
        else
          let new_relu_node : NodeDef :=
            { relu_node with input := relu_node.input.set 0 input_node.name }
          let new_transpose_node : NodeDef :=
            { transpose_node with input := transpose_node.input.set 0 new_relu_node.name }
          let target_name := new_transpose_node.name
          some ([input_node, new_relu_node, perm_node, new_transpose_node],
                (st.addRename relu_node.name target_name).addIgnore new_transpose_node.name)
      | _, _ => none

/-- Transform `swap_trans_relu`. -/
def SwapTransRelu (input_graph_def : GraphDef) (context : TransformFuncContext) :
    Option TransformRun :=
  let required_nodes := requiredNodes context
  match ReplaceMatchingOpTypes input_graph_def reluPattern
      (SwapTransReluCallback required_nodes) ⟨[], []⟩ with
  | none => none
  | some (replaced_graph_def, st) =>
    some ⟨RenameNodeInputs replaced_graph_def st.inputs_to_rename st.nodes_to_ignore,
      st.inputs_to_rename, st.nodes_to_ignore⟩

/-! ## The six transforms, by name -/

/-- The six transforms of the repository. -/
inductive Transform
  | removeNoopSplit
  | removeNoopPadV2
  | dilation2DToMaxPool2D
  | foldTransposedPads
  | swapTransMulAdd
  | swapTransRelu
deriving DecidableEq, Repr

/-- Pattern a transform hands to the engine. -/
def Transform.pattern : Transform → OpTypePattern
  | .removeNoopSplit => splitPattern
  | .removeNoopPadV2 => padV2Pattern
  | .dilation2DToMaxPool2D => dilationPattern
  | .foldTransposedPads => foldPattern
  | .swapTransMulAdd => mulAddPattern
  | .swapTransRelu => reluPattern

/-- Callback a transform hands to the engine. -/
def Transform.callback : Transform → List Str → NodeGenerator
  | .removeNoopSplit => RemoveNoopSplitCallback
  | .removeNoopPadV2 => RemoveNoopPadV2Callback
  | .dilation2DToMaxPool2D => Dilation2DToMaxPool2DCallback
  | .foldTransposedPads => FoldTransposedPadsCallback
  | .swapTransMulAdd => SwapTransMulAddCallback
  | .swapTransRelu => SwapTransReluCallback

/-- Run of a transform on a graph and a context. -/
def Transform.run : Transform → GraphDef → TransformFuncContext → Option TransformRun
  | .removeNoopSplit => RemoveNoopSplit
  | .removeNoopPadV2 => RemoveNoopPadV2
  | .dilation2DToMaxPool2D => Dilation2DToMaxPool2D
  | .foldTransposedPads => FoldTransposedPads
  | .swapTransMulAdd => SwapTransMulAdd
  | .swapTransRelu => SwapTransRelu

/-! ## Auxiliary notions of the statements -/

/-- A name obtained by resolving a data reference: no `:` in it, no leading `^`. -/
def GoodName (s : Str) : Prop := ':' ∉ s ∧ s.head? ≠ some '^'

/-- A match whose nodes are nodes of the graph, the inner ones found through data
references: what the scan guarantees of each match it returns. -/
structure FoundMatch (g : GraphDef) (m : NodeMatch) : Prop where
  root_mem : m.node ∈ g
  inner_mem : ∀ n ∈ allNodesList m.inputs, n ∈ g
  inner_good : ∀ n ∈ allNodesList m.inputs, GoodName n.name

/-- What a callback decides for a match, whatever the side tables hold when it is
called: no result, the original match, or a replacement list with the rename
target and the excluded name it records. -/
inductive Outcome
  | crash
  | skip
  | rewrite (new_nodes : List NodeDef) (rename : Option Str) (ignore : Option Str)

/-- Effect of an outcome on the side tables, with the nodes it emits. -/
def Outcome.apply (m : NodeMatch) : Outcome → RewriteState → Option (List NodeDef × RewriteState)
  | .crash, _ => none
  | .skip, st => some (MatchedNodesAsArray m, st)
  | .rewrite new_nodes rename ignore, st =>
    let st1 := match rename with
      | some target => st.addRename m.node.name target
      | none => st
    let st2 := match ignore with
      | some name => st1.addIgnore name
      | none => st1
    some (new_nodes, st2)

/-- Nodes of a match whose names a callback tests against `required_nodes` before
it rewrites (the root alone, or the list of its `for` loop). -/
def Transform.checkedNodes : Transform → NodeMatch → List NodeDef
  | .removeNoopSplit, m => [m.node]
  | .removeNoopPadV2, m => [m.node]
  | .dilation2DToMaxPool2D, m => [m.node]
  | .foldTransposedPads, m =>
    match m.inputs[1]?, m.inputs[0]? with
    | some perm2_match, some pad_match =>
      match pad_match.inputs[1]?, pad_match.inputs[0]? with
      | some paddings_match, some transpose1_match =>
        match transpose1_match.inputs[1]? with
        | some perm1_match =>
          [m.node, perm2_match.node, pad_match.node, paddings_match.node,
            transpose1_match.node, perm1_match.node]
        | none => []
      | _, _ => []
    | _, _ => []
  | .swapTransMulAdd, m =>
    match m.inputs[1]?, m.inputs[0]? with
    | some bias_match, some mul_match =>
      match mul_match.inputs[1]?, mul_match.inputs[0]? with
      | some weights_match, some transpose_match =>
        match transpose_match.inputs[1]? with
        | some perm_match =>
          [m.node, bias_match.node, mul_match.node, weights_match.node,
            transpose_match.node, perm_match.node]
        | none => []
      | _, _ => []
    | _, _ => []
  | .swapTransRelu, m =>
    match m.inputs[0]? with
    | some transpose_match =>
      match transpose_match.inputs[1]?, transpose_match.inputs[0]? with
      | some perm_match, some input_match =>
        [m.node, transpose_match.node, perm_match.node, input_match.node]
      | _, _ => []
    | none => []

/-- Transforms whose rewrite leaves the root of the match out of the replacement
list. -/
def Transform.deletesRoot : Transform → Bool
  | .removeNoopSplit => true
  | .removeNoopPadV2 => true
  | .foldTransposedPads => true
  | _ => false

/-- What the statements below use of a callback on one match: its outcome does
not depend on the side tables, and a rewrite happens only when no checked node
is required, emits nodes named as nodes of the match (inner nodes only when the
root is deleted), and emits the node its rename target names. -/
structure OutcomeOK (t : Transform) (required_nodes : List Str) (m : NodeMatch)
    (o : Outcome) : Prop where
  agrees : ∀ st, t.callback required_nodes m st = o.apply m st
  unchecked : ∀ nn rn ig, o = .rewrite nn rn ig →
    ∀ n ∈ t.checkedNodes m, n.name ∉ required_nodes
  names : ∀ nn rn ig, o = .rewrite nn rn ig →
    ∀ n ∈ nn, n.name ∈ m.allNodes.map NodeDef.name
  inner : ∀ nn rn ig, o = .rewrite nn rn ig → t.deletesRoot = true →
    ∀ n ∈ nn, n.name ∈ (allNodesList m.inputs).map NodeDef.name
  target : ∀ nn target ig, o = .rewrite nn (some target) ig →
    (∃ n ∈ nn, n.name = NodeNameFromInput target) ∧
      NodeNameFromInput ('^' :: target) = NodeNameFromInput target

/-! ## Example graphs of the statements -/

/-- Example node: the constant that feeds the `split_dim` input of the split. -/
def exD : NodeDef := ⟨['d'], "Const".data, [], [], []⟩

/-- Example node: the node whose value the split passes through. -/
def exX : NodeDef := ⟨['X'], "Placeholder".data, [], [], []⟩

/-- Example node: a split with `num_split = 1` that reads `d` and `X`. -/
def exS : NodeDef :=
  ⟨['S'], "Split".data, [], [['d'], ['X']], [("num_split".data, .i 1)]⟩

/-- Example graph `X -> Split(num_split = 1)`. -/
def exSplitGraph : GraphDef := [exD, exX, exS]

/-- The one match of the split pattern in `exSplitGraph`. -/
def exSplitMatch : NodeMatch := .mk exS [.mk exD [], .mk exX []]

/-- References of a graph that resolve to no node of the graph: the input
entries whose base name is not the name of a node. -/
def danglingReferences (g : GraphDef) : List Str :=
  g.flatMap fun n => n.input.filter fun r => (nodeByName g (NodeNameFromInput r)).isNone

/-- Example node: a second value. -/
def exW : NodeDef := ⟨['W'], "Placeholder".data, [], [], []⟩

/-- Example node: a sum of `W` along the axis given by the constant `d`, which it
shares with the no-op split `S`. -/
def exZ : NodeDef := ⟨['Z'], "Sum".data, [], [['W'], ['d']], []⟩

/-- Example graph: a no-op split and a sum that use the same axis constant. -/
def exSharedAxisGraph : GraphDef := [exD, exX, exW, exS, exZ]

/-- Example node: a consumer of the split `S`. -/
def exY : NodeDef := ⟨['Y'], "Identity".data, [], [['S']], []⟩

/-- Example graph `X -> Split(num_split = 1) -> Y`. -/
def exElisionGraph : GraphDef := [exD, exX, exS, exY]

/-- Example node: a node with several outputs. -/
def exU : NodeDef := ⟨['U'], "Unpack".data, [], [['X']], []⟩

/-- Example node: a no-op split of the second output of `U`. -/
def exSU : NodeDef :=
  ⟨['S'], "Split".data, [], [['d'], ['U', ':', '1']], [("num_split".data, .i 1)]⟩

/-- Example node: a consumer of the split with a data and a control reference to
it. -/
def exYC : NodeDef := ⟨['Y'], "Identity".data, [], [['S'], ['^', 'S']], []⟩

/-- Example graph: a no-op split of `U:1`, read by `Y` through `S` and `^S`. -/
def exIndexedGraph : GraphDef := [exD, exX, exU, exSU, exYC]

/-- The one match of the split pattern in `exIndexedGraph`. -/
def exIndexedMatch : NodeMatch := .mk exSU [.mk exD [], .mk exU []]

/-- Example node: a permutation constant. -/
def exP : NodeDef := ⟨['p'], "Const".data, [], [], []⟩

/-- Example node: a transpose of `X`. -/
def exT : NodeDef := ⟨['T'], "Transpose".data, [], [['X'], ['p']], []⟩

/-- Example node: a relu of the transpose `T`. -/
def exR : NodeDef := ⟨['R'], "Relu".data, [], [['T']], []⟩

/-- Example node: a consumer of the relu `R`. -/
def exYR : NodeDef := ⟨['Y'], "Identity".data, [], [['R']], []⟩

/-- Example graph `X -> Transpose -> Relu -> Y`. -/
def exReluGraph : GraphDef := [exX, exP, exT, exR, exYR]

/-- Example node: the input of a second transpose. -/
def exX2 : NodeDef := ⟨['X', '2'], "Placeholder".data, [], [], []⟩

/-- Example node: a second permutation constant. -/
def exP2 : NodeDef := ⟨['p', '2'], "Const".data, [], [], []⟩

/-- Example node: a second transpose, with a control dependency on the relu `R`. -/
def exT2 : NodeDef :=
  ⟨['T', '2'], "Transpose".data, [], [['X', '2'], ['p', '2'], ['^', 'R']], []⟩

/-- Example node: a relu of the second transpose. -/
def exR2 : NodeDef := ⟨['R', '2'], "Relu".data, [], [['T', '2']], []⟩

/-- Example graph: two chains `X -> Transpose -> Relu`, the second transpose
control-dependent on the first relu. -/
def exTwoReluGraph : GraphDef := [exX, exP, exT, exR, exX2, exP2, exT2, exR2]

/-- Example node: a paddings constant with non-zero entries. -/
def exPadAmounts : NodeDef :=
  ⟨['p', 'a', 'd'], "Const".data, [], [],
    [("value".data, .tensor ⟨.DT_INT32, [2, 2], [1, 1, 2, 2]⟩)]⟩

/-- Example node: the constant that fills the padding. -/
def exFill : NodeDef := ⟨['c'], "Const".data, [], [], []⟩

/-- Example node: a `PadV2` of `X` that pads by the amounts of `exPadAmounts`. -/
def exPadV2 : NodeDef :=
  ⟨['P'], "PadV2".data, [], [['X'], ['p', 'a', 'd'], ['c']], []⟩

/-- Example node: a consumer of the pad `P`. -/
def exYP : NodeDef := ⟨['Y'], "Identity".data, [], [['P']], []⟩

/-- Example graph `X -> PadV2 -> Y` with a pad that is not a no-op. -/
def exPadV2Graph : GraphDef := [exX, exPadAmounts, exFill, exPadV2, exYP]

/-- Example node: a node with two outputs, the axis (output 0) and the value
(output 1). -/
def exAxisValue : NodeDef := ⟨['U'], "IteratorGetNext".data, [], [], []⟩

/-- Example node: a no-op split that reads its axis from `U` and its value from
`U:1`. -/
def exSplitOfU : NodeDef :=
  ⟨['S'], "Split".data, [], [['U'], ['U', ':', '1']], [("num_split".data, .i 1)]⟩

/-- Example graph: `U -> Split(num_split = 1) -> Y`, axis and value from the same
node. -/
def exSameSourceGraph : GraphDef := [exAxisValue, exSplitOfU, exY]

/-- The one match of the split pattern in `exSameSourceGraph`. -/
def exSameSourceMatch : NodeMatch := .mk exSplitOfU [.mk exAxisValue [], .mk exAxisValue []]

/-- Example node: a dilation of `X` by the filter `W`. -/
def exDilation : NodeDef :=
  ⟨['o', 'u', 't'], "Dilation2D".data, [], [['X'], ['W']],
    [("strides".data, .list_i [1, 1, 1, 1]), ("padding".data, .s "SAME".data)]⟩

/-- Example graph: a dilation named `out`. -/
def exDilationGraph : GraphDef := [exX, exW, exDilation]

/-- The one match of the dilation pattern in `exDilationGraph`. -/
def exDilationMatch : NodeMatch := .mk exDilation [.mk exX [], .mk exW []]

/-- Match bound at a position of a match: the path lists the input indices from
the root down (`[0, 0, 1]` is `match.inputs[0].inputs[0].inputs[1]`). -/
def NodeMatch.descend : NodeMatch → List Nat → Option NodeMatch
  | m, [] => some m
  | m, i :: path =>
    match m.inputs[i]? with
    | some c => c.descend path
    | none => none

/-- Entries of a permutation constant as the callbacks read them
(`GetNodeTensorAttr(node, "value").flat<int32_t>()`). -/
def permVector (node : NodeDef) : Option (List Int) :=
  match GetNodeTensorAttr node "value".data with
  | some t => t.flatInt32
  | none => none

/-- The replacement paddings constant that `FoldTransposedPads` builds. -/
def foldNewPaddingsNode (paddings_node : NodeDef) (new_paddings : Tensor) : NodeDef :=
  SetNodeTensorAttr "value".data new_paddings
    (SetNodeAttr "dtype".data (.type .DT_INT32)
      { NodeDef.empty with op := "Const".data, name := paddings_node.name })

/-- The replacement pad node that `FoldTransposedPads` builds. -/
def foldNewPadNode (pad_node input_node paddings_node : NodeDef) : NodeDef :=
  AddNodeInput paddings_node.name
    (AddNodeInput input_node.name
      (SetNodeAttr "T".data (.type .DT_FLOAT)
        { NodeDef.empty with op := "Pad".data, name := pad_node.name,
                             device := pad_node.device }))

/-- A callback accepts a match: called with empty side tables it returns the
replacement list `new_nodes` and records the rename of the root to `target`. -/
def Accepts (gen : NodeGenerator) (m : NodeMatch) (new_nodes : List NodeDef)
    (target : Str) : Prop :=
  ∃ st1, gen m ⟨[], []⟩ = some (new_nodes, st1) ∧ (m.node.name, target) ∈ st1.inputs_to_rename

/-- Conditions of the paths on which a callback returns the original match: a
checked node is a required name, the entries of a permutation constant that the
callback compares (the first four) are not the expected ones, or `num_split` is
not the integer 1. -/
def Transform.rejects : Transform → List Str → NodeMatch → Prop
  | .removeNoopSplit, required_nodes, m =>
    m.node.name ∈ required_nodes ∨ attrFind m.node.attr "num_split".data ≠ some (.i 1)
  | .removeNoopPadV2, required_nodes, m => m.node.name ∈ required_nodes
  | .dilation2DToMaxPool2D, required_nodes, m => m.node.name ∈ required_nodes
  | .foldTransposedPads, required_nodes, m =>
    (∃ n ∈ Transform.checkedNodes .foldTransposedPads m, n.name ∈ required_nodes) ∨
      (∃ c v, m.descend [0, 0, 1] = some c ∧ permVector c.node = some v ∧
        v.take 4 ≠ [0, 3, 1, 2]) ∨
      (∃ c v, m.descend [1] = some c ∧ permVector c.node = some v ∧
        v.take 4 ≠ [0, 2, 3, 1])
  | .swapTransMulAdd, required_nodes, m =>
    (∃ n ∈ Transform.checkedNodes .swapTransMulAdd m, n.name ∈ required_nodes) ∨
      (∃ c v, m.descend [0, 0, 1] = some c ∧ permVector c.node = some v ∧
        v.take 4 ≠ [0, 3, 1, 2])
  | .swapTransRelu, required_nodes, m =>
    ∃ n ∈ Transform.checkedNodes .swapTransRelu m, n.name ∈ required_nodes

/-- Example node: the permutation constant `[0, 3, 1, 2]`. -/
def exFoldPerm1 : NodeDef :=
  ⟨['p', '1'], "Const".data, [], [],
    [("value".data, .tensor ⟨.DT_INT32, [4], [0, 3, 1, 2]⟩)]⟩

/-- Example node: the first transpose, `X` moved to the layout of the pad. -/
def exFoldT1 : NodeDef := ⟨['T', '1'], "Transpose".data, [], [['X'], ['p', '1']], []⟩

/-- Example node: a paddings constant with the rows `[10, 11]`, `[20, 21]`,
`[30, 31]`, `[40, 41]`. -/
def exFoldPaddings : NodeDef :=
  ⟨['p', 'a', 'd', 's'], "Const".data, [], [],
    [("value".data, .tensor ⟨.DT_INT32, [4, 2], [10, 11, 20, 21, 30, 31, 40, 41]⟩)]⟩

/-- Example node: the pad between the two transposes. -/
def exFoldPad : NodeDef :=
  ⟨['P'], "Pad".data, [], [['T', '1'], ['p', 'a', 'd', 's']], []⟩

/-- Example node: the permutation constant `[0, 2, 3, 1]`. -/
def exFoldPerm2 : NodeDef :=
  ⟨['p', '2'], "Const".data, [], [],
    [("value".data, .tensor ⟨.DT_INT32, [4], [0, 2, 3, 1]⟩)]⟩

/-- Example node: the second transpose, the root of the pattern. -/
def exFoldT2 : NodeDef := ⟨['T', '2'], "Transpose".data, [], [['P'], ['p', '2']], []⟩

/-- Example node: a consumer of the second transpose, by data and by control
reference. -/
def exFoldY : NodeDef :=
  ⟨['Y'], "Identity".data, [], [['T', '2'], ['^', 'T', '2']], []⟩

/-- Example graph `X -> Transpose -> Pad -> Transpose -> Y`. -/
def exFoldGraph : GraphDef :=
  [exX, exFoldPerm1, exFoldT1, exFoldPaddings, exFoldPad, exFoldPerm2, exFoldT2, exFoldY]

/-- The one match of the fold pattern in `exFoldGraph`. -/
def exFoldMatch : NodeMatch :=
  .mk exFoldT2
    [.mk exFoldPad [.mk exFoldT1 [.mk exX [], .mk exFoldPerm1 []], .mk exFoldPaddings []],
     .mk exFoldPerm2 []]

/-- The paddings tensor of the example after the fold: rows 0, 2, 3, 1. -/
def exFoldNewPaddings : Tensor := ⟨.DT_INT32, [4, 2], [10, 11, 30, 31, 40, 41, 20, 21]⟩

/-- Positions of the permutation constants a callback compares, as paths from
the root of the match, each with the entries it expects. -/
def Transform.permutations : Transform → List (List Nat × List Int)
  | .foldTransposedPads => [([0, 0, 1], [0, 3, 1, 2]), ([1], [0, 2, 3, 1])]
  | .swapTransMulAdd => [([0, 0, 1], [0, 3, 1, 2])]
  | _ => []

/-- Example node: a permutation constant of five entries that starts with
`[0, 3, 1, 2]`. -/
def exFoldLongPerm1 : NodeDef :=
  ⟨['p', '1'], "Const".data, [], [],
    [("value".data, .tensor ⟨.DT_INT32, [5], [0, 3, 1, 2, 4]⟩)]⟩

/-- The graph `exFoldGraph` with the five-entry permutation constant in the
place of the first one. -/
def exFoldLongGraph : GraphDef :=
  [exX, exFoldLongPerm1, exFoldT1, exFoldPaddings, exFoldPad, exFoldPerm2, exFoldT2, exFoldY]

/-- The one match of the fold pattern in `exFoldLongGraph`. -/
def exFoldLongMatch : NodeMatch :=
  .mk exFoldT2
    [.mk exFoldPad [.mk exFoldT1 [.mk exX [], .mk exFoldLongPerm1 []], .mk exFoldPaddings []],
     .mk exFoldPerm2 []]

/-- Example nodes of a second chain `X2 -> Transpose -> Pad -> Transpose` whose
pad `Pb` waits for the second transpose `T2` of the first chain (control input
`^T2`). -/
def exChainPerm1 : NodeDef :=
  ⟨['p', '1', 'b'], "Const".data, [], [],
    [("value".data, .tensor ⟨.DT_INT32, [4], [0, 3, 1, 2]⟩)]⟩

/-- Example node: the first transpose of the second chain. -/
def exChainT1 : NodeDef :=
  ⟨['T', '1', 'b'], "Transpose".data, [], [['X', '2'], ['p', '1', 'b']], []⟩

/-- Example node: the paddings constant of the second chain. -/
def exChainPaddings : NodeDef :=
  ⟨['p', 'a', 'd', 's', 'b'], "Const".data, [], [],
    [("value".data, .tensor ⟨.DT_INT32, [4, 2], [10, 11, 20, 21, 30, 31, 40, 41]⟩)]⟩

/-- Example node: the pad of the second chain, with the control input `^T2`. -/
def exChainPad : NodeDef :=
  ⟨['P', 'b'], "Pad".data, [],
    [['T', '1', 'b'], ['p', 'a', 'd', 's', 'b'], ['^', 'T', '2']], []⟩

/-- Example node: the second permutation constant of the second chain. -/
def exChainPerm2 : NodeDef :=
  ⟨['p', '2', 'b'], "Const".data, [], [],
    [("value".data, .tensor ⟨.DT_INT32, [4], [0, 2, 3, 1]⟩)]⟩

/-- Example node: the second transpose of the second chain. -/
def exChainT2 : NodeDef :=
  ⟨['T', '2', 'b'], "Transpose".data, [], [['P', 'b'], ['p', '2', 'b']], []⟩

/-- Example graph: the chain of `exFoldGraph` and the second chain. -/
def exTwoChainGraph : GraphDef :=
  exFoldGraph ++ [exX2, exChainPerm1, exChainT1, exChainPaddings, exChainPad, exChainPerm2,
    exChainT2]

/-- The match of the second chain. -/
def exChainMatch : NodeMatch :=
  .mk exChainT2
    [.mk exChainPad [.mk exChainT1 [.mk exX2 [], .mk exChainPerm1 []], .mk exChainPaddings []],
     .mk exChainPerm2 []]

instance : DecidablePred GoodName := fun s => by
  unfold GoodName
  exact inferInstance

/-- The match of the relu pattern at `R` (in `exReluGraph` and in
`exTwoReluGraph`). -/
def exReluMatch : NodeMatch := .mk exR [.mk exT [.mk exX [], .mk exP []]]

/-- The match of the relu pattern at `R2` in `exTwoReluGraph`. -/
def exReluMatch2 : NodeMatch := .mk exR2 [.mk exT2 [.mk exX2 [], .mk exP2 []]]

/-- Example node: a transpose of output 1 of the two-output node `U`. -/
def exIdxT : NodeDef := ⟨['T'], "Transpose".data, [], [['U', ':', '1'], ['p']], []⟩

/-- Example graph: `Relu(Transpose(U:1, p))` with the consumer `Y`. -/
def exIdxReluGraph : GraphDef := [exX, exU, exP, exIdxT, exR, exYR]

/-- Example node: a dilation of output 1 of `U`. -/
def exIdxDilation : NodeDef :=
  ⟨['o', 'u', 't'], "Dilation2D".data, [], [['U', ':', '1'], ['W']],
    [("strides".data, .list_i [1, 1, 1, 1]), ("padding".data, .s "SAME".data)]⟩

/-- Example graph: a dilation of `U:1`. -/
def exIdxDilationGraph : GraphDef := [exX, exU, exW, exIdxDilation]

/-- Example node: the first transpose of a fold chain, reading output 1 of `U`. -/
def exIdxFoldT1 : NodeDef :=
  ⟨['T', '1'], "Transpose".data, [], [['U', ':', '1'], ['p', '1']], []⟩

/-- Example graph: the chain of `exFoldGraph` over `U:1`. -/
def exIdxFoldGraph : GraphDef :=
  [exX, exU, exFoldPerm1, exIdxFoldT1, exFoldPaddings, exFoldPad, exFoldPerm2, exFoldT2, exFoldY]

/-- Example node: a weights constant of shape `(1, 2, 2, 2)`. -/
def exMulWeights : NodeDef :=
  ⟨['w'], "Const".data, [], [],
    [("value".data, .tensor ⟨.DT_FLOAT, [1, 2, 2, 2], [1, 2, 3, 4, 5, 6, 7, 8]⟩)]⟩

/-- Example node: the multiplication of the transposed value by the weights. -/
def exMul : NodeDef := ⟨['M'], "Mul".data, [], [['T', '1'], ['w']], []⟩

/-- Example node: a bias constant of shape `(1, 2, 1, 1)`. -/
def exMulBias : NodeDef :=
  ⟨['b'], "Const".data, [], [],
    [("value".data, .tensor ⟨.DT_FLOAT, [1, 2, 1, 1], [7, 8]⟩)]⟩

/-- Example node: the addition of the bias. -/
def exAdd : NodeDef := ⟨['A'], "AddV2".data, [], [['M'], ['b']], []⟩

/-- Example node: a consumer of the addition. -/
def exMulY : NodeDef := ⟨['Y'], "Identity".data, [], [['A']], []⟩

/-- Example graph: `AddV2(Mul(Transpose(X, p1), w), b)` with the consumer `Y`. -/
def exMulAddGraph : GraphDef :=
  [exX, exFoldPerm1, exFoldT1, exMulWeights, exMul, exMulBias, exAdd, exMulY]

/-- The one match of the multiply-add pattern in `exMulAddGraph`. -/
def exMulAddMatch : NodeMatch :=
  .mk exAdd
    [.mk exMul [.mk exFoldT1 [.mk exX [], .mk exFoldPerm1 []], .mk exMulWeights []],
     .mk exMulBias []]

/-- Example graph: the multiply-add chain over `U:1`. -/
def exIdxMulAddGraph : GraphDef :=
  [exX, exU, exFoldPerm1, exIdxFoldT1, exMulWeights, exMul, exMulBias, exAdd, exMulY]

/-- Example node: an `int32` vector `[0]`. -/
def exVec : NodeDef :=
  ⟨['c'], "Const".data, [], [], [("value".data, .tensor ⟨.DT_INT32, [1], [0]⟩)]⟩

/-- Example node: the transpose of the vector `c` by the permutation `c`. -/
def exVecT : NodeDef := ⟨['T'], "Transpose".data, [], [['c'], ['c']], []⟩

/-- Example graph: `Relu(Transpose(c, c))` with the consumer `Y`; the value and
the permutation of the transpose are the same node. -/
def exSharedLeafGraph : GraphDef := [exVec, exVecT, exR, exYR]

/-- Example node: the transpose of the weights constant. -/
def exWeightsT : NodeDef := ⟨['T', '1'], "Transpose".data, [], [['w'], ['p', '1']], []⟩

/-- Example graph: `AddV2(Mul(Transpose(w, p1), w), b)`; the transposed value and
the weights are the same node. -/
def exSharedWeightsGraph : GraphDef :=
  [exFoldPerm1, exMulWeights, exWeightsT, exMul, exMulBias, exAdd, exMulY]

/-- Inputs of the nodes of a given name in the output of a run. -/
def inputsOfNamed (run : Option TransformRun) (name : Str) : Option (List (List Str)) :=
  run.map fun r => (r.output_graph_def.filter fun n => n.name = name).map NodeDef.input

/-- Entry `[a, b, c, d]` of a 4-D tensor, stored in row-major order; no result
for another rank or an index outside the storage. -/
def Tensor.at4 (t : Tensor) (a b c d : Nat) : Option Int :=
  match t.shape with
  | [_, e1, e2, e3] => t.vals[((a * e1 + b) * e2 + c) * e3 + d]?
  | _ => none

/-- The `Transpose` operation with the permutation `[0, 3, 1, 2]` on the scalars
of a 4-D tensor of shape `(e0, e1, e2, e3)`: the result has shape
`(e0, e3, e1, e2)` and its entry `[i, j, k, l]` is the entry `[i, k, l, j]` of the
argument (output dimension `n` is input dimension `perm[n]`). -/
def transpose0312 (e0 e1 e2 e3 : Nat) (vals : List Int) : List Int :=
  (List.range e0).flatMap fun i =>
    (List.range e3).flatMap fun j =>
      (List.range e1).flatMap fun k =>
        (List.range e2).map fun l => vals.getD (((i * e1 + k) * e2 + l) * e3 + j) 0

/-- The `Transpose` operation with the permutation `[0, 3, 1, 2]` on a 4-D
tensor; a tensor of another rank is left alone. -/
def Tensor.transpose0312 (t : Tensor) : Tensor :=
  match t.shape with
  | [e0, e1, e2, e3] =>
    { dtype := t.dtype, shape := [e0, e3, e1, e2],
      vals := GraphTransforms.transpose0312 e0 e1 e2 e3 t.vals }
  | _ => t

/-- The replacement constant that `SwapTransMulAdd` builds for the weights and
for the bias: a `Const` with the name of the old constant, `dtype` float and the
given value. -/
def mulAddConstNode (node : NodeDef) (value : Tensor) : NodeDef :=
  SetNodeTensorAttr "value".data value
    (SetNodeAttr "dtype".data (.type .DT_FLOAT)
      { NodeDef.empty with op := "Const".data, name := node.name })

/-- The node `new_node` is the constant `old_node`, of value `w`, moved to the
layout before the transpose: `w` has a shape `(d0, d1, d2, d3)`, `new_node` is a
`Const` of the same name whose value `r` has the shape `(d0, d2, d3, d1)`, every
in-range entry `r[a, b, c, d]` exists and is `w[a, d, b, c]`, and the transpose
of `r` with the permutation `[0, 3, 1, 2]` is `w`. -/
def IsPermutedConstant (old_node new_node : NodeDef) (w : Tensor) : Prop :=
  ∃ d0 d1 d2 d3 r, w.shape = [d0, d1, d2, d3] ∧
    new_node.name = old_node.name ∧ new_node.op = "Const".data ∧
    attrFind new_node.attr "value".data = some (.tensor r) ∧
    r.shape = [d0, d2, d3, d1] ∧
    (∀ a b c d, a < d0 → b < d2 → c < d3 → d < d1 →
      (r.at4 a b c d).isSome ∧ r.at4 a b c d = w.at4 a d b c) ∧
    r.transpose0312 = w

/-- The list the callback of `SwapTransMulAdd` returns for `exMulAddMatch`. -/
def exMulAddNewNodes : List NodeDef :=
  [exX,
   mulAddConstNode exMulWeights ⟨.DT_FLOAT, [1, 2, 2, 2], [1, 5, 2, 6, 3, 7, 4, 8]⟩,
   AddNodeInput ['w'] (AddNodeInput ['X'] (SetNodeAttr "T".data (.type .DT_FLOAT)
     { NodeDef.empty with op := "Mul".data, name := ['M'] })),
   mulAddConstNode exMulBias ⟨.DT_FLOAT, [1, 1, 1, 2], [7, 8]⟩,
   AddNodeInput ['b'] (AddNodeInput ['M'] (SetNodeAttr "T".data (.type .DT_FLOAT)
     { NodeDef.empty with op := "AddV2".data, name := ['A'] })),
   exFoldPerm1,
   { exFoldT1 with input := [['A'], ['p', '1']] }]

/-- Data edges of a graph run from lower to higher `rank`: every data input of a
node resolves to a node of lower rank.  A graph has such a rank exactly when its
data edges form no cycle. -/
def DataflowRank (g : GraphDef) (rank : Str → Nat) : Prop :=
  ∀ n ∈ g, ∀ r ∈ nonControlInputs n, ∀ x, nodeByName g (NodeNameFromInput r) = some x →
    rank x.name < rank n.name

/-- A node the rebuilder hands to the renamer: a node of the input graph that no
match consumes, or a node of the list the callback returns for a match of the
input graph (copied from the graph or built by the callback). -/
def ReachesRenamer (t : Transform) (g : GraphDef) (ctx : TransformFuncContext)
    (A : NodeDef) : Prop :=
  (A ∈ g ∧ A.name ∉ matchedNames (GetOpTypeMatches g t.pattern)) ∨
    ∃ m ∈ GetOpTypeMatches g t.pattern, ∃ st nn st1,
      t.callback (requiredNodes ctx) m st = some (nn, st1) ∧ A ∈ nn

/-- The run of `FoldTransposedPads` on `exFoldGraph` with the declared output
`Y`: the output graph and the two side tables. -/
def exFoldRun : TransformRun :=
  ⟨[foldNewPaddingsNode exFoldPaddings exFoldNewPaddings,
      foldNewPadNode exFoldPad exX exFoldPaddings, exX, exFoldT1, exFoldPerm1,
      { exFoldY with input := [['P'], ['^', 'P']] }],
    [(['^', 'T', '2'], ['^', 'P']), (['T', '2'], ['P'])], []⟩

/-- The run of `RemoveNoopSplit` on `exElisionGraph` with the declared output
`Y`: the output graph and the two side tables. -/
def exElisionRun : TransformRun :=
  ⟨[exX, { exY with input := [['X']] }], [(['^', 'S'], ['^', 'X']), (['S'], ['X'])], []⟩

/-- Op type at the root of a pattern. -/
def OpTypePattern.op : OpTypePattern → Str
  | .mk op _ => op

/-! END OF DEFINITIONS -/

/-! # Theorems -/

/-! ## Facts about names and the matcher -/

theorem takeWhile_no_colon (s : Str) : ':' ∉ s.takeWhile (fun c => c ≠ ':') := by
  induction s with
  | nil => simp
  | cons c s ih =>
    by_cases h : c = ':'
    · simp [List.takeWhile, h]
    · simp only [List.takeWhile, ne_eq, h, not_false_eq_true, decide_True, List.mem_cons, not_or]
      exact ⟨fun h2 => h h2.symm, ih⟩

theorem NodeNameFromInput_good (r : Str) (h : r ≠ [] ∧ r.head? ≠ some '^') :
    GoodName (NodeNameFromInput r) := by
  obtain ⟨h1, h2⟩ := h
  cases r with
  | nil => exact absurd rfl h1
  | cons c r =>
    have hc : c ≠ '^' := by simpa using h2
    have key : NodeNameFromInput (c :: r) = (c :: r).takeWhile (fun c => c ≠ ':') := by
      unfold NodeNameFromInput
      by_cases h : c = ':'
      · simp [List.takeWhile, h]
      · simp only [List.takeWhile, ne_eq, h, not_false_eq_true, decide_True]
        split
        · next heq => simp at heq; exact absurd heq.1 hc
        · rfl
    rw [key]
    refine ⟨takeWhile_no_colon _, ?_⟩
    by_cases h : c = ':'
    · simp [List.takeWhile, h]
    · simp [List.takeWhile, h, hc]

theorem nodeByName_some {g : GraphDef} {s : Str} {n : NodeDef} (h : nodeByName g s = some n) :
    n ∈ g ∧ n.name = s := by
  unfold nodeByName at h
  exact ⟨List.mem_of_find?_eq_some h, by simpa using List.find?_some h⟩

theorem nonControlInputs_spec (node : NodeDef) :
    ∀ r ∈ nonControlInputs node, r ≠ [] ∧ r.head? ≠ some '^' := by
  intro r hr
  unfold nonControlInputs at hr
  simpa using (List.mem_filter.mp hr).2

@[simp] theorem allNodes_mk (n : NodeDef) (ins : List NodeMatch) :
    (NodeMatch.mk n ins).allNodes = n :: allNodesList ins := by
  simp [NodeMatch.allNodes]

@[simp] theorem allNodesList_nil : allNodesList [] = [] := by simp [allNodesList]

@[simp] theorem allNodesList_cons (m : NodeMatch) (ms : List NodeMatch) :
    allNodesList (m :: ms) = m.allNodes ++ allNodesList ms := by simp [allNodesList]

theorem allNodes_eq (m : NodeMatch) : m.allNodes = m.node :: allNodesList m.inputs := by
  cases m; simp [NodeMatch.node, NodeMatch.inputs]

mutual
theorem DoesOpTypeMatch_sound (g : GraphDef) (prev : List Str) (node : NodeDef) :
    ∀ (p : OpTypePattern) (m : NodeMatch), DoesOpTypeMatch g prev node p = some m →
      m.node = node ∧ node.name ∉ prev ∧
        ∀ n ∈ allNodesList m.inputs, n ∈ g ∧ GoodName n.name ∧ n.name ∉ prev
  | .mk op inputs, m, h => by
    unfold DoesOpTypeMatch at h
    split_ifs at h with h1 h2 h3 h4
    · cases h
      exact ⟨rfl, h1, by simp [NodeMatch.inputs]⟩
    · simp only [Option.map_eq_some'] at h
      obtain ⟨ms, hms, rfl⟩ := h
      refine ⟨rfl, h1, ?_⟩
      exact matchInputs_sound g prev (nonControlInputs node) inputs ms
        (nonControlInputs_spec node) hms
theorem matchInputs_sound (g : GraphDef) (prev : List Str) :
    ∀ (rs : List Str) (ps : List OpTypePattern) (ms : List NodeMatch),
      (∀ r ∈ rs, r ≠ [] ∧ r.head? ≠ some '^') →
      matchInputs g prev rs ps = some ms →
      ∀ n ∈ allNodesList ms, n ∈ g ∧ GoodName n.name ∧ n.name ∉ prev
  | [], _, ms, _, h => by
    unfold matchInputs at h
    cases h; simp
  | _ :: _, [], ms, _, h => by
    unfold matchInputs at h
    cases h; simp
  | r :: rs, p :: ps, ms, hr, h => by
    unfold matchInputs at h
    split at h
    · cases h
    · next input_node hlook =>
      split at h
      · cases h
      · next m hm =>
        split at h
        · cases h
        · next ms1 hms1 =>
          cases h
          obtain ⟨hin, hname⟩ := nodeByName_some hlook
          obtain ⟨e1, e2, e3⟩ := DoesOpTypeMatch_sound g prev input_node p m hm
          have ih := matchInputs_sound g prev rs ps ms1
            (fun r hr1 => hr r (List.mem_cons_of_mem _ hr1)) hms1
          intro n hn
          simp only [allNodesList_cons, List.mem_append] at hn
          rcases hn with hn | hn
          · rw [allNodes_eq, e1, List.mem_cons] at hn
            rcases hn with rfl | hn
            · refine ⟨hin, ?_, e2⟩
              rw [hname]
              exact NodeNameFromInput_good r (hr r (List.mem_cons_self _ _))
            · exact e3 n hn
          · exact ih n hn
end
/-! ## Facts about the scan -/

/-- Names of the nodes of a match found by the matcher avoid the consumed set. -/
theorem DoesOpTypeMatch_fresh {g : GraphDef} {prev : List Str} {node : NodeDef}
    {p : OpTypePattern} {m : NodeMatch} (h : DoesOpTypeMatch g prev node p = some m) :
    ∀ n ∈ m.allNodes, n.name ∉ prev := by
  obtain ⟨e1, e2, e3⟩ := DoesOpTypeMatch_sound g prev node p m h
  intro n hn
  rw [allNodes_eq, List.mem_cons] at hn
  rcases hn with rfl | hn
  · rw [e1]; exact e2
  · exact (e3 n hn).2.2

theorem scanMatches_sound (g : GraphDef) (p : OpTypePattern) :
    ∀ (nodes : List NodeDef) (prev : List Str), (∀ n ∈ nodes, n ∈ g) →
      (∀ m ∈ scanMatches g p nodes prev,
        FoundMatch g m ∧ m.node ∈ nodes ∧ (∃ prev1, DoesOpTypeMatch g prev1 m.node p = some m) ∧
          ∀ n ∈ m.allNodes, n.name ∉ prev) ∧
      (scanMatches g p nodes prev).Pairwise
        (fun a b => ∀ x ∈ a.allNodes, ∀ y ∈ b.allNodes, x.name ≠ y.name) := by
  intro nodes
  induction nodes with
  | nil => intro prev _; simp [scanMatches]
  | cons node rest ih =>
    intro prev hg
    have hrest : ∀ n ∈ rest, n ∈ g := fun n hn => hg n (List.mem_cons_of_mem _ hn)
    unfold scanMatches
    split_ifs with h1
    · obtain ⟨a, b⟩ := ih prev hrest
      exact ⟨fun m hm => by
        obtain ⟨x1, x2, x3, x4⟩ := a m hm
        exact ⟨x1, List.mem_cons_of_mem _ x2, x3, x4⟩, b⟩
    · split
      · next m hm =>
        obtain ⟨e1, e2, e3⟩ := DoesOpTypeMatch_sound g prev node p m hm
        obtain ⟨a, b⟩ := ih (RecordMatchedNodes m prev) hrest
        constructor
        · intro m1 hm1
          rw [List.mem_cons] at hm1
          rcases hm1 with rfl | hm1
          · refine ⟨⟨?_, fun n hn => (e3 n hn).1, fun n hn => (e3 n hn).2.1⟩, ?_, ⟨prev, ?_⟩,
              DoesOpTypeMatch_fresh hm⟩
            · rw [e1]; exact hg node (List.mem_cons_self _ _)
            · rw [e1]; exact List.mem_cons_self _ _
            · rw [e1]; exact hm
          · obtain ⟨x1, x2, x3, x4⟩ := a m1 hm1
            refine ⟨x1, List.mem_cons_of_mem _ x2, x3, fun n hn hp => x4 n hn ?_⟩
            unfold RecordMatchedNodes
            exact List.mem_append_right _ hp
        · rw [List.pairwise_cons]
          refine ⟨?_, b⟩
          intro m1 hm1 x hx y hy hxy
          obtain ⟨_, _, _, x4⟩ := a m1 hm1
          apply x4 y hy
          unfold RecordMatchedNodes
          apply List.mem_append_left
          rw [← hxy]
          exact List.mem_map_of_mem _ hx
      · obtain ⟨a, b⟩ := ih prev hrest
        exact ⟨fun m hm => by
          obtain ⟨x1, x2, x3, x4⟩ := a m hm
          exact ⟨x1, List.mem_cons_of_mem _ x2, x3, x4⟩, b⟩

theorem GetOpTypeMatches_found {g : GraphDef} {p : OpTypePattern} {m : NodeMatch}
    (hm : m ∈ GetOpTypeMatches g p) : FoundMatch g m :=
  ((scanMatches_sound g p g [] (fun _ h => h)).1 m hm).1

theorem GetOpTypeMatches_matched {g : GraphDef} {p : OpTypePattern} {m : NodeMatch}
    (hm : m ∈ GetOpTypeMatches g p) : ∃ prev, DoesOpTypeMatch g prev m.node p = some m :=
  ((scanMatches_sound g p g [] (fun _ h => h)).1 m hm).2.2.1

theorem GetOpTypeMatches_disjoint (g : GraphDef) (p : OpTypePattern) :
    (GetOpTypeMatches g p).Pairwise
      (fun a b => ∀ x ∈ a.allNodes, ∀ y ∈ b.allNodes, x.name ≠ y.name) :=
  (scanMatches_sound g p g [] (fun _ h => h)).2

theorem node_mem_allNodes (m : NodeMatch) : m.node ∈ m.allNodes := by
  rw [allNodes_eq]; exact List.mem_cons_self _ _

/-- In a list of matches with pairwise disjoint names, two matches that share a
name are the same match. -/
theorem pairwise_disjoint_eq {ms : List NodeMatch}
    (hd : ms.Pairwise (fun a b => ∀ x ∈ a.allNodes, ∀ y ∈ b.allNodes, x.name ≠ y.name))
    {a b : NodeMatch} (ha : a ∈ ms) (hb : b ∈ ms) {x y : NodeDef} (hx : x ∈ a.allNodes)
    (hy : y ∈ b.allNodes) (hxy : x.name = y.name) : a = b := by
  induction ms with
  | nil => cases ha
  | cons c ms ih =>
    rw [List.pairwise_cons] at hd
    rw [List.mem_cons] at ha hb
    rcases ha with rfl | ha <;> rcases hb with rfl | hb
    · rfl
    · exact absurd hxy (hd.1 b hb x hx y hy)
    · exact absurd hxy.symm (hd.1 a ha y hy x hx)
    · exact ih hd.2 ha hb

/-- The head-name index of the rebuilder finds each match under its root name. -/
theorem find_head {ms : List NodeMatch}
    (hd : ms.Pairwise (fun a b => ∀ x ∈ a.allNodes, ∀ y ∈ b.allNodes, x.name ≠ y.name))
    {m : NodeMatch} (hm : m ∈ ms) :
    ms.find? (fun m1 => m1.node.name = m.node.name) = some m := by
  cases hf : ms.find? (fun m1 => m1.node.name = m.node.name) with
  | none =>
    have := List.find?_eq_none.mp hf m hm
    simp at this
  | some m1 =>
    have h1 := List.mem_of_find?_eq_some hf
    have h2 : m1.node.name = m.node.name := by simpa using List.find?_some hf
    rw [pairwise_disjoint_eq hd h1 hm (node_mem_allNodes m1) (node_mem_allNodes m) h2]

/-- A head-name hit of the rebuilder is a match of the list with that root name. -/
theorem find_head_some {ms : List NodeMatch} {name : Str} {m : NodeMatch}
    (h : ms.find? (fun m1 => m1.node.name = name) = some m) : m ∈ ms ∧ m.node.name = name :=
  ⟨List.mem_of_find?_eq_some h, by simpa using List.find?_some h⟩

/-! ## Facts about the rebuilder -/

/-- Every node of the rebuilt graph is an untouched node of the input or a node
of the fragment the callback returned for some match. -/
theorem rebuildNodes_mem (ms : List NodeMatch) (gen : NodeGenerator) :
    ∀ (nodes : List NodeDef) (st : RewriteState) (out : List NodeDef) (st2 : RewriteState),
      rebuildNodes ms gen nodes st = some (out, st2) →
      ∀ n ∈ out, (n ∈ nodes ∧ n.name ∉ matchedNames ms) ∨
        ∃ m ∈ ms, ∃ s s1 new_nodes, gen m s = some (new_nodes, s1) ∧ n ∈ new_nodes := by
  intro nodes
  induction nodes with
  | nil =>
    intro st out st2 h
    simp only [rebuildNodes, Option.some.injEq, Prod.mk.injEq] at h
    obtain ⟨rfl, _⟩ := h
    simp
  | cons node rest ih =>
    intro st out st2 h n hn
    unfold rebuildNodes at h
    split at h
    · next m hfind =>
      split at h
      · cases h
      · next new_nodes st1 hgen =>
        split at h
        · cases h
        · next out1 st3 hrest =>
          simp only [Option.some.injEq, Prod.mk.injEq] at h
          obtain ⟨rfl, rfl⟩ := h
          rw [List.mem_append] at hn
          rcases hn with hn | hn
          · exact Or.inr ⟨m, (find_head_some hfind).1, st, st1, new_nodes, hgen, hn⟩
          · rcases ih st1 out1 st3 hrest n hn with ⟨a, b⟩ | c
            · exact Or.inl ⟨List.mem_cons_of_mem _ a, b⟩
            · exact Or.inr c
    · split_ifs at h with hmem
      · rcases ih st out st2 h n hn with ⟨a, b⟩ | c
        · exact Or.inl ⟨List.mem_cons_of_mem _ a, b⟩
        · exact Or.inr c
      · split at h
        · cases h
        · next out1 st3 hrest =>
          simp only [Option.some.injEq, Prod.mk.injEq] at h
          obtain ⟨rfl, rfl⟩ := h
          rw [List.mem_cons] at hn
          rcases hn with rfl | hn
          · exact Or.inl ⟨List.mem_cons_self _ _, hmem⟩
          · rcases ih st out1 st3 hrest n hn with ⟨a, b⟩ | c
            · exact Or.inl ⟨List.mem_cons_of_mem _ a, b⟩
            · exact Or.inr c

/-- The fragment of the match found under the name of an input node is part of
the rebuilt graph. -/
theorem rebuildNodes_fragment (ms : List NodeMatch) (gen : NodeGenerator) :
    ∀ (nodes : List NodeDef) (st : RewriteState) (out : List NodeDef) (st2 : RewriteState),
      rebuildNodes ms gen nodes st = some (out, st2) →
      ∀ node ∈ nodes, ∀ m, ms.find? (fun m1 => m1.node.name = node.name) = some m →
        ∃ s s1 new_nodes, gen m s = some (new_nodes, s1) ∧ ∀ n ∈ new_nodes, n ∈ out := by
  intro nodes
  induction nodes with
  | nil => intro st out st2 _ node hnode; cases hnode
  | cons node0 rest ih =>
    intro st out st2 h node hnode m hfindm
    unfold rebuildNodes at h
    split at h
    · next m0 hfind =>
      split at h
      · cases h
      · next new_nodes st1 hgen =>
        split at h
        · cases h
        · next out1 st3 hrest =>
          simp only [Option.some.injEq, Prod.mk.injEq] at h
          obtain ⟨rfl, rfl⟩ := h
          rw [List.mem_cons] at hnode
          rcases hnode with rfl | hnode
          · rw [hfind] at hfindm
            cases hfindm
            exact ⟨st, st1, new_nodes, hgen, fun n hn => List.mem_append_left _ hn⟩
          · obtain ⟨s, s1, nn, a, b⟩ := ih st1 out1 st3 hrest node hnode m hfindm
            exact ⟨s, s1, nn, a, fun n hn => List.mem_append_right _ (b n hn)⟩
    · next hfind =>
      have hne : node ≠ node0 := by
        rintro rfl
        rw [hfind] at hfindm
        cases hfindm
      rw [List.mem_cons] at hnode
      have hnode1 : node ∈ rest := hnode.resolve_left hne
      split_ifs at h with hmem
      · exact ih st out st2 h node hnode1 m hfindm
      · split at h
        · cases h
        · next out1 st3 hrest =>
          simp only [Option.some.injEq, Prod.mk.injEq] at h
          obtain ⟨rfl, rfl⟩ := h
          obtain ⟨s, s1, nn, a, b⟩ := ih st out1 st3 hrest node hnode1 m hfindm
          exact ⟨s, s1, nn, a, fun n hn => List.mem_cons_of_mem _ (b n hn)⟩

theorem mem_allNodesList {ms : List NodeMatch} {n : NodeDef} :
    n ∈ allNodesList ms ↔ ∃ m ∈ ms, n ∈ m.allNodes := by
  induction ms with
  | nil => simp
  | cons c ms ih => simp [ih]

theorem root_name_matched {ms : List NodeMatch} {m : NodeMatch} (hm : m ∈ ms) :
    m.node.name ∈ matchedNames ms := by
  unfold matchedNames
  exact List.mem_map_of_mem _ (mem_allNodesList.mpr ⟨m, hm, node_mem_allNodes m⟩)

/-- A node consumed by no match is copied to the rebuilt graph. -/
theorem rebuildNodes_copy (ms : List NodeMatch) (gen : NodeGenerator) :
    ∀ (nodes : List NodeDef) (st : RewriteState) (out : List NodeDef) (st2 : RewriteState),
      rebuildNodes ms gen nodes st = some (out, st2) →
      ∀ node ∈ nodes, node.name ∉ matchedNames ms → node ∈ out := by
  intro nodes
  induction nodes with
  | nil => intro st out st2 _ node hnode; cases hnode
  | cons node0 rest ih =>
    intro st out st2 h node hnode hfree
    unfold rebuildNodes at h
    split at h
    · next m0 hfind =>
      obtain ⟨hm0, hname⟩ := find_head_some hfind
      have hne : node ≠ node0 := by
        rintro rfl
        apply hfree
        rw [← hname]
        exact root_name_matched hm0
      rw [List.mem_cons] at hnode
      have hnode1 : node ∈ rest := hnode.resolve_left hne
      split at h
      · cases h
      · next new_nodes st1 hgen =>
        split at h
        · cases h
        · next out1 st3 hrest =>
          simp only [Option.some.injEq, Prod.mk.injEq] at h
          obtain ⟨rfl, rfl⟩ := h
          exact List.mem_append_right _ (ih st1 out1 st3 hrest node hnode1 hfree)
    · split_ifs at h with hmem
      · have hne : node ≠ node0 := by
          rintro rfl
          exact hfree hmem
        rw [List.mem_cons] at hnode
        exact ih st out st2 h node (hnode.resolve_left hne) hfree
      · split at h
        · cases h
        · next out1 st3 hrest =>
          simp only [Option.some.injEq, Prod.mk.injEq] at h
          obtain ⟨rfl, rfl⟩ := h
          rw [List.mem_cons] at hnode
          rcases hnode with rfl | hnode
          · exact List.mem_cons_self _ _
          · exact List.mem_cons_of_mem _ (ih st out1 st3 hrest node hnode hfree)

/-! ## Facts about the callbacks -/

@[simp] theorem CopyOriginalMatch_nil (m : NodeMatch) :
    CopyOriginalMatch m [] = MatchedNodesAsArray m := by
  simp [CopyOriginalMatch]

theorem NodeNameFromInput_of_good {s : Str} (h : GoodName s) : NodeNameFromInput s = s := by
  obtain ⟨h1, h2⟩ := h
  have ht : s.takeWhile (fun c => c ≠ ':') = s := by
    rw [List.takeWhile_eq_self_iff]
    intro c hc
    simp only [ne_eq, decide_not, Bool.not_eq_eq_eq_not, Bool.not_true, decide_eq_false_iff_not]
    rintro rfl
    exact h1 hc
  unfold NodeNameFromInput
  rw [ht]
  split
  · exact absurd rfl h2
  · rfl

theorem NodeNameFromInput_caret {s : Str} (h : s.head? ≠ some '^') :
    NodeNameFromInput ('^' :: s) = NodeNameFromInput s := by
  unfold NodeNameFromInput
  have e : List.takeWhile (fun c => decide (c ≠ ':')) ('^' :: s) =
      '^' :: List.takeWhile (fun c => decide (c ≠ ':')) s := by
    simp [List.takeWhile]
  rw [e]
  simp only
  split
  · next rest heq =>
    exfalso
    apply h
    cases s with
    | nil => simp at heq
    | cons c s =>
      by_cases hc : c = ':'
      · simp [List.takeWhile, hc] at heq
      · simp [List.takeWhile, hc] at heq
        simp [heq.1]
  · rfl

/-- A reference that starts with a good name and goes on with `:` or ends there
has that name as its base name. -/
theorem NodeNameFromInput_of_scan {name input : Str} (hg : GoodName name)
    (h1 : input.take name.length = name)
    (h2 : input.length = name.length ∨ input.get? name.length = some ':') :
    NodeNameFromInput input = name ∧ input.head? ≠ some '^' := by
  obtain ⟨g1, g2⟩ := hg
  have hsplit : input = name ++ input.drop name.length := by
    conv_lhs => rw [← List.take_append_drop name.length input, h1]
  have hrest : input.drop name.length = [] ∨ ∃ t, input.drop name.length = ':' :: t := by
    rcases h2 with h2 | h2
    · left; rw [List.drop_eq_nil_iff]; omega
    · right
      cases hd : input.drop name.length with
      | nil =>
        rw [List.drop_eq_nil_iff] at hd
        rw [List.get?_eq_none.mpr hd] at h2
        cases h2
      | cons c t =>
        have : input.get? name.length = some c := by
          have := List.getElem?_drop input name.length 0
          rw [hd] at this
          simpa [List.get?_eq_getElem?] using this.symm
        rw [this] at h2
        cases h2
        exact ⟨t, rfl⟩
  have htw : input.takeWhile (fun c => c ≠ ':') = name := by
    rw [hsplit]
    rcases hrest with e | ⟨t, e⟩
    · rw [e, List.append_nil, List.takeWhile_eq_self_iff]
      intro c hc
      simp only [ne_eq, decide_not, Bool.not_eq_eq_eq_not, Bool.not_true,
        decide_eq_false_iff_not]
      rintro rfl
      exact g1 hc
    · rw [e]
      rw [List.takeWhile_append_of_pos]
      · simp [List.takeWhile]
      · intro c hc
        simp only [ne_eq, decide_not, Bool.not_eq_eq_eq_not, Bool.not_true,
          decide_eq_false_iff_not]
        rintro rfl
        exact g1 hc
  constructor
  · unfold NodeNameFromInput
    rw [htw]
    split
    · exact absurd rfl g2
    · rfl
  · rw [hsplit]
    cases name with
    | nil =>
      rcases hrest with e | ⟨t, e⟩
      · rw [e]; simp
      · rw [e]; simp
    | cons c name => simpa using g2

theorem scanTargetName_base {name : Str} (hg : GoodName name) :
    ∀ inputs : List Str, NodeNameFromInput (scanTargetName name inputs) = name ∧
      (scanTargetName name inputs).head? ≠ some '^'
  | [] => by
    unfold scanTargetName
    exact ⟨NodeNameFromInput_of_good hg, hg.2⟩
  | input :: rest => by
    unfold scanTargetName
    split_ifs with h
    · exact NodeNameFromInput_of_scan hg h.1 h.2
    · exact scanTargetName_base hg rest

theorem allNodes_of_getElem? {l : List NodeMatch} {i : Nat} {c : NodeMatch}
    (h : l[i]? = some c) : ∀ n ∈ c.allNodes, n ∈ allNodesList l := by
  intro n hn
  exact mem_allNodesList.mpr ⟨c, List.getElem?_mem h, hn⟩

theorem node_of_getElem? {l : List NodeMatch} {i : Nat} {c : NodeMatch}
    (h : l[i]? = some c) : c.node ∈ allNodesList l :=
  allNodes_of_getElem? h _ (node_mem_allNodes c)

theorem inner_of_getElem? {l : List NodeMatch} {i : Nat} {c : NodeMatch}
    (h : l[i]? = some c) : ∀ n ∈ allNodesList c.inputs, n ∈ allNodesList l := by
  intro n hn
  apply allNodes_of_getElem? h
  rw [allNodes_eq]
  exact List.mem_cons_of_mem _ hn

theorem inner_name_mem {m : NodeMatch} {n : NodeDef} (h : n ∈ allNodesList m.inputs) :
    n.name ∈ m.allNodes.map NodeDef.name := by
  rw [allNodes_eq]
  exact List.mem_map_of_mem _ (List.mem_cons_of_mem _ h)

theorem root_name_mem (m : NodeMatch) : m.node.name ∈ m.allNodes.map NodeDef.name :=
  List.mem_map_of_mem _ (node_mem_allNodes m)

theorem RemoveNoopSplit_outcome (g : GraphDef) (required_nodes : List Str) (m : NodeMatch)
    (hm : FoundMatch g m) : ∃ o, OutcomeOK .removeNoopSplit required_nodes m o := by
  by_cases h1 : m.node.name ∈ required_nodes
  · refine ⟨.skip, ⟨?_, ?_, ?_, ?_, ?_⟩⟩
    · intro st
      simp [Transform.callback, RemoveNoopSplitCallback, h1, Outcome.apply]
    all_goals intros; simp_all
  · by_cases h2 : attrFind m.node.attr "num_split".data = some (.i 1)
    · cases h3 : m.inputs[1]? with
      | none =>
        refine ⟨.crash, ⟨?_, ?_, ?_, ?_, ?_⟩⟩
        · intro st
          simp [Transform.callback, RemoveNoopSplitCallback, h1, h2, h3, Outcome.apply]
        all_goals intros; simp_all
      | some input_match =>
        refine ⟨.rewrite [input_match.node]
          (some (scanTargetName input_match.node.name m.node.input)) none, ⟨?_, ?_, ?_, ?_, ?_⟩⟩
        · intro st
          simp [Transform.callback, RemoveNoopSplitCallback, h1, h2, h3, Outcome.apply]
        · intro nn rn ig _ n hn
          simp only [Transform.checkedNodes, List.mem_singleton] at hn
          rw [hn]; exact h1
        · intro nn rn ig ho n hn
          cases ho
          rw [List.mem_singleton] at hn
          rw [hn]
          exact inner_name_mem (node_of_getElem? h3)
        · intro nn rn ig ho _ n hn
          cases ho
          rw [List.mem_singleton] at hn
          rw [hn]
          exact List.mem_map_of_mem _ (node_of_getElem? h3)
        · intro nn target ig ho
          cases ho
          have hg := hm.inner_good _ (node_of_getElem? h3)
          obtain ⟨a, b⟩ := scanTargetName_base hg m.node.input
          exact ⟨⟨_, List.mem_singleton.mpr rfl, a.symm⟩, by rw [NodeNameFromInput_caret b]⟩
    · refine ⟨.skip, ⟨?_, ?_, ?_, ?_, ?_⟩⟩
      · intro st
        simp only [Transform.callback, RemoveNoopSplitCallback, h1, if_false, Outcome.apply,
          CopyOriginalMatch_nil]
      all_goals intros; simp_all

theorem RemoveNoopPadV2_outcome (g : GraphDef) (required_nodes : List Str) (m : NodeMatch)
    (hm : FoundMatch g m) : ∃ o, OutcomeOK .removeNoopPadV2 required_nodes m o := by
  by_cases h1 : m.node.name ∈ required_nodes
  · refine ⟨.skip, ⟨?_, ?_, ?_, ?_, ?_⟩⟩
    · intro st
      simp [Transform.callback, RemoveNoopPadV2Callback, h1, Outcome.apply]
    all_goals intros; simp_all
  · cases h3 : m.inputs[0]? with
    | none =>
      refine ⟨.crash, ⟨?_, ?_, ?_, ?_, ?_⟩⟩
      · intro st
        simp [Transform.callback, RemoveNoopPadV2Callback, h1, h3, Outcome.apply]
      all_goals intros; simp_all
    | some input_match =>
      refine ⟨.rewrite [input_match.node]
        (some (scanTargetName input_match.node.name m.node.input)) none, ⟨?_, ?_, ?_, ?_, ?_⟩⟩
      · intro st
        simp [Transform.callback, RemoveNoopPadV2Callback, h1, h3, Outcome.apply]
      · intro nn rn ig _ n hn
        simp only [Transform.checkedNodes, List.mem_singleton] at hn
        rw [hn]; exact h1
      · intro nn rn ig ho n hn
        cases ho
        rw [List.mem_singleton] at hn
        rw [hn]
        exact inner_name_mem (node_of_getElem? h3)
      · intro nn rn ig ho _ n hn
        cases ho
        rw [List.mem_singleton] at hn
        rw [hn]
        exact List.mem_map_of_mem _ (node_of_getElem? h3)
      · intro nn target ig ho
        cases ho
        have hg := hm.inner_good _ (node_of_getElem? h3)
        obtain ⟨a, b⟩ := scanTargetName_base hg m.node.input
        exact ⟨⟨_, List.mem_singleton.mpr rfl, a.symm⟩, by rw [NodeNameFromInput_caret b]⟩

theorem CopyNodeAttr_name {source dest out : NodeDef} {k1 k2 : Str}
    (h : CopyNodeAttr source k1 k2 dest = some out) :
    out.name = dest.name ∧ out.input = dest.input ∧ out.op = dest.op ∧
      out.device = dest.device := by
  unfold CopyNodeAttr at h
  split at h
  · cases h
  · cases h; exact ⟨rfl, rfl, rfl, rfl⟩

theorem Dilation2DToMaxPool2DCallback_state (required_nodes : List Str) (m : NodeMatch)
    (st : RewriteState) :
    Dilation2DToMaxPool2DCallback required_nodes m st =
      (Dilation2DToMaxPool2DCallback required_nodes m ⟨[], []⟩).map (fun r => (r.1, st)) := by
  simp only [Dilation2DToMaxPool2DCallback]
  repeat' split
  all_goals simp_all

theorem Dilation2DToMaxPool2D_outcome (g : GraphDef) (required_nodes : List Str)
    (m : NodeMatch) (_hm : FoundMatch g m) :
    ∃ o, OutcomeOK .dilation2DToMaxPool2D required_nodes m o ∧
      ∀ nn rn ig, o = .rewrite nn rn ig → rn = none ∧ ig = none := by
  by_cases h1 : m.node.name ∈ required_nodes
  · refine ⟨.skip, ⟨?_, ?_, ?_, ?_, ?_⟩, ?_⟩
    · intro st
      simp [Transform.callback, Dilation2DToMaxPool2DCallback, h1, Outcome.apply]
    all_goals intros; simp_all
  · cases hc : Dilation2DToMaxPool2DCallback required_nodes m ⟨[], []⟩ with
    | none =>
      refine ⟨.crash, ⟨?_, ?_, ?_, ?_, ?_⟩, ?_⟩
      · intro st
        simp only [Transform.callback, Outcome.apply]
        rw [Dilation2DToMaxPool2DCallback_state, hc]
        rfl
      all_goals intros; simp_all
    | some res =>
      simp only [Dilation2DToMaxPool2DCallback, h1, if_false] at hc
      split at hc
      · cases hc
      · next input_match h3 =>
        split at hc
        · cases hc
        · next mp1 h4 =>
          split at hc
          · cases hc
          · next mp2 h5 =>
            split at hc
            · cases hc
            · next mp3 h6 =>
              have hname : mp3.name = m.node.name := by
                have e1 := (CopyNodeAttr_name h4).1
                have e2 := (CopyNodeAttr_name h5).1
                have e3 : mp3.name = mp2.name := by
                  split_ifs at h6
                  · exact (CopyNodeAttr_name h6).1
                  · cases h6; rfl
                rw [e3, e2, e1]
                rfl
              refine ⟨.rewrite [input_match.node, AddNodeInput input_match.node.name mp3]
                none none, ⟨?_, ?_, ?_, ?_, ?_⟩, ?_⟩
              · intro st
                simp only [Transform.callback, Outcome.apply, Dilation2DToMaxPool2DCallback, h1,
                  if_false, h3, h4, h5, h6]
              · intro nn rn ig _ n hn
                simp only [Transform.checkedNodes, List.mem_singleton] at hn
                rw [hn]; exact h1
              · intro nn rn ig ho n hn
                cases ho
                simp only [List.mem_cons, List.mem_singleton, List.not_mem_nil, or_false] at hn
                rcases hn with rfl | rfl
                · exact inner_name_mem (node_of_getElem? h3)
                · show mp3.name ∈ _
                  rw [hname]
                  exact root_name_mem m
              · intro nn rn ig _ hd
                simp [Transform.deletesRoot] at hd
              · intro nn target ig ho
                cases ho
              · intro nn rn ig ho
                cases ho
                exact ⟨rfl, rfl⟩

theorem SwapTransRelu_outcome (g : GraphDef) (required_nodes : List Str) (m : NodeMatch)
    (hm : FoundMatch g m) : ∃ o, OutcomeOK .swapTransRelu required_nodes m o := by
  cases h1 : m.inputs[0]? with
  | none =>
    refine ⟨.crash, ⟨?_, ?_, ?_, ?_, ?_⟩⟩
    · intro st
      simp [Transform.callback, SwapTransReluCallback, h1, Outcome.apply]
    all_goals intros; simp_all
  | some transpose_match =>
    cases h2 : transpose_match.inputs[1]? with
    | none =>
      refine ⟨.crash, ⟨?_, ?_, ?_, ?_, ?_⟩⟩
      · intro st
        simp [Transform.callback, SwapTransReluCallback, h1, h2, Outcome.apply]
      all_goals intros; simp_all
    | some perm_match =>
      cases h3 : transpose_match.inputs[0]? with
      | none =>
        refine ⟨.crash, ⟨?_, ?_, ?_, ?_, ?_⟩⟩
        · intro st
          simp [Transform.callback, SwapTransReluCallback, h1, h2, h3, Outcome.apply]
        all_goals intros; simp_all
      | some input_match =>
        by_cases h4 : ∃ node ∈ [m.node, transpose_match.node, perm_match.node,
            input_match.node], node.name ∈ required_nodes
        · refine ⟨.skip, ⟨?_, ?_, ?_, ?_, ?_⟩⟩
          · intro st
            simp only [Transform.callback, SwapTransReluCallback, h1, h2, h3, Outcome.apply,
              if_pos h4, CopyOriginalMatch_nil]
          all_goals intros; simp_all
        · refine ⟨.rewrite [input_match.node,
              { m.node with input := m.node.input.set 0 input_match.node.name },
              perm_match.node,
              { transpose_match.node with
                input := transpose_match.node.input.set 0 m.node.name }]
            (some transpose_match.node.name) (some transpose_match.node.name),
            ⟨?_, ?_, ?_, ?_, ?_⟩⟩
          · intro st
            simp only [Transform.callback, SwapTransReluCallback, h1, h2, h3, Outcome.apply,
              if_neg h4]
          · intro nn rn ig _ n hn hreq
            apply h4
            simp only [Transform.checkedNodes, h1, h2, h3] at hn
            exact ⟨n, hn, hreq⟩
          · intro nn rn ig ho n hn
            cases ho
            simp only [List.mem_cons, List.mem_singleton, List.not_mem_nil, or_false] at hn
            rcases hn with rfl | rfl | rfl | rfl
            · exact inner_name_mem (inner_of_getElem? h1 _ (node_of_getElem? h3))
            · exact root_name_mem m
            · exact inner_name_mem (inner_of_getElem? h1 _ (node_of_getElem? h2))
            · show transpose_match.node.name ∈ _
              exact inner_name_mem (node_of_getElem? h1)
          · intro nn rn ig _ hd
            simp [Transform.deletesRoot] at hd
          · intro nn target ig ho
            cases ho
            have hg := hm.inner_good _ (node_of_getElem? h1)
            refine ⟨⟨_, List.mem_cons_of_mem _ (List.mem_cons_of_mem _
              (List.mem_cons_of_mem _ (List.mem_singleton.mpr rfl))), ?_⟩, ?_⟩
            · exact (NodeNameFromInput_of_good hg).symm
            · exact NodeNameFromInput_caret hg.2

theorem outcome_crash {t : Transform} {required_nodes : List Str} {m : NodeMatch}
    (h : ∀ st, t.callback required_nodes m st = none) : ∃ o, OutcomeOK t required_nodes m o := by
  refine ⟨.crash, ⟨fun st => by rw [h st]; rfl, ?_, ?_, ?_, ?_⟩⟩
  all_goals (intro _ _ _ ho; cases ho)

theorem outcome_skip {t : Transform} {required_nodes : List Str} {m : NodeMatch}
    (h : ∀ st, t.callback required_nodes m st = some (MatchedNodesAsArray m, st)) :
    ∃ o, OutcomeOK t required_nodes m o := by
  refine ⟨.skip, ⟨fun st => by rw [h st]; rfl, ?_, ?_, ?_, ?_⟩⟩
  all_goals (intro _ _ _ ho; cases ho)

set_option maxHeartbeats 1000000 in
theorem FoldTransposedPads_outcome (g : GraphDef) (required_nodes : List Str) (m : NodeMatch)
    (hm : FoundMatch g m) : ∃ o, OutcomeOK .foldTransposedPads required_nodes m o := by
  cases a1 : m.inputs[1]? with
  | none =>
    exact outcome_crash fun st => by
      simp [Transform.callback, FoldTransposedPadsCallback, a1]
  | some perm2_match =>
  cases a2 : m.inputs[0]? with
  | none =>
    exact outcome_crash fun st => by
      simp [Transform.callback, FoldTransposedPadsCallback, a1, a2]
  | some pad_match =>
  cases a3 : pad_match.inputs[1]? with
  | none =>
    exact outcome_crash fun st => by
      simp [Transform.callback, FoldTransposedPadsCallback, a1, a2, a3]
  | some paddings_match =>
  cases a4 : pad_match.inputs[0]? with
  | none =>
    exact outcome_crash fun st => by
      simp [Transform.callback, FoldTransposedPadsCallback, a1, a2, a3, a4]
  | some transpose1_match =>
  cases a5 : transpose1_match.inputs[1]? with
  | none =>
    exact outcome_crash fun st => by
      simp [Transform.callback, FoldTransposedPadsCallback, a1, a2, a3, a4, a5]
  | some perm1_match =>
  cases a6 : transpose1_match.inputs[0]? with
  | none =>
    exact outcome_crash fun st => by
      simp [Transform.callback, FoldTransposedPadsCallback, a1, a2, a3, a4, a5, a6]
  | some input_match =>
  by_cases hr : ∃ node ∈ [m.node, perm2_match.node, pad_match.node, paddings_match.node,
      transpose1_match.node, perm1_match.node], node.name ∈ required_nodes
  · exact outcome_skip fun st => by
      simp only [Transform.callback, FoldTransposedPadsCallback, a1, a2, a3, a4, a5, a6,
        if_pos hr, CopyOriginalMatch_nil]
  cases b1 : GetNodeTensorAttr perm2_match.node "value".data with
  | none =>
    exact outcome_crash fun st => by
      simp only [Transform.callback, FoldTransposedPadsCallback, a1, a2, a3, a4, a5, a6,
        if_neg hr, b1]
  | some perm2 =>
  cases b2 : GetNodeTensorAttr paddings_match.node "value".data with
  | none =>
    exact outcome_crash fun st => by
      simp only [Transform.callback, FoldTransposedPadsCallback, a1, a2, a3, a4, a5, a6,
        if_neg hr, b1, b2]
  | some paddings =>
  cases b3 : GetNodeTensorAttr perm1_match.node "value".data with
  | none =>
    exact outcome_crash fun st => by
      simp only [Transform.callback, FoldTransposedPadsCallback, a1, a2, a3, a4, a5, a6,
        if_neg hr, b1, b2, b3]
  | some perm1 =>
  cases c1 : perm1.flatInt32 with
  | none =>
    exact outcome_crash fun st => by
      simp only [Transform.callback, FoldTransposedPadsCallback, a1, a2, a3, a4, a5, a6,
        if_neg hr, b1, b2, b3, c1]
  | some perm1_vector =>
  cases c2 : perm2.flatInt32 with
  | none =>
    exact outcome_crash fun st => by
      simp only [Transform.callback, FoldTransposedPadsCallback, a1, a2, a3, a4, a5, a6,
        if_neg hr, b1, b2, b3, c1, c2]
  | some perm2_vector =>
  cases c3 : paddings.flatOuterDims2 with
  | none =>
    exact outcome_crash fun st => by
      simp only [Transform.callback, FoldTransposedPadsCallback, a1, a2, a3, a4, a5, a6,
        if_neg hr, b1, b2, b3, c1, c2, c3]
  | some pv =>
  cases d1 : permDiffers perm1_vector [0, 3, 1, 2] with
  | none =>
    exact outcome_crash fun st => by
      simp only [Transform.callback, FoldTransposedPadsCallback, a1, a2, a3, a4, a5, a6,
        if_neg hr, b1, b2, b3, c1, c2, c3, d1]
  | some x1 =>
  cases x1 with
  | true =>
    exact outcome_skip fun st => by
      simp only [Transform.callback, FoldTransposedPadsCallback, a1, a2, a3, a4, a5, a6,
        if_neg hr, b1, b2, b3, c1, c2, c3, d1, CopyOriginalMatch_nil]
  | false =>
  cases d2 : permDiffers perm2_vector [0, 2, 3, 1] with
  | none =>
    exact outcome_crash fun st => by
      simp only [Transform.callback, FoldTransposedPadsCallback, a1, a2, a3, a4, a5, a6,
        if_neg hr, b1, b2, b3, c1, c2, c3, d1, d2]
  | some x2 =>
  cases x2 with
  | true =>
    exact outcome_skip fun st => by
      simp only [Transform.callback, FoldTransposedPadsCallback, a1, a2, a3, a4, a5, a6,
        if_neg hr, b1, b2, b3, c1, c2, c3, d1, d2, CopyOriginalMatch_nil]
  | false =>
  cases e1 : reorderPaddings paddings with
  | none =>
    exact outcome_crash fun st => by
      simp only [Transform.callback, FoldTransposedPadsCallback, a1, a2, a3, a4, a5, a6,
        if_neg hr, b1, b2, b3, c1, c2, c3, d1, d2, e1]
  | some new_paddings =>
  have hpad := hm.inner_good _ (node_of_getElem? a2)
  refine ⟨.rewrite
    [SetNodeTensorAttr "value".data new_paddings
        (SetNodeAttr "dtype".data (.type .DT_INT32)
          { NodeDef.empty with op := "Const".data, name := paddings_match.node.name }),
      AddNodeInput paddings_match.node.name
        (AddNodeInput input_match.node.name
          (SetNodeAttr "T".data (.type .DT_FLOAT)
            { NodeDef.empty with op := "Pad".data, name := pad_match.node.name,
                                 device := pad_match.node.device })),
      input_match.node, transpose1_match.node, perm1_match.node]
    (some pad_match.node.name) none, ⟨fun st => ?_, ?_, ?_, ?_, ?_⟩⟩
  · simp only [Transform.callback, FoldTransposedPadsCallback, a1, a2, a3, a4, a5, a6,
      if_neg hr, b1, b2, b3, c1, c2, c3, d1, d2, e1, Outcome.apply]
    rfl
  · intro nn rn ig _ n hn hreq
    apply hr
    simp only [Transform.checkedNodes, a1, a2, a3, a4, a5] at hn
    exact ⟨n, hn, hreq⟩
  · intro nn rn ig ho n hn
    cases ho
    simp only [List.mem_cons, List.mem_singleton, List.not_mem_nil, or_false] at hn
    rcases hn with rfl | rfl | rfl | rfl | rfl
    · show paddings_match.node.name ∈ _
      exact inner_name_mem (inner_of_getElem? a2 _ (node_of_getElem? a3))
    · show pad_match.node.name ∈ _
      exact inner_name_mem (node_of_getElem? a2)
    · exact inner_name_mem (inner_of_getElem? a2 _ (inner_of_getElem? a4 _ (node_of_getElem? a6)))
    · exact inner_name_mem (inner_of_getElem? a2 _ (node_of_getElem? a4))
    · exact inner_name_mem (inner_of_getElem? a2 _ (inner_of_getElem? a4 _ (node_of_getElem? a5)))
  · intro nn rn ig ho _ n hn
    cases ho
    simp only [List.mem_cons, List.mem_singleton, List.not_mem_nil, or_false] at hn
    rcases hn with rfl | rfl | rfl | rfl | rfl
    · show paddings_match.node.name ∈ _
      exact List.mem_map_of_mem _ (inner_of_getElem? a2 _ (node_of_getElem? a3))
    · show pad_match.node.name ∈ _
      exact List.mem_map_of_mem _ (node_of_getElem? a2)
    · exact List.mem_map_of_mem _
        (inner_of_getElem? a2 _ (inner_of_getElem? a4 _ (node_of_getElem? a6)))
    · exact List.mem_map_of_mem _ (inner_of_getElem? a2 _ (node_of_getElem? a4))
    · exact List.mem_map_of_mem _
        (inner_of_getElem? a2 _ (inner_of_getElem? a4 _ (node_of_getElem? a5)))
  · intro nn target ig ho
    cases ho
    refine ⟨⟨_, List.mem_cons_of_mem _ (List.mem_cons_self _ _), ?_⟩, ?_⟩
    · exact (NodeNameFromInput_of_good hpad).symm
    · exact NodeNameFromInput_caret hpad.2

set_option maxHeartbeats 1000000 in
theorem SwapTransMulAdd_outcome (g : GraphDef) (required_nodes : List Str) (m : NodeMatch)
    (hm : FoundMatch g m) : ∃ o, OutcomeOK .swapTransMulAdd required_nodes m o := by
  cases a1 : m.inputs[1]? with
  | none =>
    exact outcome_crash fun st => by
      simp [Transform.callback, SwapTransMulAddCallback, a1]
  | some bias_match =>
  cases a2 : m.inputs[0]? with
  | none =>
    exact outcome_crash fun st => by
      simp [Transform.callback, SwapTransMulAddCallback, a1, a2]
  | some mul_match =>
  cases a3 : mul_match.inputs[1]? with
  | none =>
    exact outcome_crash fun st => by
      simp [Transform.callback, SwapTransMulAddCallback, a1, a2, a3]
  | some weights_match =>
  cases a4 : mul_match.inputs[0]? with
  | none =>
    exact outcome_crash fun st => by
      simp [Transform.callback, SwapTransMulAddCallback, a1, a2, a3, a4]
  | some transpose_match =>
  cases a5 : transpose_match.inputs[1]? with
  | none =>
    exact outcome_crash fun st => by
      simp [Transform.callback, SwapTransMulAddCallback, a1, a2, a3, a4, a5]
  | some perm_match =>
  cases a6 : transpose_match.inputs[0]? with
  | none =>
    exact outcome_crash fun st => by
      simp [Transform.callback, SwapTransMulAddCallback, a1, a2, a3, a4, a5, a6]
  | some input_match =>
  by_cases hr : ∃ node ∈ [m.node, bias_match.node, mul_match.node, weights_match.node,
      transpose_match.node, perm_match.node], node.name ∈ required_nodes
  · exact outcome_skip fun st => by
      simp only [Transform.callback, SwapTransMulAddCallback, a1, a2, a3, a4, a5, a6,
        if_pos hr, CopyOriginalMatch_nil]
  cases b1 : GetNodeTensorAttr perm_match.node "value".data with
  | none =>
    exact outcome_crash fun st => by
      simp only [Transform.callback, SwapTransMulAddCallback, a1, a2, a3, a4, a5, a6,
        if_neg hr, b1]
  | some perm =>
  cases b2 : GetNodeTensorAttr weights_match.node "value".data with
  | none =>
    exact outcome_crash fun st => by
      simp only [Transform.callback, SwapTransMulAddCallback, a1, a2, a3, a4, a5, a6,
        if_neg hr, b1, b2]
  | some weights =>
  cases b3 : GetNodeTensorAttr bias_match.node "value".data with
  | none =>
    exact outcome_crash fun st => by
      simp only [Transform.callback, SwapTransMulAddCallback, a1, a2, a3, a4, a5, a6,
        if_neg hr, b1, b2, b3]
  | some bias =>
  cases c1 : perm.flatInt32 with
  | none =>
    exact outcome_crash fun st => by
      simp only [Transform.callback, SwapTransMulAddCallback, a1, a2, a3, a4, a5, a6,
        if_neg hr, b1, b2, b3, c1]
  | some perm_vector =>
  cases c2 : weights.tensor4 with
  | none =>
    exact outcome_crash fun st => by
      simp only [Transform.callback, SwapTransMulAddCallback, a1, a2, a3, a4, a5, a6,
        if_neg hr, b1, b2, b3, c1, c2]
  | some wv =>
  obtain ⟨w0, w1, w2, w3, weights_vector⟩ := wv
  cases c3 : bias.tensor4 with
  | none =>
    exact outcome_crash fun st => by
      simp only [Transform.callback, SwapTransMulAddCallback, a1, a2, a3, a4, a5, a6,
        if_neg hr, b1, b2, b3, c1, c2, c3]
  | some bv =>
  obtain ⟨b0, b1', b2', b3', bias_vector⟩ := bv
  cases d1 : permDiffers perm_vector [0, 3, 1, 2] with
  | none =>
    exact outcome_crash fun st => by
      simp only [Transform.callback, SwapTransMulAddCallback, a1, a2, a3, a4, a5, a6,
        if_neg hr, b1, b2, b3, c1, c2, c3, d1]
  | some x1 =>
  cases x1 with
  | true =>
    exact outcome_skip fun st => by
      simp only [Transform.callback, SwapTransMulAddCallback, a1, a2, a3, a4, a5, a6,
        if_neg hr, b1, b2, b3, c1, c2, c3, d1, CopyOriginalMatch_nil]
  | false =>
  cases e1 : (if (attrFind m.node.attr "fused_activation_function".data).isSome then
      CopyNodeAttr m.node "fused_activation_function".data "fused_activation_function".data
        { NodeDef.empty with op := "AddV2".data, name := m.node.name }
    else some { NodeDef.empty with op := "AddV2".data, name := m.node.name }) with
  | none =>
    exact outcome_crash fun st => by
      simp only [Transform.callback, SwapTransMulAddCallback, a1, a2, a3, a4, a5, a6,
        if_neg hr, b1, b2, b3, c1, c2, c3, d1, e1]
  | some new_add =>
  have hadd : new_add.name = m.node.name := by
    split_ifs at e1
    · exact (CopyNodeAttr_name e1).1
    · cases e1; rfl
  have htr := hm.inner_good _ (inner_of_getElem? a2 _ (node_of_getElem? a4))
  refine ⟨.rewrite
    [input_match.node,
      SetNodeTensorAttr "value".data (shuffledTensor w0 w1 w2 w3 weights_vector)
        (SetNodeAttr "dtype".data (.type .DT_FLOAT)
          { NodeDef.empty with op := "Const".data, name := weights_match.node.name }),
      AddNodeInput weights_match.node.name
        (AddNodeInput input_match.node.name
          (SetNodeAttr "T".data (.type .DT_FLOAT)
            { NodeDef.empty with op := "Mul".data, name := mul_match.node.name })),
      SetNodeTensorAttr "value".data (shuffledTensor b0 b1' b2' b3' bias_vector)
        (SetNodeAttr "dtype".data (.type .DT_FLOAT)
          { NodeDef.empty with op := "Const".data, name := bias_match.node.name }),
      AddNodeInput bias_match.node.name
        (AddNodeInput mul_match.node.name (SetNodeAttr "T".data (.type .DT_FLOAT) new_add)),
      perm_match.node,
      { transpose_match.node with
        input := transpose_match.node.input.set 0 new_add.name }]
    (some transpose_match.node.name) (some transpose_match.node.name),
    ⟨fun st => ?_, ?_, ?_, ?_, ?_⟩⟩
  · simp only [Transform.callback, SwapTransMulAddCallback, a1, a2, a3, a4, a5, a6,
      if_neg hr, b1, b2, b3, c1, c2, c3, d1, e1, Outcome.apply]
    rfl
  · intro nn rn ig _ n hn hreq
    apply hr
    simp only [Transform.checkedNodes, a1, a2, a3, a4, a5] at hn
    exact ⟨n, hn, hreq⟩
  · intro nn rn ig ho n hn
    cases ho
    simp only [List.mem_cons, List.mem_singleton, List.not_mem_nil, or_false] at hn
    rcases hn with rfl | rfl | rfl | rfl | rfl | rfl | rfl
    · exact inner_name_mem (inner_of_getElem? a2 _ (inner_of_getElem? a4 _ (node_of_getElem? a6)))
    · show weights_match.node.name ∈ _
      exact inner_name_mem (inner_of_getElem? a2 _ (node_of_getElem? a3))
    · show mul_match.node.name ∈ _
      exact inner_name_mem (node_of_getElem? a2)
    · show bias_match.node.name ∈ _
      exact inner_name_mem (node_of_getElem? a1)
    · show new_add.name ∈ _
      rw [hadd]
      exact root_name_mem m
    · exact inner_name_mem (inner_of_getElem? a2 _ (inner_of_getElem? a4 _ (node_of_getElem? a5)))
    · show transpose_match.node.name ∈ _
      exact inner_name_mem (inner_of_getElem? a2 _ (node_of_getElem? a4))
  · intro nn rn ig _ hd
    simp [Transform.deletesRoot] at hd
  · intro nn target ig ho
    cases ho
    refine ⟨⟨{ transpose_match.node with
        input := transpose_match.node.input.set 0 new_add.name }, ?_, ?_⟩, ?_⟩
    · simp
    · exact (NodeNameFromInput_of_good htr).symm
    · exact NodeNameFromInput_caret htr.2

/-- Every callback has a table-independent outcome on a match of the graph. -/
theorem callback_outcome (t : Transform) (g : GraphDef) (required_nodes : List Str)
    (m : NodeMatch) (hm : FoundMatch g m) : ∃ o, OutcomeOK t required_nodes m o := by
  cases t with
  | removeNoopSplit => exact RemoveNoopSplit_outcome g required_nodes m hm
  | removeNoopPadV2 => exact RemoveNoopPadV2_outcome g required_nodes m hm
  | dilation2DToMaxPool2D =>
    obtain ⟨o, ho, _⟩ := Dilation2DToMaxPool2D_outcome g required_nodes m hm
    exact ⟨o, ho⟩
  | foldTransposedPads => exact FoldTransposedPads_outcome g required_nodes m hm
  | swapTransMulAdd => exact SwapTransMulAdd_outcome g required_nodes m hm
  | swapTransRelu => exact SwapTransRelu_outcome g required_nodes m hm

theorem RemoveNoopSplitCallback_ignore {required_nodes : List Str} {m : NodeMatch}
    {st st1 : RewriteState} {nn : List NodeDef}
    (h : RemoveNoopSplitCallback required_nodes m st = some (nn, st1)) :
    st1.nodes_to_ignore = st.nodes_to_ignore := by
  simp only [RemoveNoopSplitCallback] at h
  repeat' split at h
  all_goals first
    | (cases h; done)
    | (cases h; rfl)

theorem RemoveNoopPadV2Callback_ignore {required_nodes : List Str} {m : NodeMatch}
    {st st1 : RewriteState} {nn : List NodeDef}
    (h : RemoveNoopPadV2Callback required_nodes m st = some (nn, st1)) :
    st1.nodes_to_ignore = st.nodes_to_ignore := by
  simp only [RemoveNoopPadV2Callback] at h
  repeat' split at h
  all_goals first
    | (cases h; done)
    | (cases h; rfl)

set_option maxHeartbeats 1000000 in
theorem FoldTransposedPadsCallback_ignore {required_nodes : List Str} {m : NodeMatch}
    {st st1 : RewriteState} {nn : List NodeDef}
    (h : FoldTransposedPadsCallback required_nodes m st = some (nn, st1)) :
    st1.nodes_to_ignore = st.nodes_to_ignore := by
  simp only [FoldTransposedPadsCallback] at h
  repeat' split at h
  all_goals first
    | (cases h; done)
    | (cases h; rfl)

theorem Dilation2DToMaxPool2DCallback_tables {required_nodes : List Str} {m : NodeMatch}
    {st st1 : RewriteState} {nn : List NodeDef}
    (h : Dilation2DToMaxPool2DCallback required_nodes m st = some (nn, st1)) : st1 = st := by
  rw [Dilation2DToMaxPool2DCallback_state] at h
  simp only [Option.map_eq_some'] at h
  obtain ⟨r, _, hr⟩ := h
  cases hr
  rfl

/-- A property of the side tables that every callback call keeps holds at the
end of the rebuild. -/
theorem rebuildNodes_tables (ms : List NodeMatch) (gen : NodeGenerator)
    (P : RewriteState → Prop)
    (hgen : ∀ m ∈ ms, ∀ s nn s1, P s → gen m s = some (nn, s1) → P s1) :
    ∀ (nodes : List NodeDef) (st : RewriteState) (out : List NodeDef) (st2 : RewriteState),
      P st → rebuildNodes ms gen nodes st = some (out, st2) → P st2 := by
  intro nodes
  induction nodes with
  | nil =>
    intro st out st2 hP h
    simp only [rebuildNodes, Option.some.injEq, Prod.mk.injEq] at h
    obtain ⟨_, rfl⟩ := h
    exact hP
  | cons node rest ih =>
    intro st out st2 hP h
    unfold rebuildNodes at h
    split at h
    · next m hfind =>
      split at h
      · cases h
      · next new_nodes st1 hgen1 =>
        split at h
        · cases h
        · next out1 st3 hrest =>
          simp only [Option.some.injEq, Prod.mk.injEq] at h
          obtain ⟨_, rfl⟩ := h
          exact ih st1 out1 st3 (hgen m (find_head_some hfind).1 _ _ _ hP hgen1) hrest
    · split_ifs at h
      · exact ih st out st2 hP h
      · split at h
        · cases h
        · next out1 st3 hrest =>
          simp only [Option.some.injEq, Prod.mk.injEq] at h
          obtain ⟨_, rfl⟩ := h
          exact ih st out1 st3 hP hrest

theorem renameInput_nil (e : Str) : renameInput [] e = e := by
  unfold renameInput
  split <;> simp [renameTarget]

theorem renameNode_nil (n : NodeDef) : renameNode [] [] n = n := by
  unfold renameNode
  simp only [List.not_mem_nil, if_false]
  have : (fun e => renameInput [] e) = id := funext renameInput_nil
  show { n with input := n.input.map (fun e => renameInput [] e) } = n
  rw [this, List.map_id]

/-- Shape of a run: the rebuilt graph and the final side tables exist, and the
output is the rebuilt graph with every node passed through the renamer. -/
theorem run_spec {t : Transform} {g : GraphDef} {ctx : TransformFuncContext}
    {r : TransformRun} (h : t.run g ctx = some r) :
    ∃ replaced st,
      rebuildNodes (GetOpTypeMatches g t.pattern) (t.callback (requiredNodes ctx)) g ⟨[], []⟩ =
        some (replaced, st) ∧
      r.output_graph_def = replaced.map (renameNode r.inputs_to_rename r.nodes_to_ignore) ∧
      r.inputs_to_rename = st.inputs_to_rename ∧ r.nodes_to_ignore = st.nodes_to_ignore := by
  cases t with
  | removeNoopSplit =>
    simp only [Transform.run, RemoveNoopSplit, ReplaceMatchingOpTypes] at h
    split at h
    · cases h
    · next replaced st hre =>
      cases h
      have hig := rebuildNodes_tables _ _ (fun s => s.nodes_to_ignore = [])
        (fun m _ s nn s1 hs hc => (RemoveNoopSplitCallback_ignore hc).trans hs)
        _ _ _ _ rfl hre
      exact ⟨replaced, st, hre, rfl, rfl, hig.symm⟩
  | removeNoopPadV2 =>
    simp only [Transform.run, RemoveNoopPadV2, ReplaceMatchingOpTypes] at h
    split at h
    · cases h
    · next replaced st hre =>
      cases h
      have hig := rebuildNodes_tables _ _ (fun s => s.nodes_to_ignore = [])
        (fun m _ s nn s1 hs hc => (RemoveNoopPadV2Callback_ignore hc).trans hs)
        _ _ _ _ rfl hre
      exact ⟨replaced, st, hre, rfl, rfl, hig.symm⟩
  | dilation2DToMaxPool2D =>
    simp only [Transform.run, Dilation2DToMaxPool2D, ReplaceMatchingOpTypes] at h
    split at h
    · cases h
    · next replaced st hre =>
      cases h
      have hst := rebuildNodes_tables _ _ (fun s => s = ⟨[], []⟩)
        (fun m _ s nn s1 hs hc => (Dilation2DToMaxPool2DCallback_tables hc).trans hs)
        _ _ _ _ rfl hre
      refine ⟨replaced, st, hre, ?_, ?_, ?_⟩
      · show replaced = replaced.map (renameNode [] [])
        have : renameNode [] [] = id := funext renameNode_nil
        rw [this, List.map_id]
      · rw [hst]
      · rw [hst]
  | foldTransposedPads =>
    simp only [Transform.run, FoldTransposedPads, ReplaceMatchingOpTypes] at h
    split at h
    · cases h
    · next replaced st hre =>
      cases h
      have hig := rebuildNodes_tables _ _ (fun s => s.nodes_to_ignore = [])
        (fun m _ s nn s1 hs hc => (FoldTransposedPadsCallback_ignore hc).trans hs)
        _ _ _ _ rfl hre
      exact ⟨replaced, st, hre, rfl, rfl, hig.symm⟩
  | swapTransMulAdd =>
    simp only [Transform.run, SwapTransMulAdd, ReplaceMatchingOpTypes] at h
    split at h
    · cases h
    · next replaced st hre =>
      cases h
      exact ⟨replaced, st, hre, rfl, rfl, rfl⟩
  | swapTransRelu =>
    simp only [Transform.run, SwapTransRelu, ReplaceMatchingOpTypes] at h
    split at h
    · cases h
    · next replaced st hre =>
      cases h
      exact ⟨replaced, st, hre, rfl, rfl, rfl⟩

/-! ## Facts about the renamer -/

theorem renameNode_name (R : List (Str × Str)) (I : List Str) (n : NodeDef) :
    (renameNode R I n).name = n.name ∧ (renameNode R I n).op = n.op ∧
      (renameNode R I n).device = n.device ∧ (renameNode R I n).attr = n.attr := by
  unfold renameNode
  split_ifs <;> exact ⟨rfl, rfl, rfl, rfl⟩

theorem renameNode_input (R : List (Str × Str)) (I : List Str) (n : NodeDef) :
    (renameNode R I n).input = n.input ∨
      (renameNode R I n).input = n.input.map (renameInput R) := by
  unfold renameNode
  split_ifs
  · exact Or.inl rfl
  · exact Or.inr rfl

/-! ## C1: protection of required nodes -/

/-- C1, as stated, fails: in `exSplitGraph` the split `S` is the root of a match
whose wildcard leaf `X` is a required name (a declared graph input), and yet the
output of `RemoveNoopSplit` is the single node `X`: the nodes `S` and `d` of that
match do not appear in the output. -/
theorem protection_counterexample :
    GetOpTypeMatches exSplitGraph splitPattern = [exSplitMatch] ∧
      exX ∈ exSplitMatch.allNodes ∧ exX.name ∈ requiredNodes ⟨[['X']], []⟩ ∧
      exS ∈ exSplitMatch.allNodes ∧
      (RemoveNoopSplit exSplitGraph ⟨[['X']], []⟩).map TransformRun.output_graph_def =
        some [exX] ∧
      exS ∉ [exX] := by
  refine ⟨rfl, by decide, by decide, by decide, by decide, by decide⟩

/-- C1, amended: for each of the six transforms, every graph and every context,
if a node that the callback checks (the root for the two no-op removals and the
dilation rewrite, the six non-wildcard nodes for `FoldTransposedPads` and
`SwapTransMulAdd`, all four nodes for `SwapTransRelu`) has its name in the
required names, then every node of that match is in the output graph under its
name with op, device and attrs unchanged; its inputs are the original ones,
unchanged or passed through the rename map of the run. -/
theorem protection_of_checked_nodes (t : Transform) (g : GraphDef)
    (ctx : TransformFuncContext) (r : TransformRun) (hrun : t.run g ctx = some r)
    (m : NodeMatch) (hm : m ∈ GetOpTypeMatches g t.pattern)
    (hreq : ∃ n ∈ t.checkedNodes m, n.name ∈ requiredNodes ctx) :
    ∀ n ∈ MatchedNodesAsArray m, ∃ n1 ∈ r.output_graph_def,
      n1.name = n.name ∧ n1.op = n.op ∧ n1.device = n.device ∧ n1.attr = n.attr ∧
        (n1.input = n.input ∨ n1.input = n.input.map (renameInput r.inputs_to_rename)) := by
  obtain ⟨replaced, st, hre, hout, _, _⟩ := run_spec hrun
  have hfound := GetOpTypeMatches_found hm
  have hfind := find_head (GetOpTypeMatches_disjoint g t.pattern) hm
  obtain ⟨s, s1, nn, hgen, hsub⟩ :=
    rebuildNodes_fragment _ _ g _ _ _ hre m.node hfound.root_mem m hfind
  obtain ⟨o, ho⟩ := callback_outcome t g (requiredNodes ctx) m hfound
  have hnn : nn = MatchedNodesAsArray m := by
    have hag := ho.agrees s
    rw [hgen] at hag
    cases o with
    | crash => simp [Outcome.apply] at hag
    | skip =>
      simp only [Outcome.apply, Option.some.injEq, Prod.mk.injEq] at hag
      exact hag.1
    | rewrite nn1 rn ig =>
      obtain ⟨n, hn, hnr⟩ := hreq
      exact absurd hnr (ho.unchecked nn1 rn ig rfl n hn)
  intro n hn
  refine ⟨renameNode r.inputs_to_rename r.nodes_to_ignore n, ?_, ?_⟩
  · rw [hout]
    exact List.mem_map_of_mem _ (hsub n (hnn ▸ hn))
  · obtain ⟨a, b, c, d⟩ := renameNode_name r.inputs_to_rename r.nodes_to_ignore n
    exact ⟨a, b, c, d, renameNode_input _ _ n⟩

/-- Witness of `protection_of_checked_nodes`: `exSplitGraph` with the split `S`
declared as a graph output. -/
theorem protection_of_checked_nodes_witness :
    Transform.removeNoopSplit.run exSplitGraph ⟨[], [['S']]⟩ = some ⟨[exS, exD, exX], [], []⟩ ∧
      ∀ n ∈ MatchedNodesAsArray exSplitMatch, ∃ n1 ∈ [exS, exD, exX],
        n1.name = n.name ∧ n1.op = n.op ∧ n1.device = n.device ∧ n1.attr = n.attr ∧
          (n1.input = n.input ∨ n1.input = n.input.map (renameInput [])) :=
  ⟨by decide,
    protection_of_checked_nodes .removeNoopSplit exSplitGraph ⟨[], [['S']]⟩
      ⟨[exS, exD, exX], [], []⟩ (by decide) exSplitMatch
      (by rw [show GetOpTypeMatches exSplitGraph Transform.removeNoopSplit.pattern =
            [exSplitMatch] from rfl]
          exact List.mem_singleton.mpr rfl)
      ⟨exS, by simp [Transform.checkedNodes, exSplitMatch, NodeMatch.node], by decide⟩⟩

/-! ## C2: dangling references -/

/-- C2 fails on the code: in `exSharedAxisGraph` every reference resolves, the
no-op split `S` is removed together with its axis constant `d` (a wildcard leaf
of the match, which the callback does not emit again), and the sum `Z`, which
no match consumes, still reads `d`: the output has the dangling reference
`d`. -/
theorem dangling_reference_after_RemoveNoopSplit :
    danglingReferences exSharedAxisGraph = [] ∧
      (RemoveNoopSplit exSharedAxisGraph ⟨[], [['Z']]⟩).map TransformRun.output_graph_def =
        some [exW, exX, exZ] ∧
      danglingReferences [exW, exX, exZ] = [['d']] := by
  refine ⟨by decide, by decide, by decide⟩

/-! ## C3: required names -/

/-- C3 fails on the code: in `exElisionGraph` with the axis node `d` declared as
a graph input, `d` is a required name and a node of the input graph, the split
`S` is not required and is removed, and `d` goes with it: no node of the output
is named `d`. -/
theorem required_name_lost_by_RemoveNoopSplit :
    ['d'] ∈ requiredNodes ⟨[['X'], ['d']], [['Y']]⟩ ∧ exD ∈ exElisionGraph ∧
      (RemoveNoopSplit exElisionGraph ⟨[['X'], ['d']], [['Y']]⟩).map
          TransformRun.output_graph_def =
        some [exX, { exY with input := [['X']] }] ∧
      ['d'] ∉ [exX, { exY with input := [['X']] }].map NodeDef.name := by
  refine ⟨by decide, by decide, by decide, by decide⟩

/-! ## C7: control references and output indices -/

/-- C7 fails on the code: for the no-op split `S` of `U:1` the callback of
`RemoveNoopSplit` records the control entry `^S -> ^U:1`, a control reference
with an output index, and the output graph holds the control input `^U:1`. -/
theorem control_target_with_output_index :
    GetOpTypeMatches exIndexedGraph splitPattern = [exIndexedMatch] ∧
      RemoveNoopSplitCallback [['Y']] exIndexedMatch ⟨[], []⟩ =
        some ([exU], ⟨[(['^', 'S'], ['^', 'U', ':', '1']), (['S'], ['U', ':', '1'])], []⟩) ∧
      RemoveNoopSplit exIndexedGraph ⟨[], [['Y']]⟩ =
        some ⟨[exX, exU, { exYC with input := [['U', ':', '1'], ['^', 'U', ':', '1']] }],
          [(['^', 'S'], ['^', 'U', ':', '1']), (['S'], ['U', ':', '1'])], []⟩ := by
  refine ⟨rfl, by decide, by decide⟩

/-! ## Facts about the rename map of a run -/

theorem mapSet_mem {m : List (Str × Str)} {a b : Str} {e : Str × Str}
    (h : e ∈ mapSet m a b) : e = (a, b) ∨ e ∈ m := by
  unfold mapSet at h
  rw [List.mem_cons] at h
  rcases h with h | h
  · exact Or.inl h
  · exact Or.inr (List.mem_filter.mp h).1

theorem dedupByName_subset : ∀ (l : List NodeDef), ∀ n ∈ dedupByName l, n ∈ l
  | [], n, h => by simp [dedupByName] at h
  | a :: l, n, h => by
    unfold dedupByName at h
    rw [List.mem_cons] at h
    rcases h with rfl | h
    · exact List.mem_cons_self _ _
    · exact List.mem_cons_of_mem _ (dedupByName_subset l n (List.mem_filter.mp h).1)

/-- Nodes a callback emits for a match are named as nodes of the match. -/
theorem fragment_names {t : Transform} {required_nodes : List Str} {m : NodeMatch}
    {o : Outcome} (ho : OutcomeOK t required_nodes m o) {s s1 : RewriteState}
    {nn : List NodeDef} (hgen : t.callback required_nodes m s = some (nn, s1)) :
    ∀ n ∈ nn, n.name ∈ m.allNodes.map NodeDef.name := by
  have hag := ho.agrees s
  rw [hgen] at hag
  cases o with
  | crash => simp [Outcome.apply] at hag
  | skip =>
    simp only [Outcome.apply, Option.some.injEq, Prod.mk.injEq] at hag
    intro n hn
    rw [hag.1] at hn
    exact List.mem_map_of_mem _ (dedupByName_subset _ n hn)
  | rewrite nn1 rn ig =>
    simp only [Outcome.apply, Option.some.injEq, Prod.mk.injEq] at hag
    rw [hag.1]
    exact ho.names nn1 rn ig rfl

theorem addIgnore_rename (st : RewriteState) (name : Str) :
    (st.addIgnore name).inputs_to_rename = st.inputs_to_rename := rfl

/-- Every entry of the rename map at the end of the rebuild was there at the
start or was written for a match that the callback rewrote; the entry is
`root -> target` or `^root -> ^target`, and the replacement list of that match
is part of the rebuilt graph. -/
theorem rebuildNodes_entries (t : Transform) (required_nodes : List Str)
    (ms : List NodeMatch) (hms : ∀ m ∈ ms, ∃ o, OutcomeOK t required_nodes m o) :
    ∀ (nodes : List NodeDef) (st : RewriteState) (out : List NodeDef) (st2 : RewriteState),
      rebuildNodes ms (t.callback required_nodes) nodes st = some (out, st2) →
      ∀ e ∈ st2.inputs_to_rename, e ∈ st.inputs_to_rename ∨
        ∃ m ∈ ms, ∃ nn target ig, OutcomeOK t required_nodes m (.rewrite nn (some target) ig) ∧
          (e = (m.node.name, target) ∨ e = ('^' :: m.node.name, '^' :: target)) ∧
          ∀ n ∈ nn, n ∈ out := by
  intro nodes
  induction nodes with
  | nil =>
    intro st out st2 h e he
    simp only [rebuildNodes, Option.some.injEq, Prod.mk.injEq] at h
    obtain ⟨_, rfl⟩ := h
    exact Or.inl he
  | cons node rest ih =>
    intro st out st2 h e he
    unfold rebuildNodes at h
    split at h
    · next m hfind =>
      have hm := (find_head_some hfind).1
      split at h
      · cases h
      · next new_nodes st1 hgen =>
        split at h
        · cases h
        · next out1 st3 hrest =>
          simp only [Option.some.injEq, Prod.mk.injEq] at h
          obtain ⟨rfl, rfl⟩ := h
          rcases ih st1 out1 st3 hrest e he with h1 | ⟨m1, hm1, nn, target, ig, ho, hk, hsub⟩
          · obtain ⟨o, ho⟩ := hms m hm
            have hag := ho.agrees st
            rw [hgen] at hag
            cases o with
            | crash => simp [Outcome.apply] at hag
            | skip =>
              simp only [Outcome.apply, Option.some.injEq, Prod.mk.injEq] at hag
              rw [hag.2] at h1
              exact Or.inl h1
            | rewrite nn1 rn ig =>
              simp only [Outcome.apply, Option.some.injEq, Prod.mk.injEq] at hag
              obtain ⟨rfl, rfl⟩ := hag
              cases rn with
              | none =>
                left
                cases ig <;> exact h1
              | some target =>
                have h2 : e ∈ (st.addRename m.node.name target).inputs_to_rename := by
                  cases ig <;> exact h1
                unfold RewriteState.addRename at h2
                simp only at h2
                rcases mapSet_mem h2 with h3 | h3
                · exact Or.inr ⟨m, hm, new_nodes, target, ig, ho, Or.inr h3,
                    fun n hn => List.mem_append_left _ hn⟩
                · rcases mapSet_mem h3 with h4 | h4
                  · exact Or.inr ⟨m, hm, new_nodes, target, ig, ho, Or.inl h4,
                      fun n hn => List.mem_append_left _ hn⟩
                  · exact Or.inl h4
          · exact Or.inr ⟨m1, hm1, nn, target, ig, ho, hk,
              fun n hn => List.mem_append_right _ (hsub n hn)⟩
    · split_ifs at h
      · exact ih st out st2 h e he
      · split at h
        · cases h
        · next out1 st3 hrest =>
          simp only [Option.some.injEq, Prod.mk.injEq] at h
          obtain ⟨rfl, rfl⟩ := h
          rcases ih st out1 st3 hrest e he with h1 | ⟨m1, hm1, nn, target, ig, ho, hk, hsub⟩
          · exact Or.inl h1
          · exact Or.inr ⟨m1, hm1, nn, target, ig, ho, hk,
              fun n hn => List.mem_cons_of_mem _ (hsub n hn)⟩

/-- Every entry of the rename map of a run is `root -> target` or
`^root -> ^target` for a match of the input graph that the callback rewrote, and
the replacement list of that match is part of the rebuilt graph. -/
theorem run_entries {t : Transform} {g : GraphDef} {ctx : TransformFuncContext}
    {r : TransformRun} (hrun : t.run g ctx = some r) :
    ∃ replaced : List NodeDef, r.output_graph_def =
        replaced.map (renameNode r.inputs_to_rename r.nodes_to_ignore) ∧
      (∀ n ∈ replaced, (n ∈ g ∧ n.name ∉ matchedNames (GetOpTypeMatches g t.pattern)) ∨
        ∃ m ∈ GetOpTypeMatches g t.pattern, ∃ s s1 new_nodes,
          t.callback (requiredNodes ctx) m s = some (new_nodes, s1) ∧ n ∈ new_nodes) ∧
      ∀ e ∈ r.inputs_to_rename, ∃ m ∈ GetOpTypeMatches g t.pattern, ∃ nn target ig,
        OutcomeOK t (requiredNodes ctx) m (.rewrite nn (some target) ig) ∧
          (e = (m.node.name, target) ∨ e = ('^' :: m.node.name, '^' :: target)) ∧
          ∀ n ∈ nn, n ∈ replaced := by
  obtain ⟨replaced, st, hre, hout, hmap, _⟩ := run_spec hrun
  refine ⟨replaced, hout, rebuildNodes_mem _ _ _ _ _ _ hre, ?_⟩
  intro e he
  rw [hmap] at he
  have := rebuildNodes_entries t (requiredNodes ctx) (GetOpTypeMatches g t.pattern)
    (fun m hm => callback_outcome t g _ m (GetOpTypeMatches_found hm)) g _ _ _ hre e he
  rcases this with h | h
  · cases h
  · exact h

/-! ## C9: rename targets exist -/

/-- C9: for each transform, every graph and every context, after the run the
base name of every value of `inputs_to_rename` is the name of a node of the
output graph; the condition `rename target does not exist` is never met. -/
theorem rename_targets_exist (t : Transform) (g : GraphDef) (ctx : TransformFuncContext)
    (r : TransformRun) (hrun : t.run g ctx = some r) :
    ∀ e ∈ r.inputs_to_rename, ∃ n ∈ r.output_graph_def, n.name = NodeNameFromInput e.2 := by
  obtain ⟨replaced, hout, _, hent⟩ := run_entries hrun
  intro e he
  obtain ⟨m, _, nn, target, ig, ho, hk, hsub⟩ := hent e he
  obtain ⟨⟨n, hn, hname⟩, hc⟩ := ho.target nn target ig rfl
  refine ⟨renameNode r.inputs_to_rename r.nodes_to_ignore n, ?_, ?_⟩
  · rw [hout]
    exact List.mem_map_of_mem _ (hsub n hn)
  · rw [(renameNode_name _ _ n).1, hname]
    rcases hk with rfl | rfl
    · rfl
    · exact hc.symm

/-- Witness of `rename_targets_exist`: the split elision of `exElisionGraph`. -/
theorem rename_targets_exist_witness :
    Transform.removeNoopSplit.run exElisionGraph ⟨[], [['Y']]⟩ =
        some ⟨[exX, { exY with input := [['X']] }],
          [(['^', 'S'], ['^', 'X']), (['S'], ['X'])], []⟩ ∧
      ∀ e ∈ [((['^', 'S'] : Str), (['^', 'X'] : Str)), (['S'], ['X'])],
        ∃ n ∈ [exX, { exY with input := [['X']] }], n.name = NodeNameFromInput e.2 :=
  ⟨by decide,
    rename_targets_exist .removeNoopSplit exElisionGraph ⟨[], [['Y']]⟩
      ⟨[exX, { exY with input := [['X']] }], [(['^', 'S'], ['^', 'X']), (['S'], ['X'])], []⟩
      (by decide)⟩

/-! ## C8: rename keys and the output graph -/

/-- The root of a match that a root-deleting callback rewrote names no node of
the output graph, when the match does not bind a node of that name again below
its root. -/
theorem rewritten_root_absent {t : Transform} (ht : t.deletesRoot = true) {g : GraphDef}
    {ctx : TransformFuncContext} {r : TransformRun} (hrun : t.run g ctx = some r)
    {m : NodeMatch} (hm : m ∈ GetOpTypeMatches g t.pattern)
    (hroot : ∀ n ∈ allNodesList m.inputs, n.name ≠ m.node.name)
    {nn : List NodeDef} {rn ig : Option Str}
    (ho : OutcomeOK t (requiredNodes ctx) m (.rewrite nn rn ig)) :
    ∀ n ∈ r.output_graph_def, n.name ≠ m.node.name := by
  obtain ⟨replaced, hout, hmem, _⟩ := run_entries hrun
  intro n hn hname
  rw [hout, List.mem_map] at hn
  obtain ⟨n0, hn0, rfl⟩ := hn
  rw [(renameNode_name _ _ n0).1] at hname
  rcases hmem n0 hn0 with ⟨_, hfree⟩ | ⟨m1, hm1, s, s1, nn1, hgen, hin⟩
  · apply hfree
    rw [hname]
    exact root_name_matched hm
  · obtain ⟨o1, ho1⟩ := callback_outcome t g (requiredNodes ctx) m1 (GetOpTypeMatches_found hm1)
    have h1 := fragment_names ho1 hgen n0 hin
    rw [List.mem_map] at h1
    obtain ⟨x, hx, hxn⟩ := h1
    have heq : m1 = m :=
      pairwise_disjoint_eq (GetOpTypeMatches_disjoint g t.pattern) hm1 hm hx
        (node_mem_allNodes m) (hxn.trans hname)
    subst heq
    have hag := ho.agrees s
    rw [hgen] at hag
    simp only [Outcome.apply, Option.some.injEq, Prod.mk.injEq] at hag
    have h2 := ho.inner nn rn ig rfl ht n0 (hag.1 ▸ hin)
    rw [List.mem_map] at h2
    obtain ⟨y, hy, hyn⟩ := h2
    exact hroot y hy (hyn.trans hname)

/-- C8, as stated, fails: `SwapTransRelu` on `exReluGraph` records the rename
keys `R` and `^R`, and the relu `R` is still a node of the output graph (it now
reads `X`, and the transpose reads it). -/
theorem rename_key_kept_by_SwapTransRelu :
    SwapTransRelu exReluGraph ⟨[], [['Y']]⟩ =
      some ⟨[exX, { exR with input := [['X']] }, exP, { exT with input := [['R'], ['p']] },
          { exYR with input := [['T']] }],
        [(['^', 'R'], ['^', 'T']), (['R'], ['T'])], [['T']]⟩ ∧
      (['R'] : Str) ∈ [(['^', 'R'] : Str), ['R']] ∧
      (['R'] : Str) ∈ [exX, { exR with input := [['X']] }, exP,
        { exT with input := [['R'], ['p']] }, { exYR with input := [['T']] }].map
          NodeDef.name := by
  refine ⟨by decide, by decide, by decide⟩

/-- C8, amended: for `RemoveNoopSplit`, `RemoveNoopPadV2` and `FoldTransposedPads`
(the transforms whose rewrite leaves the root out), on every graph in which no
match binds a node named as its root again below the root, every key of
`inputs_to_rename` is `S` or `^S` for a name `S` that names no node of the
output graph. -/
theorem rename_keys_absent_from_output (t : Transform) (ht : t.deletesRoot = true)
    (g : GraphDef) (ctx : TransformFuncContext) (r : TransformRun)
    (hrun : t.run g ctx = some r)
    (hroot : ∀ m ∈ GetOpTypeMatches g t.pattern,
      ∀ n ∈ allNodesList m.inputs, n.name ≠ m.node.name) :
    ∀ e ∈ r.inputs_to_rename, ∃ S : Str, (e.1 = S ∨ e.1 = '^' :: S) ∧
      ∀ n ∈ r.output_graph_def, n.name ≠ S := by
  obtain ⟨replaced, _, _, hent⟩ := run_entries hrun
  intro e he
  obtain ⟨m, hm, nn, target, ig, ho, hk, _⟩ := hent e he
  refine ⟨m.node.name, ?_, rewritten_root_absent ht hrun hm (hroot m hm) ho⟩
  rcases hk with rfl | rfl
  · exact Or.inl rfl
  · exact Or.inr rfl

/-- Witness of `rename_keys_absent_from_output`: the split elision of
`exElisionGraph`. -/
theorem rename_keys_absent_from_output_witness :
    Transform.removeNoopSplit.run exElisionGraph ⟨[], [['Y']]⟩ =
        some ⟨[exX, { exY with input := [['X']] }],
          [(['^', 'S'], ['^', 'X']), (['S'], ['X'])], []⟩ ∧
      ∀ e ∈ [((['^', 'S'] : Str), (['^', 'X'] : Str)), (['S'], ['X'])],
        ∃ S : Str, (e.1 = S ∨ e.1 = '^' :: S) ∧
          ∀ n ∈ [exX, { exY with input := [['X']] }], n.name ≠ S :=
  ⟨by decide,
    rename_keys_absent_from_output .removeNoopSplit rfl exElisionGraph ⟨[], [['Y']]⟩
      ⟨[exX, { exY with input := [['X']] }], [(['^', 'S'], ['^', 'X']), (['S'], ['X'])], []⟩
      (by decide)
      (by
        rw [show GetOpTypeMatches exElisionGraph Transform.removeNoopSplit.pattern =
          [exSplitMatch] from rfl]
        intro m hm
        rw [List.mem_singleton.mp hm]
        decide)⟩

/-! ## A pass that copies every match back -/

theorem renameInput_data {R : List (Str × Str)} {ref target : Str}
    (hhead : ref.head? ≠ some '^') (h : renameTarget R ref = some target) :
    renameInput R ref = target := by
  unfold renameInput
  split
  · exact absurd rfl hhead
  · rw [h]

theorem CanonicalInputName_good {s : Str} (h : ':' ∉ s) :
    CanonicalInputName s = s ++ [':', '0'] := by
  unfold CanonicalInputName
  have : s.dropWhile (fun c => c ≠ ':') = [] := by
    rw [List.dropWhile_eq_nil_iff]
    intro c hc
    simp only [ne_eq, decide_not, Bool.not_eq_eq_eq_not, Bool.not_true,
      decide_eq_false_iff_not]
    rintro rfl
    exact h hc
  rw [if_pos this]

theorem CanonicalInputName_index (s : Str) :
    CanonicalInputName (s ++ [':', '0']) = s ++ [':', '0'] := by
  unfold CanonicalInputName
  have : (s ++ [':', '0']).dropWhile (fun c => c ≠ ':') ≠ [] := by
    rw [ne_eq, List.dropWhile_eq_nil_iff]
    intro h
    have := h ':' (by simp)
    simp at this
  rw [if_neg this]

/-! ## C16: what `RemoveNoopPadV2` removes -/

/-- C16 fails on the code: in `exPadV2Graph` the paddings input of the pad `P` is
a constant with the non-zero entries `[[1, 1], [2, 2]]`, `P` is not required,
and `RemoveNoopPadV2` removes it all the same: the output has no node `P` and
`Y` reads `X` directly. -/
theorem RemoveNoopPadV2_removes_a_real_pad :
    exPadV2 ∈ exPadV2Graph ∧ nonControlInputs exPadV2 = [['X'], ['p', 'a', 'd'], ['c']] ∧
      nodeByName exPadV2Graph (NodeNameFromInput ['p', 'a', 'd']) = some exPadAmounts ∧
      GetNodeTensorAttr exPadAmounts "value".data =
        some ⟨.DT_INT32, [2, 2], [1, 1, 2, 2]⟩ ∧
      RemoveNoopPadV2 exPadV2Graph ⟨[], [['Y']]⟩ =
        some ⟨[exX, { exYP with input := [['X']] }],
          [(['^', 'P'], ['^', 'X']), (['P'], ['X'])], []⟩ ∧
      exPadV2.name ∉ [exX, { exYP with input := [['X']] }].map NodeDef.name := by
  refine ⟨by decide, by decide, by decide, by decide, by decide, by decide⟩

/-! ## C19: the rename target of a no-op removal -/

/-- C19 fails on the code: the split `S` of `exSameSourceGraph` reads its axis
through `U` and its value through `U:1`; the prefix scan of the callback stops
at the first input that names `U`, so the value recorded for `S` is `U`, not
the value input `U:1`, and `Y` ends up reading output 0 of `U`. -/
theorem rename_target_is_first_input_naming_the_node :
    GetOpTypeMatches exSameSourceGraph splitPattern = [exSameSourceMatch] ∧
      (nonControlInputs exSplitOfU)[1]? = some ['U', ':', '1'] ∧
      RemoveNoopSplitCallback [['Y']] exSameSourceMatch ⟨[], []⟩ =
        some ([exAxisValue], ⟨[(['^', 'S'], ['^', 'U']), (['S'], ['U'])], []⟩) ∧
      RemoveNoopSplit exSameSourceGraph ⟨[], [['Y']]⟩ =
        some ⟨[exAxisValue, { exY with input := [['U']] }],
          [(['^', 'S'], ['^', 'U']), (['S'], ['U'])], []⟩ := by
  refine ⟨rfl, by decide, by decide, by decide⟩

/-! ## C18: what `RemoveNoopSplit` removes -/

/-- C18: for every match of the split pattern (with the match `input_match` of
the value input), the callback of `RemoveNoopSplit` removes the split, emitting
only the node of the value input and recording the entries `name -> target`
and `^name -> ^target`, when its name is not required and its attribute
`num_split` is the integer 1; in every other case (name required, attribute
absent, not an integer, or another value) it emits the original match and
leaves the side tables alone. -/
theorem RemoveNoopSplit_removes_exactly_noop_splits (required_nodes : List Str)
    (m input_match : NodeMatch) (st : RewriteState) (hin : m.inputs[1]? = some input_match) :
    ((m.node.name ∉ required_nodes ∧
        attrFind m.node.attr "num_split".data = some (.i 1)) →
      ∃ target st1, RemoveNoopSplitCallback required_nodes m st =
          some ([input_match.node], st1) ∧
        (m.node.name, target) ∈ st1.inputs_to_rename ∧
        ('^' :: m.node.name, '^' :: target) ∈ st1.inputs_to_rename ∧
        st1.nodes_to_ignore = st.nodes_to_ignore) ∧
    (¬(m.node.name ∉ required_nodes ∧
        attrFind m.node.attr "num_split".data = some (.i 1)) →
      RemoveNoopSplitCallback required_nodes m st = some (MatchedNodesAsArray m, st)) := by
  constructor
  · rintro ⟨h1, h2⟩
    refine ⟨scanTargetName input_match.node.name m.node.input,
      st.addRename m.node.name (scanTargetName input_match.node.name m.node.input), ?_, ?_, ?_, rfl⟩
    · simp [RemoveNoopSplitCallback, h1, h2, hin]
    · simp [RewriteState.addRename, mapSet]
    · simp [RewriteState.addRename, mapSet]
  · intro h
    by_cases h1 : m.node.name ∈ required_nodes
    · simp [RemoveNoopSplitCallback, h1]
    · have h2 : ¬attrFind m.node.attr "num_split".data = some (.i 1) := fun h2 => h ⟨h1, h2⟩
      simp only [RemoveNoopSplitCallback, h1, if_false, CopyOriginalMatch_nil]

/-- Witness of `RemoveNoopSplit_removes_exactly_noop_splits`: the split of
`exSplitMatch`. -/
theorem RemoveNoopSplit_removes_exactly_noop_splits_witness :
    ((exSplitMatch.node.name ∉ [['Y']] ∧
        attrFind exSplitMatch.node.attr "num_split".data = some (.i 1)) →
      ∃ target st1, RemoveNoopSplitCallback [['Y']] exSplitMatch ⟨[], []⟩ =
          some ([(NodeMatch.mk exX []).node], st1) ∧
        (exSplitMatch.node.name, target) ∈ st1.inputs_to_rename ∧
        ('^' :: exSplitMatch.node.name, '^' :: target) ∈ st1.inputs_to_rename ∧
        st1.nodes_to_ignore = []) ∧
    (¬(exSplitMatch.node.name ∉ [['Y']] ∧
        attrFind exSplitMatch.node.attr "num_split".data = some (.i 1)) →
      RemoveNoopSplitCallback [['Y']] exSplitMatch ⟨[], []⟩ =
        some (MatchedNodesAsArray exSplitMatch, ⟨[], []⟩)) :=
  RemoveNoopSplit_removes_exactly_noop_splits [['Y']] exSplitMatch (.mk exX []) ⟨[], []⟩ rfl

/-! ## C11: a protected dilation -/

/-- The root of a match of a pattern that is not the wildcard has the op of the
pattern. -/
theorem DoesOpTypeMatch_op {g : GraphDef} {prev : List Str} {node : NodeDef} {op : Str}
    {inputs : List OpTypePattern} {m : NodeMatch} (hop : op ≠ ['*'])
    (h : DoesOpTypeMatch g prev node (.mk op inputs) = some m) : m.node.op = op := by
  have hnode := (DoesOpTypeMatch_sound g prev node _ m h).1
  rw [hnode]
  by_contra hne
  unfold DoesOpTypeMatch at h
  simp only [hop, if_false, ne_eq, hne, not_false_eq_true, if_true] at h
  split_ifs at h

theorem root_mem_MatchedNodesAsArray (m : NodeMatch) : m.node ∈ MatchedNodesAsArray m := by
  unfold MatchedNodesAsArray
  rw [allNodes_eq]
  unfold dedupByName
  exact List.mem_cons_self _ _

/-- The only node of the original match under the name of the root is the root. -/
theorem MatchedNodesAsArray_root_unique (m : NodeMatch) :
    ∀ n ∈ MatchedNodesAsArray m, n.name = m.node.name → n = m.node := by
  intro n hn hname
  unfold MatchedNodesAsArray at hn
  rw [allNodes_eq] at hn
  unfold dedupByName at hn
  rw [List.mem_cons] at hn
  rcases hn with h | h
  · exact h
  · have := (List.mem_filter.mp h).2
    simp [hname] at this

/-- The root case of the protected dilation: for every graph and context, if the
root of a match of the dilation pattern (a `Dilation2D` node with two data
inputs) has as its name the base name of a declared graph input or output, then
the callback returns the original match whatever the side tables hold, the node
is in the output of `Dilation2DToMaxPool2D` as it was (op `Dilation2D`, same
inputs and attrs) with every other node of its match, and every node of the
output under its name is that very node: no `MaxPool` node stands for it. -/
theorem protected_dilation_is_kept (g : GraphDef) (ctx : TransformFuncContext)
    (r : TransformRun) (hrun : Dilation2DToMaxPool2D g ctx = some r) (m : NodeMatch)
    (hm : m ∈ GetOpTypeMatches g dilationPattern)
    (hdecl : ∃ decl ∈ ctx.input_names ++ ctx.output_names,
      NodeNameFromInput decl = m.node.name) :
    m.node ∈ g ∧ m.node.op = "Dilation2D".data ∧
      (∀ st, Dilation2DToMaxPool2DCallback (requiredNodes ctx) m st =
        some (MatchedNodesAsArray m, st)) ∧
      m.node ∈ r.output_graph_def ∧
      (∀ n ∈ MatchedNodesAsArray m, n ∈ r.output_graph_def) ∧
      (∀ n ∈ r.output_graph_def, n.name = m.node.name → n = m.node) := by
  have hreq : m.node.name ∈ requiredNodes ctx := by
    obtain ⟨decl, hd, hn⟩ := hdecl
    unfold requiredNodes
    rw [← List.map_append, ← hn]
    exact List.mem_map_of_mem _ hd
  have hcb : ∀ st, Dilation2DToMaxPool2DCallback (requiredNodes ctx) m st =
      some (MatchedNodesAsArray m, st) := by
    intro st
    simp [Dilation2DToMaxPool2DCallback, hreq]
  have hfound := GetOpTypeMatches_found hm
  have hop : m.node.op = "Dilation2D".data := by
    obtain ⟨prev, hprev⟩ := GetOpTypeMatches_matched hm
    exact DoesOpTypeMatch_op (by decide) hprev
  simp only [Dilation2DToMaxPool2D, ReplaceMatchingOpTypes] at hrun
  split at hrun
  · cases hrun
  · next replaced st hre =>
    cases hrun
    have hfind := find_head (GetOpTypeMatches_disjoint g dilationPattern) hm
    obtain ⟨s, s1, nn, hgen, hsub⟩ :=
      rebuildNodes_fragment _ _ g _ _ _ hre m.node hfound.root_mem m hfind
    rw [hcb] at hgen
    simp only [Option.some.injEq, Prod.mk.injEq] at hgen
    have hall : ∀ n ∈ MatchedNodesAsArray m, n ∈ replaced :=
      fun n hn => hsub n (hgen.1 ▸ hn)
    refine ⟨hfound.root_mem, hop, hcb, hall _ (root_mem_MatchedNodesAsArray m), hall, ?_⟩
    intro n hn hname
    rcases rebuildNodes_mem _ _ g _ _ _ hre n hn with ⟨_, hfree⟩ | ⟨m1, hm1, s2, s3, nn1, hgen1, hin1⟩
    · exact absurd (hname ▸ root_name_matched hm) hfree
    · obtain ⟨o1, ho1⟩ := callback_outcome .dilation2DToMaxPool2D g (requiredNodes ctx) m1
        (GetOpTypeMatches_found hm1)
      have h1 := fragment_names ho1 hgen1 n hin1
      rw [List.mem_map] at h1
      obtain ⟨x, hx, hxn⟩ := h1
      have heq : m1 = m :=
        pairwise_disjoint_eq (GetOpTypeMatches_disjoint g dilationPattern) hm1 hm hx
          (node_mem_allNodes m) (hxn.trans hname)
      subst heq
      rw [hcb] at hgen1
      simp only [Option.some.injEq, Prod.mk.injEq] at hgen1
      exact MatchedNodesAsArray_root_unique m1 n (hgen1.1 ▸ hin1) hname

/-- Witness of `protected_dilation_is_kept`: the dilation `out` of
`exDilationGraph`, declared as the graph output `out:0`. -/
theorem protected_dilation_is_kept_witness :
    Dilation2DToMaxPool2D exDilationGraph ⟨[], [['o', 'u', 't', ':', '0']]⟩ =
        some ⟨[exDilation, exX, exW], [], []⟩ ∧
      (∃ decl ∈ ([] : List Str) ++ [['o', 'u', 't', ':', '0']],
        NodeNameFromInput decl = exDilationMatch.node.name) ∧
      exDilationMatch.node ∈ exDilationGraph ∧
      exDilationMatch.node.op = "Dilation2D".data ∧
      (∀ st, Dilation2DToMaxPool2DCallback (requiredNodes ⟨[], [['o', 'u', 't', ':', '0']]⟩)
          exDilationMatch st = some (MatchedNodesAsArray exDilationMatch, st)) ∧
      exDilationMatch.node ∈ [exDilation, exX, exW] ∧
      (∀ n ∈ MatchedNodesAsArray exDilationMatch, n ∈ [exDilation, exX, exW]) ∧
      (∀ n ∈ [exDilation, exX, exW], n.name = exDilationMatch.node.name →
        n = exDilationMatch.node) :=
  ⟨by decide, ⟨['o', 'u', 't', ':', '0'], by decide, by decide⟩,
    protected_dilation_is_kept exDilationGraph ⟨[], [['o', 'u', 't', ':', '0']]⟩
      ⟨[exDilation, exX, exW], [], []⟩ (by decide) exDilationMatch
      (by
        rw [show GetOpTypeMatches exDilationGraph dilationPattern = [exDilationMatch] from rfl]
        exact List.mem_singleton.mpr rfl)
      ⟨['o', 'u', 't', ':', '0'], by decide, by decide⟩⟩

/-! ## The callbacks, case by case -/

theorem permDiffers_false : ∀ (v e : List Int), permDiffers v e = some false →
    v.take e.length = e
  | _, [], _ => by simp
  | [], _ :: _, h => by simp [permDiffers] at h
  | x :: v, e :: es, h => by
    unfold permDiffers at h
    split_ifs at h with hx
    · cases h
    · have := permDiffers_false v es h
      simp only [List.length_cons, List.take_succ_cons, List.cons.injEq]
      exact ⟨not_not.mp hx, this⟩

theorem permDiffers_true : ∀ (v e : List Int), permDiffers v e = some true →
    v.take e.length ≠ e
  | _, [], h => by simp [permDiffers] at h
  | [], _ :: _, h => by simp [permDiffers] at h
  | x :: v, e :: es, h => by
    unfold permDiffers at h
    simp only [List.length_cons, List.take_succ_cons, ne_eq, List.cons.injEq, not_and]
    split_ifs at h with hx
    · exact fun hxe => absurd hxe hx
    · exact fun _ => permDiffers_true v es h

/-- The paths of the callback of `FoldTransposedPads` that return: the six nodes
are bound, and either the callback returns the original match, because a
checked node is required or one of the two permutation constants differs from
the expected vector in its first four entries, or no checked node is required,
both permutation constants start with the expected entries, and the callback
returns the five replacement nodes and records the rename of the root to the
pad. -/
theorem FoldTransposedPadsCallback_cases {required_nodes : List Str} {m : NodeMatch}
    {st st1 : RewriteState} {nn : List NodeDef}
    (h : FoldTransposedPadsCallback required_nodes m st = some (nn, st1)) :
    ∃ perm2_match pad_match paddings_match transpose1_match perm1_match input_match,
      m.inputs[1]? = some perm2_match ∧ m.inputs[0]? = some pad_match ∧
      pad_match.inputs[1]? = some paddings_match ∧
      pad_match.inputs[0]? = some transpose1_match ∧
      transpose1_match.inputs[1]? = some perm1_match ∧
      transpose1_match.inputs[0]? = some input_match ∧
      ((((∃ node ∈ [m.node, perm2_match.node, pad_match.node, paddings_match.node,
              transpose1_match.node, perm1_match.node], node.name ∈ required_nodes) ∨
            (∃ v, permVector perm1_match.node = some v ∧ v.take 4 ≠ [0, 3, 1, 2]) ∨
            (∃ v, permVector perm2_match.node = some v ∧ v.take 4 ≠ [0, 2, 3, 1])) ∧
          nn = MatchedNodesAsArray m ∧ st1 = st) ∨
        ((¬∃ node ∈ [m.node, perm2_match.node, pad_match.node, paddings_match.node,
              transpose1_match.node, perm1_match.node], node.name ∈ required_nodes) ∧
          ∃ v1 v2 paddings new_paddings,
            permVector perm1_match.node = some v1 ∧ v1.take 4 = [0, 3, 1, 2] ∧
            permVector perm2_match.node = some v2 ∧ v2.take 4 = [0, 2, 3, 1] ∧
            GetNodeTensorAttr paddings_match.node "value".data = some paddings ∧
            reorderPaddings paddings = some new_paddings ∧
            nn = [foldNewPaddingsNode paddings_match.node new_paddings,
              foldNewPadNode pad_match.node input_match.node paddings_match.node,
              input_match.node, transpose1_match.node, perm1_match.node] ∧
            st1 = st.addRename m.node.name pad_match.node.name)) := by
  simp only [FoldTransposedPadsCallback] at h
  split at h
  swap
  · cases h
  next perm2_match pad_match a1 a2 =>
  split at h
  swap
  · cases h
  next paddings_match transpose1_match a3 a4 =>
  split at h
  swap
  · cases h
  next perm1_match input_match a5 a6 =>
  refine ⟨perm2_match, pad_match, paddings_match, transpose1_match, perm1_match, input_match,
    a1, a2, a3, a4, a5, a6, ?_⟩
  split_ifs at h with hr
  · simp only [CopyOriginalMatch_nil, Option.some.injEq, Prod.mk.injEq] at h
    exact Or.inl ⟨Or.inl hr, h.1.symm, h.2.symm⟩
  split at h
  swap
  · cases h
  next perm2 paddings perm1 b1 b2 b3 =>
  split at h
  swap
  · cases h
  next perm1_vector perm2_vector pv c1 c2 c3 =>
  have hv1 : permVector perm1_match.node = some perm1_vector := by
    simp [permVector, b3, c1]
  have hv2 : permVector perm2_match.node = some perm2_vector := by
    simp [permVector, b1, c2]
  split at h
  · cases h
  · next d1 =>
    simp only [CopyOriginalMatch_nil, Option.some.injEq, Prod.mk.injEq] at h
    exact Or.inl ⟨Or.inr (Or.inl ⟨perm1_vector, hv1, permDiffers_true _ _ d1⟩),
      h.1.symm, h.2.symm⟩
  · next d1 =>
    split at h
    · cases h
    · next d2 =>
      simp only [CopyOriginalMatch_nil, Option.some.injEq, Prod.mk.injEq] at h
      exact Or.inl ⟨Or.inr (Or.inr ⟨perm2_vector, hv2, permDiffers_true _ _ d2⟩),
        h.1.symm, h.2.symm⟩
    · next d2 =>
      split at h
      · cases h
      · next new_paddings e1 =>
        simp only [Option.some.injEq, Prod.mk.injEq] at h
        exact Or.inr ⟨hr, perm1_vector, perm2_vector, paddings, new_paddings, hv1,
          permDiffers_false _ _ d1, hv2, permDiffers_false _ _ d2, b2, e1, h.1.symm, h.2.symm⟩

theorem permDiffers_of_take : ∀ (v e : List Int), v.take e.length = e →
    permDiffers v e = some false
  | _, [], _ => by simp [permDiffers]
  | [], _ :: _, h => by simp at h
  | x :: v, e :: es, h => by
    simp only [List.length_cons, List.take_succ_cons, List.cons.injEq] at h
    unfold permDiffers
    rw [if_neg (not_not.mpr h.1)]
    exact permDiffers_of_take v es h.2

theorem permVector_some {node : NodeDef} {v : List Int} (h : permVector node = some v) :
    ∃ t, GetNodeTensorAttr node "value".data = some t ∧ t.flatInt32 = some v := by
  unfold permVector at h
  split at h
  · next t ht => exact ⟨t, ht, h⟩
  · cases h

/-- The accepting path of the callback of `FoldTransposedPads`: with the six nodes
bound, no checked node required, both permutation constants starting with the
expected entries and a paddings constant that can be re-ordered, the callback
returns the five replacement nodes and records the rename of the root to the
pad. -/
theorem FoldTransposedPadsCallback_accept {required_nodes : List Str}
    {m perm2_match pad_match paddings_match transpose1_match perm1_match input_match : NodeMatch}
    (a1 : m.inputs[1]? = some perm2_match) (a2 : m.inputs[0]? = some pad_match)
    (a3 : pad_match.inputs[1]? = some paddings_match)
    (a4 : pad_match.inputs[0]? = some transpose1_match)
    (a5 : transpose1_match.inputs[1]? = some perm1_match)
    (a6 : transpose1_match.inputs[0]? = some input_match)
    (hr : ¬∃ node ∈ [m.node, perm2_match.node, pad_match.node, paddings_match.node,
      transpose1_match.node, perm1_match.node], node.name ∈ required_nodes)
    {v1 v2 : List Int} (hv1 : permVector perm1_match.node = some v1)
    (h1 : v1.take 4 = [0, 3, 1, 2]) (hv2 : permVector perm2_match.node = some v2)
    (h2 : v2.take 4 = [0, 2, 3, 1]) {paddings new_paddings : Tensor}
    (hp : GetNodeTensorAttr paddings_match.node "value".data = some paddings)
    (hnew : reorderPaddings paddings = some new_paddings) (st : RewriteState) :
    FoldTransposedPadsCallback required_nodes m st =
      some ([foldNewPaddingsNode paddings_match.node new_paddings,
          foldNewPadNode pad_match.node input_match.node paddings_match.node,
          input_match.node, transpose1_match.node, perm1_match.node],
        st.addRename m.node.name pad_match.node.name) := by
  obtain ⟨t1, b3, c1⟩ := permVector_some hv1
  obtain ⟨t2, b1, c2⟩ := permVector_some hv2
  have c3 : ∃ pv, paddings.flatOuterDims2 = some pv := by
    unfold reorderPaddings at hnew
    split at hnew
    · cases hnew
    · next rows cols vals hpv => exact ⟨_, hpv⟩
  obtain ⟨pv, c3⟩ := c3
  have d1 := permDiffers_of_take v1 [0, 3, 1, 2] h1
  have d2 := permDiffers_of_take v2 [0, 2, 3, 1] h2
  simp only [FoldTransposedPadsCallback, a1, a2, a3, a4, a5, a6, if_neg hr, b1, hp, b3, c1, c2,
    c3, d1, d2, hnew]
  rfl

/-! ## C12: the re-ordered padding rows -/

theorem rows_of_append {c : Nat} {r0 r1 r2 r3 : List Int} (h0 : r0.length = c)
    (h1 : r1.length = c) (h2 : r2.length = c) (h3 : r3.length = c) :
    ((r0 ++ r1 ++ r2 ++ r3).drop (0 * c)).take c = r0 ∧
      ((r0 ++ r1 ++ r2 ++ r3).drop (1 * c)).take c = r1 ∧
      ((r0 ++ r1 ++ r2 ++ r3).drop (2 * c)).take c = r2 ∧
      ((r0 ++ r1 ++ r2 ++ r3).drop (3 * c)).take c = r3 := by
  refine ⟨?_, ?_, ?_, ?_⟩
  · rw [Nat.zero_mul, List.drop_zero, List.append_assoc, List.append_assoc]
    exact List.take_left' h0
  · rw [Nat.one_mul, List.append_assoc, List.append_assoc, List.drop_left' h0,
      List.take_left' h1]
  · have : (r0 ++ r1).length = 2 * c := by rw [List.length_append]; omega
    rw [List.append_assoc (r0 ++ r1), List.drop_left' this, List.take_left' h2]
  · have : (r0 ++ r1 ++ r2).length = 3 * c := by
      rw [List.length_append, List.length_append]; omega
    rw [List.drop_left' this, List.take_of_length_le (by omega)]

/-- Re-ordering of a 4-row matrix: rows 0, 2, 3, 1. -/
theorem reorderPaddings_four_rows {c : Nat} {r0 r1 r2 r3 : List Int} (h0 : r0.length = c)
    (h1 : r1.length = c) (h2 : r2.length = c) (h3 : r3.length = c) :
    reorderPaddings ⟨.DT_INT32, [4, c], r0 ++ r1 ++ r2 ++ r3⟩ =
      some ⟨.DT_INT32, [4, c], r0 ++ r2 ++ r3 ++ r1⟩ := by
  obtain ⟨e0, e1, e2, e3⟩ := rows_of_append h0 h1 h2 h3
  rw [Nat.zero_mul] at e0
  simp only [reorderPaddings, Tensor.flatOuterDims2, if_true, List.headD_cons, List.tail_cons,
    List.prod_cons, List.prod_nil, Nat.mul_one, sliceRow, Nat.lt_irrefl,
    show (0 : Nat) < 4 from by decide, show (1 : Nat) < 4 from by decide,
    show (2 : Nat) < 4 from by decide, show (3 : Nat) < 4 from by decide,
    e0, e1, e2, e3, Nat.sub_self, Nat.zero_mul, List.replicate_zero, List.append_nil]

/-- C12: for every match of `FoldTransposedPads` that the callback accepts (the
six nodes bound, no checked node required, the first permutation constant
starting with `[0, 3, 1, 2]`, the second with `[0, 2, 3, 1]`) whose paddings
constant is the 4-row integer matrix with the rows `r0, r1, r2, r3` of length
`c`: the callback returns, and the first node it emits is the replacement
paddings constant: a `Const` with the name of the paddings node whose value has
the same shape `[4, c]` and the rows `r0, r2, r3, r1`. -/
theorem FoldTransposedPads_reorders_padding_rows (required_nodes : List Str)
    (m perm2_match pad_match paddings_match transpose1_match perm1_match input_match : NodeMatch)
    (st : RewriteState)
    (a1 : m.inputs[1]? = some perm2_match) (a2 : m.inputs[0]? = some pad_match)
    (a3 : pad_match.inputs[1]? = some paddings_match)
    (a4 : pad_match.inputs[0]? = some transpose1_match)
    (a5 : transpose1_match.inputs[1]? = some perm1_match)
    (a6 : transpose1_match.inputs[0]? = some input_match)
    (hr : ¬∃ node ∈ [m.node, perm2_match.node, pad_match.node, paddings_match.node,
      transpose1_match.node, perm1_match.node], node.name ∈ required_nodes)
    (v1 v2 : List Int) (hv1 : permVector perm1_match.node = some v1)
    (h1 : v1.take 4 = [0, 3, 1, 2]) (hv2 : permVector perm2_match.node = some v2)
    (h2 : v2.take 4 = [0, 2, 3, 1]) (c : Nat) (r0 r1 r2 r3 : List Int)
    (h0 : r0.length = c) (hl1 : r1.length = c) (hl2 : r2.length = c) (hl3 : r3.length = c)
    (hp : GetNodeTensorAttr paddings_match.node "value".data =
      some ⟨.DT_INT32, [4, c], r0 ++ r1 ++ r2 ++ r3⟩) :
    ∃ new_paddings_node rest st1,
      FoldTransposedPadsCallback required_nodes m st = some (new_paddings_node :: rest, st1) ∧
      new_paddings_node.name = paddings_match.node.name ∧
      new_paddings_node.op = "Const".data ∧
      attrFind new_paddings_node.attr "value".data =
        some (.tensor ⟨.DT_INT32, [4, c], r0 ++ r2 ++ r3 ++ r1⟩) := by
  refine ⟨_, _, _, FoldTransposedPadsCallback_accept a1 a2 a3 a4 a5 a6 hr hv1 h1 hv2 h2 hp
    (reorderPaddings_four_rows h0 hl1 hl2 hl3) st, rfl, rfl, ?_⟩
  simp [foldNewPaddingsNode, SetNodeTensorAttr, SetNodeAttr, attrSet, attrFind, NodeDef.empty]

/-- Witness of `FoldTransposedPads_reorders_padding_rows`: the match of
`exFoldGraph`, with the rows `[10, 11]`, `[20, 21]`, `[30, 31]`, `[40, 41]`. -/
theorem FoldTransposedPads_reorders_padding_rows_witness :
    ∃ new_paddings_node rest st1,
      FoldTransposedPadsCallback [['Y']] exFoldMatch ⟨[], []⟩ =
        some (new_paddings_node :: rest, st1) ∧
      new_paddings_node.name = exFoldPaddings.name ∧
      new_paddings_node.op = "Const".data ∧
      attrFind new_paddings_node.attr "value".data =
        some (.tensor ⟨.DT_INT32, [4, 2], [10, 11] ++ [30, 31] ++ [40, 41] ++ [20, 21]⟩) :=
  FoldTransposedPads_reorders_padding_rows [['Y']] exFoldMatch (.mk exFoldPerm2 [])
    (.mk exFoldPad [.mk exFoldT1 [.mk exX [], .mk exFoldPerm1 []], .mk exFoldPaddings []])
    (.mk exFoldPaddings []) (.mk exFoldT1 [.mk exX [], .mk exFoldPerm1 []])
    (.mk exFoldPerm1 []) (.mk exX []) ⟨[], []⟩ rfl rfl rfl rfl rfl rfl (by decide)
    [0, 3, 1, 2] [0, 2, 3, 1] (by decide) (by decide) (by decide) (by decide) 2
    [10, 11] [20, 21] [30, 31] [40, 41] rfl rfl rfl rfl (by decide)

/-- The paths of the callback of `SwapTransMulAdd` that return: the six nodes are
bound, and either the callback returns the original match, because a checked
node is required or the permutation constant differs from `[0, 3, 1, 2]` in its
first four entries, or no checked node is required, the permutation constant
starts with the expected entries, and the callback returns seven nodes, the
retained transpose reading the new add, and records the rename of the root to
the transpose and the transpose as excluded. -/
theorem SwapTransMulAddCallback_cases {required_nodes : List Str} {m : NodeMatch}
    {st st1 : RewriteState} {nn : List NodeDef}
    (h : SwapTransMulAddCallback required_nodes m st = some (nn, st1)) :
    ∃ bias_match mul_match weights_match transpose_match perm_match input_match,
      m.inputs[1]? = some bias_match ∧ m.inputs[0]? = some mul_match ∧
      mul_match.inputs[1]? = some weights_match ∧
      mul_match.inputs[0]? = some transpose_match ∧
      transpose_match.inputs[1]? = some perm_match ∧
      transpose_match.inputs[0]? = some input_match ∧
      ((((∃ node ∈ [m.node, bias_match.node, mul_match.node, weights_match.node,
              transpose_match.node, perm_match.node], node.name ∈ required_nodes) ∨
            (∃ v, permVector perm_match.node = some v ∧ v.take 4 ≠ [0, 3, 1, 2])) ∧
          nn = MatchedNodesAsArray m ∧ st1 = st) ∨
        ((¬∃ node ∈ [m.node, bias_match.node, mul_match.node, weights_match.node,
              transpose_match.node, perm_match.node], node.name ∈ required_nodes) ∧
          ∃ v new_weights_node new_mul_node new_bias_node new_add_node,
            permVector perm_match.node = some v ∧ v.take 4 = [0, 3, 1, 2] ∧
            new_add_node.name = m.node.name ∧
            nn = [input_match.node, new_weights_node, new_mul_node, new_bias_node,
              new_add_node, perm_match.node,
              { transpose_match.node with
                input := transpose_match.node.input.set 0 new_add_node.name }] ∧
            st1 = (st.addRename m.node.name transpose_match.node.name).addIgnore
              transpose_match.node.name)) := by
  simp only [SwapTransMulAddCallback] at h
  split at h
  swap
  · cases h
  next bias_match mul_match a1 a2 =>
  split at h
  swap
  · cases h
  next weights_match transpose_match a3 a4 =>
  split at h
  swap
  · cases h
  next perm_match input_match a5 a6 =>
  refine ⟨bias_match, mul_match, weights_match, transpose_match, perm_match, input_match,
    a1, a2, a3, a4, a5, a6, ?_⟩
  by_cases hr : ∃ node ∈ [m.node, bias_match.node, mul_match.node, weights_match.node,
      transpose_match.node, perm_match.node], node.name ∈ required_nodes
  · simp only [if_pos hr, CopyOriginalMatch_nil, Option.some.injEq, Prod.mk.injEq] at h
    exact Or.inl ⟨Or.inl hr, h.1.symm, h.2.symm⟩
  simp only [if_neg hr] at h
  split at h
  swap
  · cases h
  next perm weights bias b1 b2 b3 =>
  split at h
  swap
  · cases h
  next perm_vector w0 w1 w2 w3 weights_vector b0 b1 b2 b3 bias_vector c1 c2 c3 =>
  have hv : permVector perm_match.node = some perm_vector := by
    simp [permVector, *]
  split at h
  · cases h
  · next d1 =>
    simp only [CopyOriginalMatch_nil, Option.some.injEq, Prod.mk.injEq] at h
    exact Or.inl ⟨Or.inr ⟨perm_vector, hv, permDiffers_true _ _ d1⟩, h.1.symm, h.2.symm⟩
  · next d1 =>
    cases e1 : (if (attrFind m.node.attr "fused_activation_function".data).isSome then
        CopyNodeAttr m.node "fused_activation_function".data "fused_activation_function".data
          { NodeDef.empty with op := "AddV2".data, name := m.node.name }
      else some { NodeDef.empty with op := "AddV2".data, name := m.node.name }) with
    | none =>
      simp only [e1] at h
      cases h
    | some new_add =>
      have hname : new_add.name = m.node.name := by
        split_ifs at e1
        · exact (CopyNodeAttr_name e1).1
        · cases e1; rfl
      simp only [e1, Option.some.injEq, Prod.mk.injEq] at h
      refine Or.inr ⟨hr, perm_vector, _, _, _, _, hv, permDiffers_false _ _ d1, ?_,
        h.1.symm, h.2.symm⟩
      simpa [AddNodeInput, SetNodeAttr] using hname

/-- The paths of the callback of `SwapTransRelu` that return: the three inner
nodes are bound, and either a checked node is required and the callback returns
the original match, or none is and it returns the four nodes of the swap and
records the rename of the root to the transpose and the transpose as
excluded. -/
theorem SwapTransReluCallback_cases {required_nodes : List Str} {m : NodeMatch}
    {st st1 : RewriteState} {nn : List NodeDef}
    (h : SwapTransReluCallback required_nodes m st = some (nn, st1)) :
    ∃ transpose_match perm_match input_match,
      m.inputs[0]? = some transpose_match ∧
      transpose_match.inputs[1]? = some perm_match ∧
      transpose_match.inputs[0]? = some input_match ∧
      (((∃ node ∈ [m.node, transpose_match.node, perm_match.node, input_match.node],
            node.name ∈ required_nodes) ∧
          nn = MatchedNodesAsArray m ∧ st1 = st) ∨
        ((¬∃ node ∈ [m.node, transpose_match.node, perm_match.node, input_match.node],
            node.name ∈ required_nodes) ∧
          nn = [input_match.node,
            { m.node with input := m.node.input.set 0 input_match.node.name },
            perm_match.node,
            { transpose_match.node with
              input := transpose_match.node.input.set 0 m.node.name }] ∧
          st1 = (st.addRename m.node.name transpose_match.node.name).addIgnore
            transpose_match.node.name)) := by
  simp only [SwapTransReluCallback] at h
  split at h
  · cases h
  next transpose_match a1 =>
  split at h
  swap
  · cases h
  next perm_match input_match a2 a3 =>
  refine ⟨transpose_match, perm_match, input_match, a1, a2, a3, ?_⟩
  split_ifs at h with hr
  · simp only [CopyOriginalMatch_nil, Option.some.injEq, Prod.mk.injEq] at h
    exact Or.inl ⟨hr, h.1.symm, h.2.symm⟩
  · simp only [Option.some.injEq, Prod.mk.injEq] at h
    exact Or.inr ⟨hr, h.1.symm, h.2.symm⟩

/-! ## The shape of a match -/

theorem matchInputs_getElem? (g : GraphDef) (prev : List Str) :
    ∀ (rs : List Str) (ps : List OpTypePattern) (ms : List NodeMatch),
      rs.length = ps.length → matchInputs g prev rs ps = some ms →
      ∀ (i : Nat) (q : OpTypePattern), ps[i]? = some q →
        ∃ c node, ms[i]? = some c ∧ DoesOpTypeMatch g prev node q = some c
  | [], [], _, _, _, i, q, hq => by simp at hq
  | [], _ :: _, _, hl, _, _, _, _ => by simp at hl
  | _ :: _, [], _, hl, _, _, _, _ => by simp at hl
  | r :: rs, p :: ps, ms, hl, h, i, q, hq => by
    unfold matchInputs at h
    split at h
    · cases h
    · next input_node hlook =>
      split at h
      · cases h
      · next m hm =>
        split at h
        · cases h
        · next ms1 hms1 =>
          cases h
          cases i with
          | zero =>
            simp only [List.getElem?_cons_zero, Option.some.injEq] at hq
            subst hq
            exact ⟨m, input_node, List.getElem?_cons_zero, hm⟩
          | succ j =>
            simp only [List.getElem?_cons_succ] at hq ⊢
            exact matchInputs_getElem? g prev rs ps ms1 (by simpa using hl) hms1 j q hq

/-- A match of a pattern that is not the wildcard binds a match of the child
pattern at every input position of the pattern. -/
theorem DoesOpTypeMatch_child {g : GraphDef} {prev : List Str} {node : NodeDef} {op : Str}
    {inputs : List OpTypePattern} {m : NodeMatch} (hop : op ≠ ['*'])
    (h : DoesOpTypeMatch g prev node (.mk op inputs) = some m) {i : Nat} {q : OpTypePattern}
    (hq : inputs[i]? = some q) :
    ∃ c node1, m.inputs[i]? = some c ∧ DoesOpTypeMatch g prev node1 q = some c := by
  unfold DoesOpTypeMatch at h
  split_ifs at h with h1 h3 h4
  simp only [Option.map_eq_some'] at h
  obtain ⟨ms, hms, rfl⟩ := h
  exact matchInputs_getElem? g prev _ _ ms (not_not.mp h4) hms i q hq

/-- Shape of a match of a pattern `op0(op1(op2(a, b), c), d)`: the six inner
positions the callbacks of `FoldTransposedPads` and `SwapTransMulAdd` read are
bound. -/
theorem shape_of_depth_three {g : GraphDef} {prev : List Str} {node : NodeDef}
    {op0 op1 op2 : Str} {pa pb pc pd : OpTypePattern} {m : NodeMatch}
    (h0 : op0 ≠ ['*']) (h1 : op1 ≠ ['*']) (h2 : op2 ≠ ['*'])
    (h : DoesOpTypeMatch g prev node (.mk op0 [.mk op1 [.mk op2 [pa, pb], pc], pd]) = some m) :
    ∃ x1 x0 x01 x00 x001 x000, m.inputs[1]? = some x1 ∧ m.inputs[0]? = some x0 ∧
      x0.inputs[1]? = some x01 ∧ x0.inputs[0]? = some x00 ∧
      x00.inputs[1]? = some x001 ∧ x00.inputs[0]? = some x000 := by
  obtain ⟨x1, _, a1, _⟩ := DoesOpTypeMatch_child (i := 1) h0 h rfl
  obtain ⟨x0, n0, a2, m0⟩ := DoesOpTypeMatch_child (i := 0) h0 h rfl
  obtain ⟨x01, _, a3, _⟩ := DoesOpTypeMatch_child (i := 1) h1 m0 rfl
  obtain ⟨x00, n00, a4, m00⟩ := DoesOpTypeMatch_child (i := 0) h1 m0 rfl
  obtain ⟨x001, _, a5, _⟩ := DoesOpTypeMatch_child (i := 1) h2 m00 rfl
  obtain ⟨x000, _, a6, _⟩ := DoesOpTypeMatch_child (i := 0) h2 m00 rfl
  exact ⟨x1, x0, x01, x00, x001, x000, a1, a2, a3, a4, a5, a6⟩

/-- Shape of a match of a pattern `op0(op1(a, b))`: the three inner positions the
callback of `SwapTransRelu` reads are bound. -/
theorem shape_of_depth_two {g : GraphDef} {prev : List Str} {node : NodeDef}
    {op0 op1 : Str} {pa pb : OpTypePattern} {m : NodeMatch}
    (h0 : op0 ≠ ['*']) (h1 : op1 ≠ ['*'])
    (h : DoesOpTypeMatch g prev node (.mk op0 [.mk op1 [pa, pb]]) = some m) :
    ∃ x0 x01 x00, m.inputs[0]? = some x0 ∧ x0.inputs[1]? = some x01 ∧
      x0.inputs[0]? = some x00 := by
  obtain ⟨x0, n0, a1, m0⟩ := DoesOpTypeMatch_child (i := 0) h0 h rfl
  obtain ⟨x01, _, a2, _⟩ := DoesOpTypeMatch_child (i := 1) h1 m0 rfl
  obtain ⟨x00, _, a3, _⟩ := DoesOpTypeMatch_child (i := 0) h1 m0 rfl
  exact ⟨x0, x01, x00, a1, a2, a3⟩

/-! ## C15: a rejected match -/

/-- On the paths on which a callback returns and the rejection conditions hold,
it returns the original match and the side tables it was given. -/
theorem rejected_result {t : Transform} {required_nodes : List Str} {m : NodeMatch}
    {st st1 : RewriteState} {nn : List NodeDef}
    (h : t.callback required_nodes m st = some (nn, st1))
    (hrej : t.rejects required_nodes m) : nn = MatchedNodesAsArray m ∧ st1 = st := by
  cases t with
  | removeNoopSplit =>
    have key : RemoveNoopSplitCallback required_nodes m st =
        some (MatchedNodesAsArray m, st) := by
      by_cases h1 : m.node.name ∈ required_nodes
      · simp [RemoveNoopSplitCallback, h1]
      · have h2 : ¬attrFind m.node.attr "num_split".data = some (.i 1) := hrej.resolve_left h1
        simp only [RemoveNoopSplitCallback, h1, if_false, CopyOriginalMatch_nil]
    simp only [Transform.callback, key, Option.some.injEq, Prod.mk.injEq] at h
    exact ⟨h.1.symm, h.2.symm⟩
  | removeNoopPadV2 =>
    have h1 : m.node.name ∈ required_nodes := hrej
    simp only [Transform.callback, RemoveNoopPadV2Callback, if_pos h1, CopyOriginalMatch_nil,
      Option.some.injEq, Prod.mk.injEq] at h
    exact ⟨h.1.symm, h.2.symm⟩
  | dilation2DToMaxPool2D =>
    have h1 : m.node.name ∈ required_nodes := hrej
    simp only [Transform.callback, Dilation2DToMaxPool2DCallback, if_pos h1,
      CopyOriginalMatch_nil, Option.some.injEq, Prod.mk.injEq] at h
    exact ⟨h.1.symm, h.2.symm⟩
  | foldTransposedPads =>
    obtain ⟨perm2_match, pad_match, paddings_match, transpose1_match, perm1_match, input_match,
      a1, a2, a3, a4, a5, a6, hcase⟩ := FoldTransposedPadsCallback_cases h
    rcases hcase with ⟨_, h1, h2⟩ | ⟨hr, v1, v2, _, _, hv1, e1, hv2, e2, _⟩
    · exact ⟨h1, h2⟩
    · exfalso
      simp only [Transform.rejects, Transform.checkedNodes, NodeMatch.descend, a1, a2, a3, a4,
        a5] at hrej
      rcases hrej with hreq | ⟨c, v, hc, hv, hne⟩ | ⟨c, v, hc, hv, hne⟩
      · exact hr hreq
      · cases hc
        rw [hv1] at hv
        cases hv
        exact hne e1
      · cases hc
        rw [hv2] at hv
        cases hv
        exact hne e2
  | swapTransMulAdd =>
    obtain ⟨bias_match, mul_match, weights_match, transpose_match, perm_match, input_match,
      a1, a2, a3, a4, a5, a6, hcase⟩ := SwapTransMulAddCallback_cases h
    rcases hcase with ⟨_, h1, h2⟩ | ⟨hr, v1, _, _, _, _, hv1, e1, _⟩
    · exact ⟨h1, h2⟩
    · exfalso
      simp only [Transform.rejects, Transform.checkedNodes, NodeMatch.descend, a1, a2, a3, a4,
        a5] at hrej
      rcases hrej with hreq | ⟨c, v, hc, hv, hne⟩
      · exact hr hreq
      · cases hc
        rw [hv1] at hv
        cases hv
        exact hne e1
  | swapTransRelu =>
    obtain ⟨transpose_match, perm_match, input_match, a1, a2, a3, hcase⟩ :=
      SwapTransReluCallback_cases h
    rcases hcase with ⟨_, h1, h2⟩ | ⟨hr, _⟩
    · exact ⟨h1, h2⟩
    · exfalso
      simp only [Transform.rejects, Transform.checkedNodes, a1, a2, a3] at hrej
      exact hr hrej

/-- On a match of its pattern, a callback that finds a checked node among the
required names returns, with the original match and the side tables it was
given. -/
theorem required_returns {t : Transform} {g : GraphDef} {required_nodes : List Str}
    {m : NodeMatch} (hm : m ∈ GetOpTypeMatches g t.pattern)
    (hreq : ∃ n ∈ t.checkedNodes m, n.name ∈ required_nodes) (st : RewriteState) :
    t.callback required_nodes m st = some (MatchedNodesAsArray m, st) := by
  obtain ⟨prev, hmatch⟩ := GetOpTypeMatches_matched hm
  cases t with
  | removeNoopSplit =>
    have h1 : m.node.name ∈ required_nodes := by
      simpa [Transform.checkedNodes] using hreq
    simp [Transform.callback, RemoveNoopSplitCallback, h1]
  | removeNoopPadV2 =>
    have h1 : m.node.name ∈ required_nodes := by
      simpa [Transform.checkedNodes] using hreq
    simp [Transform.callback, RemoveNoopPadV2Callback, h1]
  | dilation2DToMaxPool2D =>
    have h1 : m.node.name ∈ required_nodes := by
      simpa [Transform.checkedNodes] using hreq
    simp [Transform.callback, Dilation2DToMaxPool2DCallback, h1]
  | foldTransposedPads =>
    obtain ⟨x1, x0, x01, x00, x001, x000, a1, a2, a3, a4, a5, a6⟩ :=
      shape_of_depth_three (by decide) (by decide) (by decide) hmatch
    simp only [Transform.checkedNodes, a1, a2, a3, a4, a5] at hreq
    simp only [Transform.callback, FoldTransposedPadsCallback, a1, a2, a3, a4, a5, a6,
      if_pos hreq, CopyOriginalMatch_nil]
  | swapTransMulAdd =>
    obtain ⟨x1, x0, x01, x00, x001, x000, a1, a2, a3, a4, a5, a6⟩ :=
      shape_of_depth_three (by decide) (by decide) (by decide) hmatch
    simp only [Transform.checkedNodes, a1, a2, a3, a4, a5] at hreq
    simp only [Transform.callback, SwapTransMulAddCallback, a1, a2, a3, a4, a5, a6,
      if_pos hreq, CopyOriginalMatch_nil]
  | swapTransRelu =>
    obtain ⟨x0, x01, x00, a1, a2, a3⟩ := shape_of_depth_two (by decide) (by decide) hmatch
    simp only [Transform.checkedNodes, a1, a2, a3] at hreq
    simp only [Transform.callback, SwapTransReluCallback, a1, a2, a3, if_pos hreq,
      CopyOriginalMatch_nil]

/-- C15: for each of the six transforms and every match `m` of its pattern on
which the rejection conditions hold (a checked node is a required name, the
entries of a permutation constant that the callback compares are not the
expected ones, or `num_split` is missing or not the integer 1): whenever the
callback returns, the list it emits is `MatchedNodesAsArray m`, the original
matched nodes, each one a node of the match, unchanged, and the two side tables
are the ones it was given; and the callback does return when the cause is a
required checked node, or when the transform is `RemoveNoopSplit`. -/
theorem rejection_has_no_side_effect (t : Transform) (g : GraphDef)
    (required_nodes : List Str) (m : NodeMatch) (st : RewriteState)
    (hm : m ∈ GetOpTypeMatches g t.pattern) (hrej : t.rejects required_nodes m) :
    (∀ nn st1, t.callback required_nodes m st = some (nn, st1) →
      nn = MatchedNodesAsArray m ∧ (∀ n ∈ nn, n ∈ m.allNodes) ∧
      st1.inputs_to_rename = st.inputs_to_rename ∧
      st1.nodes_to_ignore = st.nodes_to_ignore) ∧
    (((∃ n ∈ t.checkedNodes m, n.name ∈ required_nodes) ∨ t = .removeNoopSplit) →
      t.callback required_nodes m st = some (MatchedNodesAsArray m, st)) := by
  constructor
  · intro nn st1 h
    obtain ⟨h1, h2⟩ := rejected_result h hrej
    subst h1 h2
    exact ⟨rfl, dedupByName_subset _, rfl, rfl⟩
  · rintro (hreq | rfl)
    · exact required_returns hm hreq st
    · by_cases h1 : m.node.name ∈ required_nodes
      · simp [Transform.callback, RemoveNoopSplitCallback, h1]
      · have h2 : ¬attrFind m.node.attr "num_split".data = some (.i 1) := hrej.resolve_left h1
        simp only [Transform.callback, RemoveNoopSplitCallback, h1, if_false,
          CopyOriginalMatch_nil]

/-- Witness of `rejection_has_no_side_effect`: the match of `exFoldGraph` when
the pad `P` is a required name. -/
theorem rejection_has_no_side_effect_witness :
    (∀ nn st1, Transform.foldTransposedPads.callback [['P']] exFoldMatch ⟨[], []⟩ =
        some (nn, st1) →
      nn = MatchedNodesAsArray exFoldMatch ∧ (∀ n ∈ nn, n ∈ exFoldMatch.allNodes) ∧
      st1.inputs_to_rename = [] ∧ st1.nodes_to_ignore = []) ∧
    (((∃ n ∈ Transform.foldTransposedPads.checkedNodes exFoldMatch, n.name ∈ [['P']]) ∨
        Transform.foldTransposedPads = .removeNoopSplit) →
      Transform.foldTransposedPads.callback [['P']] exFoldMatch ⟨[], []⟩ =
        some (MatchedNodesAsArray exFoldMatch, ⟨[], []⟩)) :=
  rejection_has_no_side_effect .foldTransposedPads exFoldGraph [['P']] exFoldMatch ⟨[], []⟩
    (List.mem_singleton.mpr rfl) (Or.inl ⟨exFoldPad, by decide, by decide⟩)

/-! ## C14: the inputs of the new pad -/

theorem addRename_empty_target {old target k v : Str}
    (h : (k, v) ∈ (RewriteState.addRename ⟨[], []⟩ old target).inputs_to_rename)
    (hk : k = old) : v = target := by
  subst hk
  simp only [RewriteState.addRename, mapSet, List.filter_nil, List.mem_cons, Prod.mk.injEq,
    List.not_mem_nil, or_false, List.filter_cons] at h
  rcases h with ⟨hk, _⟩ | h
  · exact absurd (congrArg List.length hk) (by simp)
  · split_ifs at h
    · simp only [List.mem_singleton, Prod.mk.injEq] at h
      exact h.2
    · cases h

/-- C14 fails on the code: the callback accepts the match of `exFoldGraph`, the
first transpose `T1` of the match reads `X`, and the first input of the new pad
`P` is `X`, the input of the first transpose, not `T1`; in the output of the
run no node reads `T1`. -/
theorem new_pad_reads_the_input_of_the_first_transpose :
    GetOpTypeMatches exFoldGraph foldPattern = [exFoldMatch] ∧
      Accepts (FoldTransposedPadsCallback [['Y']]) exFoldMatch
        [foldNewPaddingsNode exFoldPaddings exFoldNewPaddings,
          foldNewPadNode exFoldPad exX exFoldPaddings, exX, exFoldT1, exFoldPerm1] ['P'] ∧
      (foldNewPadNode exFoldPad exX exFoldPaddings).input = [['X'], ['p', 'a', 'd', 's']] ∧
      exFoldT1.name = ['T', '1'] ∧
      (FoldTransposedPads exFoldGraph ⟨[], [['Y']]⟩).map TransformRun.output_graph_def =
        some [foldNewPaddingsNode exFoldPaddings exFoldNewPaddings,
          foldNewPadNode exFoldPad exX exFoldPaddings, exX, exFoldT1, exFoldPerm1,
          { exFoldY with input := [['P'], ['^', 'P']] }] := by
  refine ⟨rfl, ⟨⟨[(['^', 'T', '2'], ['^', 'P']), (['T', '2'], ['P'])], []⟩, by decide,
    by decide⟩, by decide, by decide, by decide⟩

/-- The list the callback of `FoldTransposedPads` returns for a match it accepts,
and the rename target it records. -/
theorem accepted_fold_fragment {required_nodes : List Str} {m : NodeMatch}
    {new_nodes : List NodeDef} {target : Str}
    (h : Accepts (FoldTransposedPadsCallback required_nodes) m new_nodes target) :
    ∃ pad_match paddings_match transpose1_match perm1_match input_match new_paddings_node
        new_pad_node,
      m.inputs[0]? = some pad_match ∧ pad_match.inputs[1]? = some paddings_match ∧
      pad_match.inputs[0]? = some transpose1_match ∧
      transpose1_match.inputs[1]? = some perm1_match ∧
      transpose1_match.inputs[0]? = some input_match ∧
      new_nodes = [new_paddings_node, new_pad_node, input_match.node, transpose1_match.node,
        perm1_match.node] ∧
      new_paddings_node.name = paddings_match.node.name ∧
      new_pad_node.name = pad_match.node.name ∧ new_pad_node.op = "Pad".data ∧
      new_pad_node.input = [input_match.node.name, paddings_match.node.name] ∧
      target = pad_match.node.name := by
  obtain ⟨st1, hcall, hmem⟩ := h
  obtain ⟨perm2_match, pad_match, paddings_match, transpose1_match, perm1_match, input_match,
    a1, a2, a3, a4, a5, a6, hcase⟩ := FoldTransposedPadsCallback_cases hcall
  rcases hcase with ⟨_, _, h2⟩ | ⟨_, v1, v2, paddings, new_paddings, _, _, _, _, _, _, hnn, hst⟩
  · rw [h2] at hmem
    cases hmem
  · rw [hst] at hmem
    exact ⟨pad_match, paddings_match, transpose1_match, perm1_match, input_match, _, _,
      a2, a3, a4, a5, a6, hnn, rfl, rfl, rfl, rfl, addRename_empty_target hmem rfl⟩

/-- C14, amended: whenever the callback of `FoldTransposedPads` accepts a match
(it returns the list `new_nodes` and records the rename of the root to
`target`), the list is the new paddings constant, the new pad, the input of the
first transpose, the first transpose and its permutation constant; the new pad
has the name of the old pad, which is the rename target, and its inputs are the
name of the input of the first transpose (not the first transpose) and the name
of the paddings constant. -/
theorem new_pad_inputs (required_nodes : List Str) (m : NodeMatch) (new_nodes : List NodeDef)
    (target : Str) (h : Accepts (FoldTransposedPadsCallback required_nodes) m new_nodes target) :
    ∃ pad_match paddings_match transpose1_match perm1_match input_match new_paddings_node
        new_pad_node,
      m.inputs[0]? = some pad_match ∧ pad_match.inputs[1]? = some paddings_match ∧
      pad_match.inputs[0]? = some transpose1_match ∧
      transpose1_match.inputs[1]? = some perm1_match ∧
      transpose1_match.inputs[0]? = some input_match ∧
      new_nodes = [new_paddings_node, new_pad_node, input_match.node, transpose1_match.node,
        perm1_match.node] ∧
      new_paddings_node.name = paddings_match.node.name ∧
      new_pad_node.name = pad_match.node.name ∧ new_pad_node.op = "Pad".data ∧
      new_pad_node.input = [input_match.node.name, paddings_match.node.name] ∧
      target = pad_match.node.name :=
  accepted_fold_fragment h

/-- Witness of `new_pad_inputs`: the match of `exFoldGraph`. -/
theorem new_pad_inputs_witness :
    ∃ pad_match paddings_match transpose1_match perm1_match input_match new_paddings_node
        new_pad_node,
      exFoldMatch.inputs[0]? = some pad_match ∧ pad_match.inputs[1]? = some paddings_match ∧
      pad_match.inputs[0]? = some transpose1_match ∧
      transpose1_match.inputs[1]? = some perm1_match ∧
      transpose1_match.inputs[0]? = some input_match ∧
      [foldNewPaddingsNode exFoldPaddings exFoldNewPaddings,
          foldNewPadNode exFoldPad exX exFoldPaddings, exX, exFoldT1, exFoldPerm1] =
        [new_paddings_node, new_pad_node, input_match.node, transpose1_match.node,
          perm1_match.node] ∧
      new_paddings_node.name = paddings_match.node.name ∧
      new_pad_node.name = pad_match.node.name ∧ new_pad_node.op = "Pad".data ∧
      new_pad_node.input = [input_match.node.name, paddings_match.node.name] ∧
      ['P'] = pad_match.node.name :=
  new_pad_inputs [['Y']] exFoldMatch
    [foldNewPaddingsNode exFoldPaddings exFoldNewPaddings,
      foldNewPadNode exFoldPad exX exFoldPaddings, exX, exFoldT1, exFoldPerm1] ['P']
    ⟨⟨[(['^', 'T', '2'], ['^', 'P']), (['T', '2'], ['P'])], []⟩, by decide, by decide⟩

/-! ## C17: the comparison of the permutation constants -/

/-- C17 fails on the code: the first permutation constant of the match of
`exFoldLongGraph` has the five entries `[0, 3, 1, 2, 4]`, which is not the
vector `[0, 3, 1, 2]`, and the callback of `FoldTransposedPads` rewrites the
match all the same: it returns the five replacement nodes and records the
rename, not the original match. -/
theorem longer_permutation_is_rewritten :
    GetOpTypeMatches exFoldLongGraph foldPattern = [exFoldLongMatch] ∧
      exFoldLongMatch.descend [0, 0, 1] = some (.mk exFoldLongPerm1 []) ∧
      permVector exFoldLongPerm1 = some [0, 3, 1, 2, 4] ∧
      FoldTransposedPadsCallback [['Y']] exFoldLongMatch ⟨[], []⟩ =
        some ([foldNewPaddingsNode exFoldPaddings exFoldNewPaddings,
            foldNewPadNode exFoldPad exX exFoldPaddings, exX, exFoldT1, exFoldLongPerm1],
          ⟨[(['^', 'T', '2'], ['^', 'P']), (['T', '2'], ['P'])], []⟩) ∧
      MatchedNodesAsArray exFoldLongMatch =
        [exFoldT2, exFoldPad, exFoldT1, exX, exFoldLongPerm1, exFoldPaddings, exFoldPerm2] := by
  refine ⟨rfl, rfl, by decide, by decide, by decide⟩

/-- C17, amended: the callbacks of `SwapTransMulAdd` and `FoldTransposedPads`
compare the first four entries of a permutation constant and nothing else.  For
every match on which the callback returns, and every permutation constant it
compares (at `path`, expected entries `expected`) whose entries `v` can be
read: if the first four entries of `v` are not the expected ones, the callback
returns the original match and the side tables it was given; so a rewrite
happens only if the first four entries are the expected ones, whatever the
length of `v`. -/
theorem rewrite_compares_four_entries (t : Transform) (required_nodes : List Str)
    (m : NodeMatch) (st st1 : RewriteState) (nn : List NodeDef)
    (h : t.callback required_nodes m st = some (nn, st1))
    (path : List Nat) (expected : List Int) (hp : (path, expected) ∈ t.permutations)
    (c : NodeMatch) (v : List Int) (hc : m.descend path = some c)
    (hv : permVector c.node = some v) :
    (v.take 4 ≠ expected → nn = MatchedNodesAsArray m ∧ st1 = st) ∧
      ((nn ≠ MatchedNodesAsArray m ∨ st1 ≠ st) → v.take 4 = expected) := by
  have key : v.take 4 ≠ expected → nn = MatchedNodesAsArray m ∧ st1 = st := by
    intro hne
    apply rejected_result h
    cases t with
    | foldTransposedPads =>
      simp only [Transform.permutations, List.mem_cons, Prod.mk.injEq, List.not_mem_nil,
        or_false] at hp
      rcases hp with ⟨rfl, rfl⟩ | ⟨rfl, rfl⟩
      · exact Or.inr (Or.inl ⟨c, v, hc, hv, hne⟩)
      · exact Or.inr (Or.inr ⟨c, v, hc, hv, hne⟩)
    | swapTransMulAdd =>
      simp only [Transform.permutations, List.mem_singleton, Prod.mk.injEq] at hp
      obtain ⟨rfl, rfl⟩ := hp
      exact Or.inr ⟨c, v, hc, hv, hne⟩
    | _ => simp [Transform.permutations] at hp
  refine ⟨key, fun hch => ?_⟩
  by_contra hne
  obtain ⟨h1, h2⟩ := key hne
  rcases hch with hch | hch
  · exact hch h1
  · exact hch h2

/-- Witness of `rewrite_compares_four_entries`: the match of `exFoldLongGraph`
and its first permutation constant. -/
theorem rewrite_compares_four_entries_witness :
    (([0, 3, 1, 2, 4] : List Int).take 4 ≠ [0, 3, 1, 2] →
        [foldNewPaddingsNode exFoldPaddings exFoldNewPaddings,
            foldNewPadNode exFoldPad exX exFoldPaddings, exX, exFoldT1, exFoldLongPerm1] =
          MatchedNodesAsArray exFoldLongMatch ∧
        (⟨[(['^', 'T', '2'], ['^', 'P']), (['T', '2'], ['P'])], []⟩ : RewriteState) =
          ⟨[], []⟩) ∧
      (([foldNewPaddingsNode exFoldPaddings exFoldNewPaddings,
            foldNewPadNode exFoldPad exX exFoldPaddings, exX, exFoldT1, exFoldLongPerm1] ≠
          MatchedNodesAsArray exFoldLongMatch ∨
        (⟨[(['^', 'T', '2'], ['^', 'P']), (['T', '2'], ['P'])], []⟩ : RewriteState) ≠
          ⟨[], []⟩) →
        ([0, 3, 1, 2, 4] : List Int).take 4 = [0, 3, 1, 2]) :=
  rewrite_compares_four_entries .foldTransposedPads [['Y']] exFoldLongMatch ⟨[], []⟩
    ⟨[(['^', 'T', '2'], ['^', 'P']), (['T', '2'], ['P'])], []⟩
    [foldNewPaddingsNode exFoldPaddings exFoldNewPaddings,
      foldNewPadNode exFoldPad exX exFoldPaddings, exX, exFoldT1, exFoldLongPerm1]
    (by decide) [0, 0, 1] [0, 3, 1, 2] (by decide) (.mk exFoldLongPerm1 []) [0, 3, 1, 2, 4]
    rfl (by decide)

/-! ## The rename entry of an accepted match -/

/-- The outcome of a callback on a match it accepts is the rewrite with the
accepted list and target. -/
theorem outcome_of_accepts {t : Transform} {required_nodes : List Str} {m : NodeMatch}
    {nn : List NodeDef} {target : Str} {o : Outcome} (ho : OutcomeOK t required_nodes m o)
    (hacc : Accepts (t.callback required_nodes) m nn target) :
    ∃ ig, o = .rewrite nn (some target) ig := by
  obtain ⟨st1, hcall, hmem⟩ := hacc
  have hag := ho.agrees ⟨[], []⟩
  rw [hcall] at hag
  cases o with
  | crash => simp [Outcome.apply] at hag
  | skip =>
    simp only [Outcome.apply, Option.some.injEq, Prod.mk.injEq] at hag
    rw [hag.2] at hmem
    cases hmem
  | rewrite nn1 rn ig =>
    simp only [Outcome.apply, Option.some.injEq, Prod.mk.injEq] at hag
    obtain ⟨rfl, rfl⟩ := hag
    cases rn with
    | none =>
      exfalso
      cases ig <;> cases hmem
    | some target1 =>
      have h2 : (m.node.name, target) ∈
          (RewriteState.addRename ⟨[], []⟩ m.node.name target1).inputs_to_rename := by
        cases ig <;> exact hmem
      rw [addRename_empty_target h2 rfl]
      exact ⟨ig, rfl⟩

/-- A property of the side tables that the callback establishes on the match
`m` and every callback call keeps holds at the end of the rebuild of a node list
that holds a node named as the root of `m`. -/
theorem rebuildNodes_reaches (ms : List NodeMatch) (gen : NodeGenerator)
    (P : RewriteState → Prop)
    (hpres : ∀ m1 ∈ ms, ∀ s nn s1, P s → gen m1 s = some (nn, s1) → P s1)
    (m : NodeMatch) (hfind : ms.find? (fun x => x.node.name = m.node.name) = some m)
    (hest : ∀ s nn s1, gen m s = some (nn, s1) → P s1) :
    ∀ (nodes : List NodeDef) (st : RewriteState) (out : List NodeDef) (st2 : RewriteState),
      m.node.name ∈ nodes.map NodeDef.name →
      rebuildNodes ms gen nodes st = some (out, st2) → P st2 := by
  intro nodes
  induction nodes with
  | nil => intro st out st2 hmem; cases hmem
  | cons node rest ih =>
    intro st out st2 hmem h
    by_cases hn : node.name = m.node.name
    · unfold rebuildNodes at h
      rw [hn, hfind] at h
      simp only at h
      split at h
      · cases h
      · next new_nodes st1 hgen =>
        split at h
        · cases h
        · next out1 st3 hrest =>
          simp only [Option.some.injEq, Prod.mk.injEq] at h
          obtain ⟨_, rfl⟩ := h
          exact rebuildNodes_tables ms gen P hpres rest st1 out1 st3 (hest _ _ _ hgen) hrest
    · have hmem1 : m.node.name ∈ rest.map NodeDef.name := by
        rw [List.map_cons, List.mem_cons] at hmem
        exact hmem.resolve_left (fun h => hn h.symm)
      unfold rebuildNodes at h
      split at h
      · split at h
        · cases h
        · next new_nodes st1 hgen =>
          split at h
          · cases h
          · next out1 st3 hrest =>
            simp only [Option.some.injEq, Prod.mk.injEq] at h
            obtain ⟨_, rfl⟩ := h
            exact ih st1 out1 st3 hmem1 hrest
      · split_ifs at h
        · exact ih st out st2 hmem1 h
        · split at h
          · cases h
          · next out1 st3 hrest =>
            simp only [Option.some.injEq, Prod.mk.injEq] at h
            obtain ⟨_, rfl⟩ := h
            exact ih st out1 st3 hmem1 hrest

/-- The target of a reference in a rename map in which some key is that
reference and every such key has the value `target`. -/
theorem renameTarget_of_unique {R : List (Str × Str)} {ref target : Str}
    (hex : ∃ e ∈ R, CanonicalInputName e.1 = CanonicalInputName ref)
    (huniq : ∀ e ∈ R, CanonicalInputName e.1 = CanonicalInputName ref → e.2 = target) :
    renameTarget R ref = some target := by
  unfold renameTarget
  cases hf : R.find? (fun e => CanonicalInputName e.1 = CanonicalInputName ref) with
  | none =>
    obtain ⟨e, he, hc⟩ := hex
    have := List.find?_eq_none.mp hf e he
    simp [hc] at this
  | some e =>
    have h1 := List.mem_of_find?_eq_some hf
    have h2 : CanonicalInputName e.1 = CanonicalInputName ref := by
      simpa using List.find?_some hf
    simp [huniq e h1 h2]

theorem mapSet_keep {R : List (Str × Str)} {e : Str × Str} {key value : Str} (he : e ∈ R)
    (hne : e.1 ≠ key) : e ∈ mapSet R key value := by
  unfold mapSet
  exact List.mem_cons_of_mem _ (List.mem_filter.mpr ⟨he, by simpa using hne⟩)

theorem addRename_mem (st : RewriteState) (old target : Str) :
    (old, target) ∈ (st.addRename old target).inputs_to_rename := by
  unfold RewriteState.addRename
  refine mapSet_keep (List.mem_cons_self _ _) ?_
  intro h
  have := congrArg List.length h
  simp at this

theorem addRename_keep {st : RewriteState} {e : Str × Str} {old target : Str}
    (he : e ∈ st.inputs_to_rename) (h1 : e.1 ≠ old) (h2 : e.1 ≠ '^' :: old) :
    e ∈ (st.addRename old target).inputs_to_rename := by
  unfold RewriteState.addRename
  exact mapSet_keep (mapSet_keep he h1) h2

/-- The entry a rewrite records for its root is in the side table the callback
returns. -/
theorem rewrite_entry {t : Transform} {required_nodes : List Str} {m : NodeMatch}
    {nn : List NodeDef} {target : Str} {ig : Option Str}
    (ho : OutcomeOK t required_nodes m (.rewrite nn (some target) ig)) {s s1 : RewriteState}
    {nn1 : List NodeDef} (hgen : t.callback required_nodes m s = some (nn1, s1)) :
    (m.node.name, target) ∈ s1.inputs_to_rename := by
  have hag := ho.agrees s
  rw [hgen] at hag
  simp only [Outcome.apply, Option.some.injEq, Prod.mk.injEq] at hag
  obtain ⟨_, rfl⟩ := hag
  cases ig <;> exact addRename_mem s _ _

/-- After a run on a graph with well-formed node names, the rename map sends
the reference to output 0 of the root of a rewritten match, written `root` or
`root:0`, to the target recorded for that match. -/
theorem run_rename_target {t : Transform} {g : GraphDef} {ctx : TransformFuncContext}
    {r : TransformRun} (hrun : t.run g ctx = some r) (hnames : ∀ n ∈ g, GoodName n.name)
    {m : NodeMatch} (hm : m ∈ GetOpTypeMatches g t.pattern) {nn : List NodeDef} {target : Str}
    {ig : Option Str} (ho : OutcomeOK t (requiredNodes ctx) m (.rewrite nn (some target) ig))
    {ref : Str} (href : ref = m.node.name ∨ ref = m.node.name ++ [':', '0']) :
    renameTarget r.inputs_to_rename ref = some target := by
  obtain ⟨replaced, st, hre, _, hmap, _⟩ := run_spec hrun
  have hroot := (GetOpTypeMatches_found hm).root_mem
  have hgood := hnames m.node hroot
  have hd := GetOpTypeMatches_disjoint g t.pattern
  have hcref : CanonicalInputName ref = m.node.name ++ [':', '0'] := by
    rcases href with rfl | rfl
    · exact CanonicalInputName_good hgood.1
    · exact CanonicalInputName_index _
  have hpresent : (m.node.name, target) ∈ st.inputs_to_rename := by
    refine rebuildNodes_reaches _ _ (fun s => (m.node.name, target) ∈ s.inputs_to_rename) ?_ m
      (find_head hd hm) (fun s nn1 s1 hgen => rewrite_entry ho hgen) g _ _ _
      (List.mem_map_of_mem _ hroot) hre
    intro m1 hm1 s nn1 s1 hs hgen
    by_cases hname : m1.node.name = m.node.name
    · have heq : m1 = m :=
        pairwise_disjoint_eq hd hm1 hm (node_mem_allNodes m1) (node_mem_allNodes m) hname
      subst heq
      exact rewrite_entry ho hgen
    · obtain ⟨o1, ho1⟩ := callback_outcome t g (requiredNodes ctx) m1 (GetOpTypeMatches_found hm1)
      have hag := ho1.agrees s
      rw [hgen] at hag
      cases o1 with
      | crash => simp [Outcome.apply] at hag
      | skip =>
        simp only [Outcome.apply, Option.some.injEq, Prod.mk.injEq] at hag
        rw [hag.2]
        exact hs
      | rewrite nn2 rn ig2 =>
        simp only [Outcome.apply, Option.some.injEq, Prod.mk.injEq] at hag
        obtain ⟨_, rfl⟩ := hag
        have hkeep : (m.node.name, target) ∈
            (s.addRename m1.node.name (rn.getD [])).inputs_to_rename :=
          addRename_keep hs (fun h => hname h.symm) (fun h => hgood.2 (by
            show m.node.name.head? = some '^'
            have h1 : m.node.name = '^' :: m1.node.name := h
            rw [h1]
            rfl))
        cases rn with
        | none => cases ig2 <;> exact hs
        | some target1 => cases ig2 <;> exact hkeep
  rw [hmap]
  refine renameTarget_of_unique ⟨_, hpresent, ?_⟩ ?_
  · rw [hcref]
    exact CanonicalInputName_good hgood.1
  · intro e he hc
    rw [hcref] at hc
    obtain ⟨_, _, _, hent⟩ := run_entries hrun
    obtain ⟨m1, hm1, nn1, target1, ig1, ho1, hk, _⟩ := hent e (hmap ▸ he)
    have hgood1 := hnames m1.node (GetOpTypeMatches_found hm1).root_mem
    rcases hk with rfl | rfl
    · rw [CanonicalInputName_good hgood1.1] at hc
      have hname : m1.node.name = m.node.name := List.append_cancel_right hc
      have heq : m1 = m :=
        pairwise_disjoint_eq hd hm1 hm (node_mem_allNodes m1) (node_mem_allNodes m) hname
      subst heq
      have hacc : Accepts (t.callback (requiredNodes ctx)) m1 nn1 target1 :=
        ⟨_, ho1.agrees ⟨[], []⟩, by
          cases ig1 <;> exact addRename_mem _ _ _⟩
      obtain ⟨ig2, h2⟩ := outcome_of_accepts ho hacc
      cases h2
      rfl
    · exfalso
      rw [CanonicalInputName_good (s := '^' :: m1.node.name) (by simpa using hgood1.1)] at hc
      have hname : '^' :: m1.node.name = m.node.name := List.append_cancel_right hc
      apply hgood.2
      rw [← hname]
      rfl

/-- The inputs of a node the renamer does not skip: a reference to output 0 of
`root`, written `root` or `root:0`, becomes the target of `root`, and the control
reference `^root` becomes the control reference to the target. -/
theorem renamed_references {R : List (Str × Str)} {I : List Str} {A : NodeDef}
    (hign : A.name ∉ I) {root target : Str} (hgood : GoodName root)
    (h1 : renameTarget R root = some target)
    (h2 : renameTarget R (root ++ [':', '0']) = some target) (i : Nat) :
    (A.input[i]? = some root → (renameNode R I A).input[i]? = some target) ∧
      (A.input[i]? = some (root ++ [':', '0']) →
        (renameNode R I A).input[i]? = some target) ∧
      (A.input[i]? = some ('^' :: root) →
        (renameNode R I A).input[i]? = some ('^' :: target)) := by
  have hhead : (root ++ [':', '0']).head? ≠ some '^' := by
    cases hr : root with
    | nil => simp
    | cons c s =>
      have := hgood.2
      rw [hr] at this
      simpa using this
  refine ⟨fun hi => ?_, fun hi => ?_, fun hi => ?_⟩
  · simp only [renameNode, hign, if_false, List.getElem?_map, hi, Option.map_some',
      renameInput_data hgood.2 h1]
  · simp only [renameNode, hign, if_false, List.getElem?_map, hi, Option.map_some',
      renameInput_data hhead h2]
  · simp only [renameNode, hign, if_false, List.getElem?_map, hi, Option.map_some']
    simp [renameInput, h1]

/-- The fragment a callback returns for an accepted match of the graph is part
of the rebuilt graph, so each of its nodes, passed through the renamer, is a
node of the output. -/
theorem accepted_fragment_in_output {t : Transform} {g : GraphDef}
    {ctx : TransformFuncContext} {r : TransformRun} (hrun : t.run g ctx = some r)
    {m : NodeMatch} (hm : m ∈ GetOpTypeMatches g t.pattern) {nn : List NodeDef}
    {target : Str} (hacc : Accepts (t.callback (requiredNodes ctx)) m nn target) :
    ∀ n ∈ nn, renameNode r.inputs_to_rename r.nodes_to_ignore n ∈ r.output_graph_def := by
  obtain ⟨replaced, st, hre, hout, _, _⟩ := run_spec hrun
  have hfound := GetOpTypeMatches_found hm
  obtain ⟨o, ho⟩ := callback_outcome t g (requiredNodes ctx) m hfound
  obtain ⟨ig, rfl⟩ := outcome_of_accepts ho hacc
  obtain ⟨s, s1, nn1, hgen, hsub⟩ := rebuildNodes_fragment _ _ g _ _ _ hre m.node
    hfound.root_mem m (find_head (GetOpTypeMatches_disjoint g t.pattern) hm)
  have hag := ho.agrees s
  rw [hgen] at hag
  simp only [Outcome.apply, Option.some.injEq, Prod.mk.injEq] at hag
  intro n hn
  rw [hout]
  exact List.mem_map_of_mem _ (hsub n (hag.1 ▸ hn))

/-! ## C13: the second transpose of a folded pad -/

theorem FoldTransposedPads_ignore {g : GraphDef} {ctx : TransformFuncContext}
    {r : TransformRun} (hrun : FoldTransposedPads g ctx = some r) : r.nodes_to_ignore = [] := by
  simp only [FoldTransposedPads] at hrun
  split at hrun
  · cases hrun
  · cases hrun
    rfl

/-- C13 fails on the code: in `exTwoChainGraph` both chains are matched and
rewritten; the pad `Pb` of the second chain is outside the match of the first
chain and has the control input `^T2`, a reference to the second transpose of
the first chain.  In the output graph no node is named `T2`, but the node `Pb`
is the pad the callback built from scratch, with the inputs `X2` and `padsb`
only: its reference to `T2` was dropped, not redirected to the new pad `P`. -/
theorem control_reference_of_a_rebuilt_pad_is_dropped :
    GetOpTypeMatches exTwoChainGraph foldPattern = [exFoldMatch, exChainMatch] ∧
      Accepts (FoldTransposedPadsCallback []) exFoldMatch
        [foldNewPaddingsNode exFoldPaddings exFoldNewPaddings,
          foldNewPadNode exFoldPad exX exFoldPaddings, exX, exFoldT1, exFoldPerm1] ['P'] ∧
      exChainPad ∈ exTwoChainGraph ∧
      exChainPad.name ∉ exFoldMatch.allNodes.map NodeDef.name ∧
      exChainPad.input[2]? = some ['^', 'T', '2'] ∧
      (FoldTransposedPads exTwoChainGraph ⟨[], []⟩).map TransformRun.output_graph_def =
        some [foldNewPaddingsNode exFoldPaddings exFoldNewPaddings,
          foldNewPadNode exFoldPad exX exFoldPaddings, exX, exFoldT1, exFoldPerm1,
          { exFoldY with input := [['P'], ['^', 'P']] },
          foldNewPaddingsNode exChainPaddings
            ⟨.DT_INT32, [4, 2], [10, 11, 30, 31, 40, 41, 20, 21]⟩,
          foldNewPadNode exChainPad exX2 exChainPaddings, exX2, exChainT1, exChainPerm1] ∧
      (foldNewPadNode exChainPad exX2 exChainPaddings).name = exChainPad.name ∧
      (foldNewPadNode exChainPad exX2 exChainPaddings).input =
        [['X', '2'], ['p', 'a', 'd', 's', 'b']] := by
  refine ⟨rfl, ⟨⟨[(['^', 'T', '2'], ['^', 'P']), (['T', '2'], ['P'])], []⟩, by decide,
    by decide⟩, by decide, by decide, by decide, by decide, by decide, by decide⟩

/-- C13, amended: for every run of `FoldTransposedPads` on a graph with
well-formed node names, and every match of the pattern that the callback accepts
(rename target `target`) and that binds no node named as its root below the
root: the output graph has no node named as the root, the second transpose; it
has a `Pad` node named `target`; and every node `A` of the input graph that no
match consumes is in the output under its name with as many inputs, each input
that was the reference `root` or `root:0` now being `target` and each input
that was `^root` now being `^target`.  (Nodes of other matches that the callback
builds anew lose their control inputs and are left out.) -/
theorem second_transpose_is_replaced_by_the_pad (g : GraphDef) (ctx : TransformFuncContext)
    (r : TransformRun) (hrun : FoldTransposedPads g ctx = some r)
    (hnames : ∀ n ∈ g, GoodName n.name) (m : NodeMatch)
    (hm : m ∈ GetOpTypeMatches g foldPattern) (new_nodes : List NodeDef) (target : Str)
    (hacc : Accepts (FoldTransposedPadsCallback (requiredNodes ctx)) m new_nodes target)
    (hroot : ∀ n ∈ allNodesList m.inputs, n.name ≠ m.node.name) :
    (∀ n ∈ r.output_graph_def, n.name ≠ m.node.name) ∧
      (∃ pad ∈ r.output_graph_def, pad.name = target ∧ pad.op = "Pad".data) ∧
      ∀ A ∈ g, A.name ∉ matchedNames (GetOpTypeMatches g foldPattern) →
        ∃ A1 ∈ r.output_graph_def, A1.name = A.name ∧ A1.input.length = A.input.length ∧
          ∀ i : Nat,
            (A.input[i]? = some m.node.name → A1.input[i]? = some target) ∧
            (A.input[i]? = some (m.node.name ++ [':', '0']) → A1.input[i]? = some target) ∧
            (A.input[i]? = some ('^' :: m.node.name) → A1.input[i]? = some ('^' :: target)) := by
  have hrun1 : Transform.foldTransposedPads.run g ctx = some r := hrun
  have hm1 : m ∈ GetOpTypeMatches g Transform.foldTransposedPads.pattern := hm
  have hacc1 : Accepts (Transform.foldTransposedPads.callback (requiredNodes ctx)) m new_nodes
      target := hacc
  have hfound := GetOpTypeMatches_found hm
  obtain ⟨o, ho⟩ := callback_outcome .foldTransposedPads g (requiredNodes ctx) m hfound
  obtain ⟨ig, rfl⟩ := outcome_of_accepts ho hacc1
  have hgood := hnames m.node hfound.root_mem
  refine ⟨rewritten_root_absent (t := .foldTransposedPads) rfl hrun1 hm1 hroot ho, ?_, ?_⟩
  · obtain ⟨pad_match, paddings_match, transpose1_match, perm1_match, input_match,
      new_paddings_node, new_pad_node, _, _, _, _, _, hnn, _, hname, hop, _, htarget⟩ :=
      accepted_fold_fragment hacc
    refine ⟨renameNode r.inputs_to_rename r.nodes_to_ignore new_pad_node,
      accepted_fragment_in_output hrun1 hm1 hacc1 _ (by rw [hnn]; simp), ?_, ?_⟩
    · rw [(renameNode_name _ _ _).1, hname, htarget]
    · rw [(renameNode_name _ _ _).2.1, hop]
  · intro A hA hfree
    obtain ⟨replaced, st, hre, hout, _, _⟩ := run_spec hrun1
    have hAout : A ∈ replaced := rebuildNodes_copy _ _ g _ _ _ hre A hA hfree
    have hign : A.name ∉ r.nodes_to_ignore := by
      rw [FoldTransposedPads_ignore hrun]
      exact List.not_mem_nil _
    refine ⟨renameNode r.inputs_to_rename r.nodes_to_ignore A, ?_, (renameNode_name _ _ A).1,
      ?_, ?_⟩
    · rw [hout]
      exact List.mem_map_of_mem _ hAout
    · simp [renameNode, hign]
    · exact renamed_references hign hgood
        (run_rename_target hrun1 hnames hm1 ho (Or.inl rfl))
        (run_rename_target hrun1 hnames hm1 ho (Or.inr rfl))

/-- Witness of `second_transpose_is_replaced_by_the_pad`: the run on
`exFoldGraph`, whose node `Y` reads `T2` and waits for it. -/
theorem second_transpose_is_replaced_by_the_pad_witness :
    (∀ n ∈ [foldNewPaddingsNode exFoldPaddings exFoldNewPaddings,
          foldNewPadNode exFoldPad exX exFoldPaddings, exX, exFoldT1, exFoldPerm1,
          { exFoldY with input := [['P'], ['^', 'P']] }], n.name ≠ exFoldMatch.node.name) ∧
      (∃ pad ∈ [foldNewPaddingsNode exFoldPaddings exFoldNewPaddings,
          foldNewPadNode exFoldPad exX exFoldPaddings, exX, exFoldT1, exFoldPerm1,
          { exFoldY with input := [['P'], ['^', 'P']] }],
        pad.name = ['P'] ∧ pad.op = "Pad".data) ∧
      ∀ A ∈ exFoldGraph, A.name ∉ matchedNames (GetOpTypeMatches exFoldGraph foldPattern) →
        ∃ A1 ∈ [foldNewPaddingsNode exFoldPaddings exFoldNewPaddings,
            foldNewPadNode exFoldPad exX exFoldPaddings, exX, exFoldT1, exFoldPerm1,
            { exFoldY with input := [['P'], ['^', 'P']] }],
          A1.name = A.name ∧ A1.input.length = A.input.length ∧
          ∀ i : Nat,
            (A.input[i]? = some exFoldMatch.node.name → A1.input[i]? = some ['P']) ∧
            (A.input[i]? = some (exFoldMatch.node.name ++ [':', '0']) →
              A1.input[i]? = some ['P']) ∧
            (A.input[i]? = some ('^' :: exFoldMatch.node.name) →
              A1.input[i]? = some ('^' :: ['P'])) :=
  second_transpose_is_replaced_by_the_pad exFoldGraph ⟨[], [['Y']]⟩
    ⟨[foldNewPaddingsNode exFoldPaddings exFoldNewPaddings,
        foldNewPadNode exFoldPad exX exFoldPaddings, exX, exFoldT1, exFoldPerm1,
        { exFoldY with input := [['P'], ['^', 'P']] }],
      [(['^', 'T', '2'], ['^', 'P']), (['T', '2'], ['P'])], []⟩
    (by decide) (by decide) exFoldMatch (List.mem_singleton.mpr rfl)
    [foldNewPaddingsNode exFoldPaddings exFoldNewPaddings,
      foldNewPadNode exFoldPad exX exFoldPaddings, exX, exFoldT1, exFoldPerm1] ['P']
    ⟨⟨[(['^', 'T', '2'], ['^', 'P']), (['T', '2'], ['P'])], []⟩, by decide, by decide⟩
    (by decide)

/-! ## Nodes of the output that are named as nodes of an accepted match -/

/-- The root of a match of a pattern that is not the wildcard has as many data
inputs as the pattern has children. -/
theorem DoesOpTypeMatch_arity {g : GraphDef} {prev : List Str} {node : NodeDef} {op : Str}
    {inputs : List OpTypePattern} {m : NodeMatch} (hop : op ≠ ['*'])
    (h : DoesOpTypeMatch g prev node (.mk op inputs) = some m) :
    (nonControlInputs m.node).length = inputs.length := by
  unfold DoesOpTypeMatch at h
  split_ifs at h with h1 h3 h4
  simp only [Option.map_eq_some'] at h
  obtain ⟨ms, _, rfl⟩ := h
  exact not_not.mp h4

theorem input_ne_nil_of_data_input {n : NodeDef} (h : 0 < (nonControlInputs n).length) :
    n.input ≠ [] := by
  intro hnil
  simp [nonControlInputs, hnil] at h

/-- Every node of the output that is named as a node of an accepted match is a
node of the list the callback returned for that match, passed through the
renamer. -/
theorem output_nodes_of_accepted {t : Transform} {g : GraphDef} {ctx : TransformFuncContext}
    {r : TransformRun} (hrun : t.run g ctx = some r) {m : NodeMatch}
    (hm : m ∈ GetOpTypeMatches g t.pattern) {nn : List NodeDef} {target : Str}
    (hacc : Accepts (t.callback (requiredNodes ctx)) m nn target) :
    ∀ n ∈ r.output_graph_def, n.name ∈ m.allNodes.map NodeDef.name →
      ∃ n0 ∈ nn, n0.name = n.name ∧ n = renameNode r.inputs_to_rename r.nodes_to_ignore n0 := by
  obtain ⟨replaced, hout, hmem, _⟩ := run_entries hrun
  obtain ⟨o, ho⟩ := callback_outcome t g (requiredNodes ctx) m (GetOpTypeMatches_found hm)
  obtain ⟨ig, rfl⟩ := outcome_of_accepts ho hacc
  intro n hn hname
  rw [hout, List.mem_map] at hn
  obtain ⟨n0, hn0, rfl⟩ := hn
  rw [(renameNode_name _ _ n0).1, List.mem_map] at hname
  obtain ⟨y, hy, hyn⟩ := hname
  rcases hmem n0 hn0 with ⟨_, hfree⟩ | ⟨m1, hm1, s, s1, nn1, hgen, hin⟩
  · exfalso
    apply hfree
    rw [← hyn]
    exact List.mem_map_of_mem _ (mem_allNodesList.mpr ⟨m, hm, hy⟩)
  · obtain ⟨o1, ho1⟩ := callback_outcome t g (requiredNodes ctx) m1 (GetOpTypeMatches_found hm1)
    have h1 := fragment_names ho1 hgen n0 hin
    rw [List.mem_map] at h1
    obtain ⟨x, hx, hxn⟩ := h1
    have heq : m1 = m :=
      pairwise_disjoint_eq (GetOpTypeMatches_disjoint g t.pattern) hm1 hm hx hy (hxn.trans hyn.symm)
    subst heq
    have hag := ho.agrees s
    rw [hgen] at hag
    simp only [Outcome.apply, Option.some.injEq, Prod.mk.injEq] at hag
    exact ⟨n0, hag.1 ▸ hin, (renameNode_name _ _ n0).1.symm, rfl⟩

/-- The renamer leaves a reference by name to an inner node of a match alone,
when the graph has well-formed node names and the inner node is not named as
the root of the match. -/
theorem renameInput_inner {t : Transform} {g : GraphDef} {ctx : TransformFuncContext}
    {r : TransformRun} (hrun : t.run g ctx = some r) (hnames : ∀ n ∈ g, GoodName n.name)
    {m : NodeMatch} (hm : m ∈ GetOpTypeMatches g t.pattern) {x : NodeDef}
    (hx : x ∈ allNodesList m.inputs) (hne : x.name ≠ m.node.name) :
    renameInput r.inputs_to_rename x.name = x.name := by
  have hgood := (GetOpTypeMatches_found hm).inner_good x hx
  have hd := GetOpTypeMatches_disjoint g t.pattern
  have hxm : x ∈ m.allNodes := by
    rw [allNodes_eq]
    exact List.mem_cons_of_mem _ hx
  have hnone : renameTarget r.inputs_to_rename x.name = none := by
    unfold renameTarget
    rw [Option.map_eq_none', List.find?_eq_none]
    intro e he
    obtain ⟨_, _, _, hent⟩ := run_entries hrun
    obtain ⟨m1, hm1, nn1, target1, ig1, _, hk, _⟩ := hent e he
    have hgood1 := hnames m1.node (GetOpTypeMatches_found hm1).root_mem
    simp only [decide_eq_true_eq]
    intro hc
    rw [CanonicalInputName_good hgood.1] at hc
    rcases hk with rfl | rfl
    · rw [CanonicalInputName_good hgood1.1] at hc
      have hname : m1.node.name = x.name := List.append_cancel_right hc
      have heq : m1 = m := pairwise_disjoint_eq hd hm1 hm (node_mem_allNodes m1) hxm hname
      subst heq
      exact hne hname.symm
    · rw [CanonicalInputName_good (s := '^' :: m1.node.name) (by simpa using hgood1.1)] at hc
      have hname : '^' :: m1.node.name = x.name := List.append_cancel_right hc
      apply hgood.2
      rw [← hname]
      rfl
  unfold renameInput
  split
  · next ref heq =>
    exfalso
    apply hgood.2
    rw [heq]
    rfl
  · rw [hnone]

/-! ## C20: the swap of a relu and a transpose -/

theorem addIgnore_mem (st : RewriteState) (name : Str) :
    name ∈ (st.addIgnore name).nodes_to_ignore := by
  unfold RewriteState.addIgnore
  simp only
  split_ifs with h
  · exact h
  · exact List.mem_cons_self _ _

theorem addIgnore_mono {st : RewriteState} {name x : Str} (hx : x ∈ st.nodes_to_ignore) :
    x ∈ (st.addIgnore name).nodes_to_ignore := by
  unfold RewriteState.addIgnore
  simp only
  split_ifs with h
  · exact hx
  · exact List.mem_cons_of_mem _ hx

theorem addIgnore_cases {st : RewriteState} {name x : Str}
    (hx : x ∈ (st.addIgnore name).nodes_to_ignore) : x = name ∨ x ∈ st.nodes_to_ignore := by
  unfold RewriteState.addIgnore at hx
  simp only at hx
  split_ifs at hx with h
  · exact Or.inr hx
  · exact List.mem_cons.mp hx

/-- Every name in the exclusion set of a run of `SwapTransRelu` is the name of
the transpose of a match. -/
theorem SwapTransRelu_ignore_entries {g : GraphDef} {ctx : TransformFuncContext}
    {r : TransformRun} (hrun : SwapTransRelu g ctx = some r) :
    ∀ x ∈ r.nodes_to_ignore, ∃ m1 ∈ GetOpTypeMatches g reluPattern, ∃ transpose_match,
      m1.inputs[0]? = some transpose_match ∧ x = transpose_match.node.name := by
  obtain ⟨replaced, st, hre, _, _, hig⟩ := run_spec (t := .swapTransRelu) hrun
  rw [hig]
  refine rebuildNodes_tables _ _
    (fun s => ∀ x ∈ s.nodes_to_ignore, ∃ m1 ∈ GetOpTypeMatches g reluPattern,
      ∃ transpose_match, m1.inputs[0]? = some transpose_match ∧ x = transpose_match.node.name)
    ?_ g _ _ _ (fun x hx => by cases hx) hre
  intro m1 hm1 s nn s1 hs hgen
  obtain ⟨transpose_match, perm_match, input_match, a1, _, _, hcase⟩ :=
    SwapTransReluCallback_cases hgen
  rcases hcase with ⟨_, _, h2⟩ | ⟨_, _, h2⟩
  · rw [h2]
    exact hs
  · rw [h2]
    intro x hx
    rcases addIgnore_cases hx with rfl | hx
    · exact ⟨m1, hm1, transpose_match, a1, rfl⟩
    · exact hs x hx

/-- The transpose of a match that `SwapTransRelu` accepts is in the exclusion
set of the run. -/
theorem SwapTransRelu_ignores_transpose {g : GraphDef} {ctx : TransformFuncContext}
    {r : TransformRun} (hrun : SwapTransRelu g ctx = some r) {m : NodeMatch}
    (hm : m ∈ GetOpTypeMatches g reluPattern) {nn : List NodeDef} {target : Str}
    (hacc : Accepts (SwapTransReluCallback (requiredNodes ctx)) m nn target)
    {transpose_match : NodeMatch} (a1 : m.inputs[0]? = some transpose_match) :
    transpose_match.node.name ∈ r.nodes_to_ignore := by
  obtain ⟨replaced, st, hre, _, _, hig⟩ := run_spec (t := .swapTransRelu) hrun
  rw [hig]
  obtain ⟨st0, hcall, hmem⟩ := hacc
  have hr : ∃ perm_match input_match, transpose_match.inputs[1]? = some perm_match ∧
      transpose_match.inputs[0]? = some input_match ∧
      ¬∃ node ∈ [m.node, transpose_match.node, perm_match.node, input_match.node],
        node.name ∈ requiredNodes ctx := by
    obtain ⟨tr, perm_match, input_match, b1, b2, b3, hcase⟩ := SwapTransReluCallback_cases hcall
    rw [a1] at b1
    cases b1
    rcases hcase with ⟨_, _, h2⟩ | ⟨h1, _⟩
    · rw [h2] at hmem
      cases hmem
    · exact ⟨perm_match, input_match, b2, b3, h1⟩
  obtain ⟨perm_match, input_match, a2, a3, hr⟩ := hr
  refine rebuildNodes_reaches _ _ (fun s => transpose_match.node.name ∈ s.nodes_to_ignore) ?_ m
    (find_head (GetOpTypeMatches_disjoint g reluPattern) hm) ?_ g _ _ _
    (List.mem_map_of_mem _ (GetOpTypeMatches_found hm).root_mem) hre
  · intro m1 hm1 s nn1 s1 hs hgen
    obtain ⟨_, _, _, _, _, _, hcase⟩ := SwapTransReluCallback_cases hgen
    rcases hcase with ⟨_, _, h2⟩ | ⟨_, _, h2⟩
    · rw [h2]
      exact hs
    · rw [h2]
      exact addIgnore_mono hs
  · intro s nn1 s1 hgen
    obtain ⟨tr, pm, im, b1, b2, b3, hcase⟩ := SwapTransReluCallback_cases hgen
    rw [a1] at b1
    cases b1
    rw [a2] at b2
    cases b2
    rw [a3] at b3
    cases b3
    rcases hcase with ⟨h1, _⟩ | ⟨_, _, h2⟩
    · exact absurd h1 hr
    · rw [h2]
      exact addIgnore_mem _ _

theorem nodup_child {m c : NodeMatch} (hd : (m.allNodes.map NodeDef.name).Nodup)
    (hc : m.inputs[0]? = some c) :
    (c.allNodes.map NodeDef.name).Nodup ∧
      ∀ n ∈ allNodesList m.inputs, n.name ≠ m.node.name := by
  rw [allNodes_eq, List.map_cons, List.nodup_cons] at hd
  refine ⟨?_, fun n hn hname => hd.1 (hname ▸ List.mem_map_of_mem _ hn)⟩
  cases hin : m.inputs with
  | nil => rw [hin] at hc; cases hc
  | cons c1 rest =>
    rw [hin] at hc
    simp only [List.getElem?_cons_zero, Option.some.injEq] at hc
    subst hc
    have h2 := hd.2
    rw [hin, allNodesList_cons, List.map_append] at h2
    exact (List.nodup_append.mp h2).1

/-- C20 fails on the code: `SwapTransRelu` on `exTwoReluGraph` accepts the match
at `R` and renames `R` to `T`; the transpose `T2` is another node, outside that
match, and has the control input `^R`; in the output graph `T2` still has the
input `^R`: its name is in the exclusion set, as the transpose of the second
match, and the renamer leaves all of its inputs alone. -/
theorem ignored_transpose_keeps_its_reference_to_the_relu :
    GetOpTypeMatches exTwoReluGraph reluPattern = [exReluMatch, exReluMatch2] ∧
      Accepts (SwapTransReluCallback []) exReluMatch
        [exX, { exR with input := [['X']] }, exP, { exT with input := [['R'], ['p']] }]
        ['T'] ∧
      exT2 ∈ exTwoReluGraph ∧ exT2.name ∉ exReluMatch.allNodes.map NodeDef.name ∧
      exT2.input[2]? = some ['^', 'R'] ∧
      (SwapTransRelu exTwoReluGraph ⟨[], []⟩).map
          (fun r => (r.output_graph_def, r.nodes_to_ignore)) =
        some ([exX, { exR with input := [['X']] }, exP, { exT with input := [['R'], ['p']] },
          exX2, { exR2 with input := [['X', '2']] }, exP2,
          { exT2 with input := [['R', '2'], ['p', '2'], ['^', 'R']] }],
          [['T', '2'], ['T']]) := by
  refine ⟨rfl, ⟨⟨[(['^', 'R'], ['^', 'T']), (['R'], ['T'])], [['T']]⟩, by decide, by decide⟩,
    by decide, by decide, by decide, by decide⟩

/-- The list the callback of `SwapTransRelu` returns for a match it accepts, and
the rename target it records. -/
theorem accepted_relu_fragment {required_nodes : List Str} {m : NodeMatch}
    {new_nodes : List NodeDef} {target : Str}
    (h : Accepts (SwapTransReluCallback required_nodes) m new_nodes target) :
    ∃ transpose_match perm_match input_match,
      m.inputs[0]? = some transpose_match ∧
      transpose_match.inputs[1]? = some perm_match ∧
      transpose_match.inputs[0]? = some input_match ∧
      new_nodes = [input_match.node,
        { m.node with input := m.node.input.set 0 input_match.node.name },
        perm_match.node,
        { transpose_match.node with
          input := transpose_match.node.input.set 0 m.node.name }] ∧
      target = transpose_match.node.name := by
  obtain ⟨st1, hcall, hmem⟩ := h
  obtain ⟨transpose_match, perm_match, input_match, a1, a2, a3, hcase⟩ :=
    SwapTransReluCallback_cases hcall
  rcases hcase with ⟨_, _, h2⟩ | ⟨_, hnn, hst⟩
  · rw [h2] at hmem
    cases hmem
  · rw [hst] at hmem
    exact ⟨transpose_match, perm_match, input_match, a1, a2, a3, hnn,
      addRename_empty_target hmem rfl⟩

/-- C20, amended: for every run of `SwapTransRelu` on a graph with well-formed
node names and every match `Relu(Transpose(x, perm))` that the callback accepts
and whose four nodes have pairwise different names: the output graph has a node
named as the relu, and every such node has the op of the relu and the name of
`x` as its first input; it has a node named as the transpose, and every such
node has the relu's name as its first input and the other inputs of the
transpose unchanged, the transpose's name being in the exclusion set; and every
node `A` of the input graph that no match consumes is in the output under its
name, each input `relu` or `relu:0` now being the transpose's name and each
input `^relu` the control reference to the transpose.  (A node consumed by
another match whose name is in the exclusion set keeps its references.) -/
theorem relu_and_transpose_are_swapped (g : GraphDef) (ctx : TransformFuncContext)
    (r : TransformRun) (hrun : SwapTransRelu g ctx = some r)
    (hnames : ∀ n ∈ g, GoodName n.name) (m : NodeMatch)
    (hm : m ∈ GetOpTypeMatches g reluPattern) (new_nodes : List NodeDef) (target : Str)
    (hacc : Accepts (SwapTransReluCallback (requiredNodes ctx)) m new_nodes target)
    (hdistinct : (m.allNodes.map NodeDef.name).Nodup) :
    ∃ transpose_match perm_match input_match,
      m.inputs[0]? = some transpose_match ∧
      transpose_match.inputs[1]? = some perm_match ∧
      transpose_match.inputs[0]? = some input_match ∧
      target = transpose_match.node.name ∧
      (∃ n ∈ r.output_graph_def, n.name = m.node.name) ∧
      (∀ n ∈ r.output_graph_def, n.name = m.node.name →
        n.op = m.node.op ∧ n.input.length = m.node.input.length ∧
        n.input[0]? = some input_match.node.name) ∧
      (∃ n ∈ r.output_graph_def, n.name = transpose_match.node.name) ∧
      (∀ n ∈ r.output_graph_def, n.name = transpose_match.node.name →
        n.op = transpose_match.node.op ∧
        n.input = transpose_match.node.input.set 0 m.node.name ∧
        n.input[0]? = some m.node.name ∧
        n.input[1]? = transpose_match.node.input[1]?) ∧
      transpose_match.node.name ∈ r.nodes_to_ignore ∧
      ∀ A ∈ g, A.name ∉ matchedNames (GetOpTypeMatches g reluPattern) →
        ∃ A1 ∈ r.output_graph_def, A1.name = A.name ∧ A1.input.length = A.input.length ∧
          ∀ i : Nat,
            (A.input[i]? = some m.node.name → A1.input[i]? = some target) ∧
            (A.input[i]? = some (m.node.name ++ [':', '0']) → A1.input[i]? = some target) ∧
            (A.input[i]? = some ('^' :: m.node.name) → A1.input[i]? = some ('^' :: target)) := by
  have hrun1 : Transform.swapTransRelu.run g ctx = some r := hrun
  have hm1 : m ∈ GetOpTypeMatches g Transform.swapTransRelu.pattern := hm
  have hacc1 : Accepts (Transform.swapTransRelu.callback (requiredNodes ctx)) m new_nodes
      target := hacc
  have hfound := GetOpTypeMatches_found hm
  have hd := GetOpTypeMatches_disjoint g reluPattern
  obtain ⟨o, ho⟩ := callback_outcome .swapTransRelu g (requiredNodes ctx) m hfound
  obtain ⟨ig, rfl⟩ := outcome_of_accepts ho hacc1
  have hgood := hnames m.node hfound.root_mem
  obtain ⟨transpose_match, perm_match, input_match, a1, a2, a3, hnn, htarget⟩ :=
    accepted_relu_fragment hacc
  obtain ⟨hdt, hroot⟩ := nodup_child hdistinct a1
  obtain ⟨_, htroot⟩ := nodup_child hdt a3
  -- the inner nodes and their names
  have htin : transpose_match.node ∈ allNodesList m.inputs := node_of_getElem? a1
  have hxin : input_match.node ∈ allNodesList m.inputs := inner_of_getElem? a1 _ (node_of_getElem? a3)
  have hpin : perm_match.node ∈ allNodesList m.inputs := inner_of_getElem? a1 _ (node_of_getElem? a2)
  have hxt : input_match.node.name ≠ transpose_match.node.name :=
    htroot _ (node_of_getElem? a3)
  have hpt : perm_match.node.name ≠ transpose_match.node.name :=
    htroot _ (node_of_getElem? a2)
  -- the arities
  obtain ⟨prev, hmatch⟩ := GetOpTypeMatches_matched hm
  have hrin : m.node.input ≠ [] :=
    input_ne_nil_of_data_input (by
      rw [DoesOpTypeMatch_arity (by decide) hmatch]
      decide)
  obtain ⟨c, node1, hc, hcm⟩ := DoesOpTypeMatch_child (i := 0) (by decide) hmatch rfl
  rw [a1] at hc
  cases hc
  have htrin : transpose_match.node.input ≠ [] :=
    input_ne_nil_of_data_input (by
      rw [DoesOpTypeMatch_arity (by decide) hcm]
      decide)
  -- the exclusion set
  have hign_t := SwapTransRelu_ignores_transpose hrun hm hacc a1
  have hign_r : m.node.name ∉ r.nodes_to_ignore := by
    intro hmem
    obtain ⟨m2, hm2, tr2, b1, hname⟩ := SwapTransRelu_ignore_entries hrun _ hmem
    have heq : m2 = m := pairwise_disjoint_eq hd hm2 hm
      (show tr2.node ∈ m2.allNodes from by
        rw [allNodes_eq]
        exact List.mem_cons_of_mem _ (node_of_getElem? b1))
      (node_mem_allNodes m) hname.symm
    subst heq
    rw [a1] at b1
    cases b1
    exact hroot _ htin hname.symm
  have hfrag := accepted_fragment_in_output hrun1 hm1 hacc1
  refine ⟨transpose_match, perm_match, input_match, a1, a2, a3, htarget, ?_, ?_, ?_, ?_,
    hign_t, ?_⟩
  · exact ⟨_, hfrag { m.node with input := m.node.input.set 0 input_match.node.name }
      (by rw [hnn]; simp), (renameNode_name _ _ _).1⟩
  · intro n hn hname
    obtain ⟨n0, hn0, hn0name, rfl⟩ := output_nodes_of_accepted hrun1 hm1 hacc1 n hn
      (hname ▸ root_name_mem m)
    rw [hname] at hn0name
    rw [hnn] at hn0
    simp only [List.mem_cons, List.mem_singleton, List.not_mem_nil, or_false] at hn0
    rcases hn0 with rfl | rfl | rfl | rfl
    · exact absurd hn0name (hroot _ hxin)
    · refine ⟨(renameNode_name _ _ _).2.1, ?_, ?_⟩
      · simp [renameNode, hign_r]
      · obtain ⟨a, rest, hin⟩ := List.exists_cons_of_ne_nil hrin
        simp only [renameNode, hign_r, if_false, hin, List.set_cons_zero, List.map_cons,
          List.getElem?_cons_zero, Option.some.injEq]
        exact renameInput_inner hrun1 hnames hm1 hxin (hroot _ hxin)
    · exact absurd hn0name (hroot _ hpin)
    · exact absurd hn0name (hroot transpose_match.node htin)
  · exact ⟨_, hfrag { transpose_match.node with
        input := transpose_match.node.input.set 0 m.node.name }
      (by rw [hnn]; simp), (renameNode_name _ _ _).1⟩
  · intro n hn hname
    obtain ⟨n0, hn0, hn0name, rfl⟩ := output_nodes_of_accepted hrun1 hm1 hacc1 n hn
      (hname ▸ inner_name_mem htin)
    rw [hname] at hn0name
    rw [hnn] at hn0
    simp only [List.mem_cons, List.mem_singleton, List.not_mem_nil, or_false] at hn0
    rcases hn0 with rfl | rfl | rfl | rfl
    · exact absurd hn0name hxt
    · exact absurd hn0name (fun h => hroot transpose_match.node htin h.symm)
    · exact absurd hn0name hpt
    · have hkeep : renameNode r.inputs_to_rename r.nodes_to_ignore
          { transpose_match.node with
            input := transpose_match.node.input.set 0 m.node.name } =
          { transpose_match.node with
            input := transpose_match.node.input.set 0 m.node.name } := by
        simp [renameNode, hign_t]
      rw [hkeep]
      obtain ⟨a, rest, hin⟩ := List.exists_cons_of_ne_nil htrin
      refine ⟨rfl, rfl, ?_, ?_⟩
      · simp [hin]
      · simp [hin]
  · intro A hA hfree
    obtain ⟨replaced, st, hre, hout, _, _⟩ := run_spec hrun1
    have hAout : A ∈ replaced := rebuildNodes_copy _ _ g _ _ _ hre A hA hfree
    have hign : A.name ∉ r.nodes_to_ignore := by
      intro hmem
      obtain ⟨m2, hm2, tr2, b1, hname⟩ := SwapTransRelu_ignore_entries hrun _ hmem
      apply hfree
      rw [hname]
      exact List.mem_map_of_mem _ (mem_allNodesList.mpr ⟨m2, hm2, by
        rw [allNodes_eq]
        exact List.mem_cons_of_mem _ (node_of_getElem? b1)⟩)
    refine ⟨renameNode r.inputs_to_rename r.nodes_to_ignore A, ?_, (renameNode_name _ _ A).1,
      ?_, ?_⟩
    · rw [hout]
      exact List.mem_map_of_mem _ hAout
    · simp [renameNode, hign]
    · exact renamed_references hign hgood
        (run_rename_target hrun1 hnames hm1 ho (Or.inl rfl))
        (run_rename_target hrun1 hnames hm1 ho (Or.inr rfl))

/-- Witness of `relu_and_transpose_are_swapped`: the run on `exReluGraph`, whose
node `Y` reads the relu. -/
theorem relu_and_transpose_are_swapped_witness :
    ∃ transpose_match perm_match input_match,
      exReluMatch.inputs[0]? = some transpose_match ∧
      transpose_match.inputs[1]? = some perm_match ∧
      transpose_match.inputs[0]? = some input_match ∧
      ['T'] = transpose_match.node.name ∧
      (∃ n ∈ [exX, { exR with input := [['X']] }, exP, { exT with input := [['R'], ['p']] },
          { exYR with input := [['T']] }], n.name = exReluMatch.node.name) ∧
      (∀ n ∈ [exX, { exR with input := [['X']] }, exP, { exT with input := [['R'], ['p']] },
          { exYR with input := [['T']] }], n.name = exReluMatch.node.name →
        n.op = exReluMatch.node.op ∧ n.input.length = exReluMatch.node.input.length ∧
        n.input[0]? = some input_match.node.name) ∧
      (∃ n ∈ [exX, { exR with input := [['X']] }, exP, { exT with input := [['R'], ['p']] },
          { exYR with input := [['T']] }], n.name = transpose_match.node.name) ∧
      (∀ n ∈ [exX, { exR with input := [['X']] }, exP, { exT with input := [['R'], ['p']] },
          { exYR with input := [['T']] }], n.name = transpose_match.node.name →
        n.op = transpose_match.node.op ∧
        n.input = transpose_match.node.input.set 0 exReluMatch.node.name ∧
        n.input[0]? = some exReluMatch.node.name ∧
        n.input[1]? = transpose_match.node.input[1]?) ∧
      transpose_match.node.name ∈ [['T']] ∧
      ∀ A ∈ exReluGraph, A.name ∉ matchedNames (GetOpTypeMatches exReluGraph reluPattern) →
        ∃ A1 ∈ [exX, { exR with input := [['X']] }, exP, { exT with input := [['R'], ['p']] },
            { exYR with input := [['T']] }],
          A1.name = A.name ∧ A1.input.length = A.input.length ∧
          ∀ i : Nat,
            (A.input[i]? = some exReluMatch.node.name → A1.input[i]? = some ['T']) ∧
            (A.input[i]? = some (exReluMatch.node.name ++ [':', '0']) →
              A1.input[i]? = some ['T']) ∧
            (A.input[i]? = some ('^' :: exReluMatch.node.name) →
              A1.input[i]? = some ('^' :: ['T'])) :=
  relu_and_transpose_are_swapped exReluGraph ⟨[], [['Y']]⟩
    ⟨[exX, { exR with input := [['X']] }, exP, { exT with input := [['R'], ['p']] },
        { exYR with input := [['T']] }],
      [(['^', 'R'], ['^', 'T']), (['R'], ['T'])], [['T']]⟩
    (by decide) (by decide) exReluMatch (List.mem_singleton.mpr rfl)
    [exX, { exR with input := [['X']] }, exP, { exT with input := [['R'], ['p']] }] ['T']
    ⟨⟨[(['^', 'R'], ['^', 'T']), (['R'], ['T'])], [['T']]⟩, by decide, by decide⟩
    (by decide)

/-! ## C21: a dilation replaced by a max-pool -/

theorem attrFind_attrSet_same (attrs : List (Str × AttrValue)) (key : Str) (value : AttrValue) :
    attrFind (attrSet attrs key value) key = some value := by
  have h : (attrs.filter (fun e => e.1 ≠ key)).find? (fun e => e.1 = key) = none := by
    rw [List.find?_eq_none]
    intro e he
    have := (List.mem_filter.mp he).2
    simpa using this
  simp only [attrFind, attrSet, List.find?_append, h, Option.none_or, List.find?_cons,
    decide_True, Option.map_some']

theorem find?_filter_other (attrs : List (Str × AttrValue)) {key other : Str}
    (hne : other ≠ key) :
    (attrs.filter (fun e => e.1 ≠ key)).find? (fun e => e.1 = other) =
      attrs.find? (fun e => e.1 = other) := by
  induction attrs with
  | nil => rfl
  | cons e rest ih =>
    by_cases h : e.1 = key
    · have h2 : ¬e.1 = other := fun h3 => hne (h3.symm.trans h)
      rw [List.filter_cons_of_neg (by simpa using h), List.find?_cons_of_neg _ (by simpa using h2)]
      exact ih
    · rw [List.filter_cons_of_pos (by simpa using h)]
      by_cases h2 : e.1 = other
      · rw [List.find?_cons_of_pos _ (by simpa using h2),
          List.find?_cons_of_pos _ (by simpa using h2)]
      · rw [List.find?_cons_of_neg _ (by simpa using h2),
          List.find?_cons_of_neg _ (by simpa using h2)]
        exact ih

theorem attrFind_attrSet_ne (attrs : List (Str × AttrValue)) {key other : Str}
    (value : AttrValue) (hne : other ≠ key) :
    attrFind (attrSet attrs key value) other = attrFind attrs other := by
  have h : [(key, value)].find? (fun e => e.1 = other) = none := by
    rw [List.find?_cons_of_neg _ (by simpa using hne.symm)]
    rfl
  simp only [attrFind, attrSet, List.find?_append, find?_filter_other attrs hne, h,
    Option.or_none]

theorem CopyNodeAttr_some {source : NodeDef} {key : Str} {v : AttrValue}
    (h : attrFind source.attr key = some v) (dest_key : Str) (dest : NodeDef) :
    CopyNodeAttr source key dest_key dest = some (SetNodeAttr dest_key v dest) := by
  simp only [CopyNodeAttr, h, SetNodeAttr]

/-- The rebuild returns when the callback returns on every match of the list. -/
theorem rebuildNodes_total (ms : List NodeMatch) (gen : NodeGenerator)
    (hgen : ∀ m ∈ ms, ∀ st, ∃ nn st1, gen m st = some (nn, st1)) :
    ∀ (nodes : List NodeDef) (st : RewriteState),
      ∃ out st2, rebuildNodes ms gen nodes st = some (out, st2)
  | [], st => ⟨[], st, rfl⟩
  | node :: rest, st => by
    unfold rebuildNodes
    cases hfind : ms.find? (fun m => m.node.name = node.name) with
    | some m =>
      obtain ⟨nn, st1, h1⟩ := hgen m (find_head_some hfind).1 st
      obtain ⟨out, st2, h2⟩ := rebuildNodes_total ms gen hgen rest st1
      exact ⟨nn ++ out, st2, by simp only [h1, h2]⟩
    | none =>
      obtain ⟨out, st2, h2⟩ := rebuildNodes_total ms gen hgen rest st
      simp only
      split_ifs
      · exact ⟨out, st2, h2⟩
      · exact ⟨node :: out, st2, by simp only [h2]⟩

/-- The rewriting path of the callback of `Dilation2DToMaxPool2D`: for a match
whose root is not required and has the attributes `strides` and `padding`, the
callback returns the node of the first input and the max-pool node, and leaves
the side tables alone. -/
theorem Dilation2DToMaxPool2DCallback_accept {required_nodes : List Str} {m : NodeMatch}
    {input_match : NodeMatch} {strides padding : AttrValue}
    (hreq : m.node.name ∉ required_nodes) (a1 : m.inputs[0]? = some input_match)
    (hs : attrFind m.node.attr "strides".data = some strides)
    (hp : attrFind m.node.attr "padding".data = some padding) :
    ∃ maxpool_node : NodeDef,
      (∀ st, Dilation2DToMaxPool2DCallback required_nodes m st =
        some ([input_match.node, maxpool_node], st)) ∧
      maxpool_node.name = m.node.name ∧ maxpool_node.device = m.node.device ∧
      maxpool_node.op = "MaxPool".data ∧
      attrFind maxpool_node.attr "ksize".data = some (.list_i [1, 2, 2, 1]) ∧
      attrFind maxpool_node.attr "strides".data = some strides ∧
      attrFind maxpool_node.attr "padding".data = some padding ∧
      maxpool_node.input = [input_match.node.name] := by
  cases hc : attrFind m.node.attr "use_cudnn_on_gpu".data with
  | none =>
    refine ⟨AddNodeInput input_match.node.name
      (SetNodeAttr "padding".data padding (SetNodeAttr "strides".data strides
        (SetNodeAttr "ksize".data (.list_i [1, 2, 2, 1])
          { NodeDef.empty with op := "MaxPool".data, name := m.node.name,
                               device := m.node.device }))), fun st => ?_, ?_⟩
    · simp only [Dilation2DToMaxPool2DCallback, if_neg hreq, a1, CopyNodeAttr_some hs,
        CopyNodeAttr_some hp, hc, Option.isSome_none, Bool.false_eq_true, if_false]
    · refine ⟨rfl, rfl, rfl, ?_, ?_, ?_, rfl⟩
      · simp only [AddNodeInput, SetNodeAttr, NodeDef.empty]
        rw [attrFind_attrSet_ne _ _ (by decide), attrFind_attrSet_ne _ _ (by decide),
          attrFind_attrSet_same]
      · simp only [AddNodeInput, SetNodeAttr, NodeDef.empty]
        rw [attrFind_attrSet_ne _ _ (by decide), attrFind_attrSet_same]
      · simp only [AddNodeInput, SetNodeAttr, NodeDef.empty]
        rw [attrFind_attrSet_same]
  | some cudnn =>
    refine ⟨AddNodeInput input_match.node.name
      (SetNodeAttr "use_cudnn_on_gpu".data cudnn
        (SetNodeAttr "padding".data padding (SetNodeAttr "strides".data strides
          (SetNodeAttr "ksize".data (.list_i [1, 2, 2, 1])
            { NodeDef.empty with op := "MaxPool".data, name := m.node.name,
                                 device := m.node.device })))), fun st => ?_, ?_⟩
    · simp only [Dilation2DToMaxPool2DCallback, if_neg hreq, a1, CopyNodeAttr_some hs,
        CopyNodeAttr_some hp, CopyNodeAttr_some hc, hc, Option.isSome_some, if_true]
    · refine ⟨rfl, rfl, rfl, ?_, ?_, ?_, rfl⟩
      · simp only [AddNodeInput, SetNodeAttr, NodeDef.empty]
        rw [attrFind_attrSet_ne _ _ (by decide), attrFind_attrSet_ne _ _ (by decide),
          attrFind_attrSet_ne _ _ (by decide), attrFind_attrSet_same]
      · simp only [AddNodeInput, SetNodeAttr, NodeDef.empty]
        rw [attrFind_attrSet_ne _ _ (by decide), attrFind_attrSet_ne _ _ (by decide),
          attrFind_attrSet_same]
      · simp only [AddNodeInput, SetNodeAttr, NodeDef.empty]
        rw [attrFind_attrSet_ne _ _ (by decide), attrFind_attrSet_same]

theorem matchInputs_lookup (g : GraphDef) (prev : List Str) :
    ∀ (rs : List Str) (ps : List OpTypePattern) (ms : List NodeMatch),
      matchInputs g prev rs ps = some ms →
      ∀ (i : Nat) (c : NodeMatch), ms[i]? = some c →
        ∃ r, rs[i]? = some r ∧ nodeByName g (NodeNameFromInput r) = some c.node
  | [], _, ms, h, i, c, hc => by
    unfold matchInputs at h
    cases h
    simp at hc
  | _ :: _, [], ms, h, i, c, hc => by
    unfold matchInputs at h
    cases h
    simp at hc
  | r :: rs, p :: ps, ms, h, i, c, hc => by
    unfold matchInputs at h
    split at h
    · cases h
    · next input_node hlook =>
      split at h
      · cases h
      · next m hm =>
        split at h
        · cases h
        · next ms1 hms1 =>
          cases h
          cases i with
          | zero =>
            simp only [List.getElem?_cons_zero, Option.some.injEq] at hc
            subst hc
            refine ⟨r, List.getElem?_cons_zero, ?_⟩
            rw [hlook, (DoesOpTypeMatch_sound g prev input_node p m hm).1]
          | succ j =>
            simp only [List.getElem?_cons_succ] at hc ⊢
            exact matchInputs_lookup g prev rs ps ms1 hms1 j c hc

/-- The node bound at an input position of a match of a pattern that is not the
wildcard is the node the data input at that position resolves to. -/
theorem DoesOpTypeMatch_lookup {g : GraphDef} {prev : List Str} {node : NodeDef} {op : Str}
    {inputs : List OpTypePattern} {m : NodeMatch} (hop : op ≠ ['*'])
    (h : DoesOpTypeMatch g prev node (.mk op inputs) = some m) {i : Nat} {c : NodeMatch}
    (hc : m.inputs[i]? = some c) :
    ∃ r, (nonControlInputs m.node)[i]? = some r ∧
      nodeByName g (NodeNameFromInput r) = some c.node := by
  unfold DoesOpTypeMatch at h
  split_ifs at h with h1 h3 h4
  simp only [Option.map_eq_some'] at h
  obtain ⟨ms, hms, rfl⟩ := h
  exact matchInputs_lookup g prev _ _ ms hms i c hc

/-- C21: for every graph in which each `Dilation2D` node has the attributes
`strides` and `padding`, every context and every match of the pattern whose
root, a `Dilation2D` node, is not a required name: `Dilation2DToMaxPool2D`
returns; for that match the callback emits the node feeding the first data
input of the dilation and a node with the name and device of the dilation, op
`MaxPool`, `ksize` the integer list `[1, 2, 2, 1]`, the `strides` and `padding`
of the dilation and exactly one input, the name of the node feeding the first
data input; the callback changes no side table and the run has no rename
entry; the new node is in the output graph, so the name of the old node still
resolves there. -/
theorem dilation_is_replaced_by_maxpool (g : GraphDef) (ctx : TransformFuncContext)
    (m : NodeMatch) (hm : m ∈ GetOpTypeMatches g dilationPattern)
    (hreq : m.node.name ∉ requiredNodes ctx)
    (hattrs : ∀ n ∈ g, n.op = "Dilation2D".data →
      (attrFind n.attr "strides".data).isSome ∧ (attrFind n.attr "padding".data).isSome) :
    ∃ r input_match maxpool_node first_input strides padding,
      Dilation2DToMaxPool2D g ctx = some r ∧
      m.node.op = "Dilation2D".data ∧
      attrFind m.node.attr "strides".data = some strides ∧
      attrFind m.node.attr "padding".data = some padding ∧
      m.inputs[0]? = some input_match ∧
      (nonControlInputs m.node)[0]? = some first_input ∧
      nodeByName g (NodeNameFromInput first_input) = some input_match.node ∧
      (∀ st, Dilation2DToMaxPool2DCallback (requiredNodes ctx) m st =
        some ([input_match.node, maxpool_node], st)) ∧
      maxpool_node.name = m.node.name ∧ maxpool_node.device = m.node.device ∧
      maxpool_node.op = "MaxPool".data ∧
      attrFind maxpool_node.attr "ksize".data = some (.list_i [1, 2, 2, 1]) ∧
      attrFind maxpool_node.attr "strides".data = some strides ∧
      attrFind maxpool_node.attr "padding".data = some padding ∧
      maxpool_node.input = [input_match.node.name] ∧
      r.inputs_to_rename = [] ∧ maxpool_node ∈ r.output_graph_def ∧
      (nodeByName r.output_graph_def m.node.name).isSome := by
  have hshape : ∀ m1 ∈ GetOpTypeMatches g dilationPattern,
      ∃ input_match strides padding, m1.node.op = "Dilation2D".data ∧
        m1.inputs[0]? = some input_match ∧
        attrFind m1.node.attr "strides".data = some strides ∧
        attrFind m1.node.attr "padding".data = some padding ∧
        ∃ first_input, (nonControlInputs m1.node)[0]? = some first_input ∧
          nodeByName g (NodeNameFromInput first_input) = some input_match.node := by
    intro m1 hm1
    obtain ⟨prev, hmatch⟩ := GetOpTypeMatches_matched hm1
    have hop : m1.node.op = "Dilation2D".data := DoesOpTypeMatch_op (by decide) hmatch
    obtain ⟨c, _, hc, _⟩ := DoesOpTypeMatch_child (i := 0) (by decide) hmatch rfl
    obtain ⟨h1, h2⟩ := hattrs m1.node (GetOpTypeMatches_found hm1).root_mem hop
    obtain ⟨s, hs⟩ := Option.isSome_iff_exists.mp h1
    obtain ⟨p, hp⟩ := Option.isSome_iff_exists.mp h2
    obtain ⟨r0, hr0, hlook⟩ := DoesOpTypeMatch_lookup (by decide) hmatch hc
    exact ⟨c, s, p, hop, hc, hs, hp, r0, hr0, hlook⟩
  have htotal : ∀ m1 ∈ GetOpTypeMatches g dilationPattern, ∀ st, ∃ nn st1,
      Dilation2DToMaxPool2DCallback (requiredNodes ctx) m1 st = some (nn, st1) := by
    intro m1 hm1 st
    by_cases h1 : m1.node.name ∈ requiredNodes ctx
    · exact ⟨CopyOriginalMatch m1 [], st, by
        simp only [Dilation2DToMaxPool2DCallback, if_pos h1]⟩
    · obtain ⟨c, s, p, _, hc, hs, hp, _⟩ := hshape m1 hm1
      obtain ⟨mp, hcb, _⟩ := Dilation2DToMaxPool2DCallback_accept h1 hc hs hp
      exact ⟨_, _, hcb st⟩
  obtain ⟨out, st2, hre⟩ := rebuildNodes_total _ _ htotal g ⟨[], []⟩
  obtain ⟨input_match, strides, padding, hop, a1, hs, hp, r0, hr0, hlook⟩ := hshape m hm
  obtain ⟨maxpool_node, hcb, h1, h2, h3, h4, h5, h6, h7⟩ :=
    Dilation2DToMaxPool2DCallback_accept hreq a1 hs hp
  have hin : maxpool_node ∈ out := by
    obtain ⟨s, s1, nn, hgen, hsub⟩ := rebuildNodes_fragment _ _ g _ _ _ hre m.node
      (GetOpTypeMatches_found hm).root_mem m
      (find_head (GetOpTypeMatches_disjoint g dilationPattern) hm)
    rw [hcb] at hgen
    simp only [Option.some.injEq, Prod.mk.injEq] at hgen
    exact hsub _ (by rw [← hgen.1]; simp)
  refine ⟨⟨out, [], []⟩, input_match, maxpool_node, r0, strides, padding, ?_, hop, hs, hp, a1,
    hr0, hlook, hcb, h1, h2, h3, h4, h5, h6, h7, rfl, hin, ?_⟩
  · simp only [Dilation2DToMaxPool2D, ReplaceMatchingOpTypes, hre]
  · unfold nodeByName
    rw [List.find?_isSome]
    exact ⟨maxpool_node, hin, by simpa using h1⟩

/-- Witness of `dilation_is_replaced_by_maxpool`: the dilation `out` of
`exDilationGraph`, with no declared input or output. -/
theorem dilation_is_replaced_by_maxpool_witness :
    ∃ r input_match maxpool_node first_input strides padding,
      Dilation2DToMaxPool2D exDilationGraph ⟨[], []⟩ = some r ∧
      exDilationMatch.node.op = "Dilation2D".data ∧
      attrFind exDilationMatch.node.attr "strides".data = some strides ∧
      attrFind exDilationMatch.node.attr "padding".data = some padding ∧
      exDilationMatch.inputs[0]? = some input_match ∧
      (nonControlInputs exDilationMatch.node)[0]? = some first_input ∧
      nodeByName exDilationGraph (NodeNameFromInput first_input) = some input_match.node ∧
      (∀ st, Dilation2DToMaxPool2DCallback (requiredNodes ⟨[], []⟩) exDilationMatch st =
        some ([input_match.node, maxpool_node], st)) ∧
      maxpool_node.name = exDilationMatch.node.name ∧
      maxpool_node.device = exDilationMatch.node.device ∧
      maxpool_node.op = "MaxPool".data ∧
      attrFind maxpool_node.attr "ksize".data = some (.list_i [1, 2, 2, 1]) ∧
      attrFind maxpool_node.attr "strides".data = some strides ∧
      attrFind maxpool_node.attr "padding".data = some padding ∧
      maxpool_node.input = [input_match.node.name] ∧
      r.inputs_to_rename = [] ∧ maxpool_node ∈ r.output_graph_def ∧
      (nodeByName r.output_graph_def exDilationMatch.node.name).isSome :=
  dilation_is_replaced_by_maxpool exDilationGraph ⟨[], []⟩ exDilationMatch
    (List.mem_singleton.mpr rfl) (by decide) (by decide)

/-! ## C24: the output index of the external input -/

/-- C24 fails on the code: in each of the four graphs the matched transpose
(resp. dilation) reads its external input through the reference `U:1`, output
1 of `U`; no name is required, the match is rewritten, and the rewired
consumer (the relu `R`, the multiplication `M`, the pad `P`, the max-pool
`out`) has the bare name `U`, output 0, as its first input. -/
theorem rewired_consumer_reads_output_zero :
    (exIdxT.input[0]? = some ['U', ':', '1'] ∧
      inputsOfNamed (SwapTransRelu exIdxReluGraph ⟨[], [['Y']]⟩) ['R'] = some [[['U']]]) ∧
    (exIdxFoldT1.input[0]? = some ['U', ':', '1'] ∧
      inputsOfNamed (SwapTransMulAdd exIdxMulAddGraph ⟨[], [['Y']]⟩) ['M'] =
        some [[['U'], ['w']]]) ∧
    (exIdxFoldT1.input[0]? = some ['U', ':', '1'] ∧
      inputsOfNamed (FoldTransposedPads exIdxFoldGraph ⟨[], [['Y']]⟩) ['P'] =
        some [[['U'], ['p', 'a', 'd', 's']]]) ∧
    (exIdxDilation.input[0]? = some ['U', ':', '1'] ∧
      inputsOfNamed (Dilation2DToMaxPool2D exIdxDilationGraph ⟨[], []⟩) ['o', 'u', 't'] =
        some [[['U']]]) := by
  refine ⟨⟨by decide, by decide⟩, ⟨by decide, by decide⟩, ⟨by decide, by decide⟩,
    ⟨by decide, by decide⟩⟩

/-! ## C25: the names of the output graph -/

/-- C25 fails on the code: the node names of `exSharedLeafGraph` are pairwise
distinct and all its references resolve; the transpose `T` reads the node `c`
both as its value and as its permutation, so the match of `SwapTransRelu` binds
`c` at two positions, and the callback emits it at both: the output graph has
two nodes named `c`.  In `exSharedWeightsGraph` the match of `SwapTransMulAdd`
binds `w` as the transposed value and as the weights, and the output has the
original `w` and the re-ordered constant `w`, two different nodes of one
name. -/
theorem shared_leaf_is_emitted_twice :
    ((exSharedLeafGraph.map NodeDef.name).Nodup ∧ danglingReferences exSharedLeafGraph = [] ∧
      (SwapTransRelu exSharedLeafGraph ⟨[], [['Y']]⟩).map
          (fun r => r.output_graph_def.map NodeDef.name) =
        some [['c'], ['R'], ['c'], ['T'], ['Y']] ∧
      ¬([['c'], ['R'], ['c'], ['T'], ['Y']] : List Str).Nodup) ∧
    ((exSharedWeightsGraph.map NodeDef.name).Nodup ∧
      danglingReferences exSharedWeightsGraph = [] ∧
      (SwapTransMulAdd exSharedWeightsGraph ⟨[], [['Y']]⟩).map
          (fun r => (r.output_graph_def.filter fun n => n.name = ['w']).map
            fun n => attrFind n.attr "value".data) =
        some [some (.tensor ⟨.DT_FLOAT, [1, 2, 2, 2], [1, 2, 3, 4, 5, 6, 7, 8]⟩),
          some (.tensor ⟨.DT_FLOAT, [1, 2, 2, 2], [1, 5, 2, 6, 3, 7, 4, 8]⟩)]) := by
  refine ⟨⟨by decide, by decide, by decide, by decide⟩, ⟨by decide, by decide, by decide⟩⟩

/-! ## C22: rename targets and rename keys -/

/-- The rename target a callback records for a match names a node bound below
the root of the match: the value input of a removed split or pad, the pad of a
folded chain, the transpose of a swap. -/
theorem target_names_inner {t : Transform} {g : GraphDef} {required_nodes : List Str}
    {m : NodeMatch} (hm : FoundMatch g m) {nn : List NodeDef} {target : Str}
    {ig : Option Str} (ho : OutcomeOK t required_nodes m (.rewrite nn (some target) ig)) :
    (∃ x ∈ allNodesList m.inputs, x.name = NodeNameFromInput target) ∧
      NodeNameFromInput ('^' :: target) = NodeNameFromInput target := by
  obtain ⟨⟨n, hn, hname⟩, hcaret⟩ := ho.target nn target ig rfl
  refine ⟨?_, hcaret⟩
  have hacc : Accepts (t.callback required_nodes) m nn target :=
    ⟨_, ho.agrees ⟨[], []⟩, by cases ig <;> exact addRename_mem _ _ _⟩
  have hdel : t.deletesRoot = true → ∃ x ∈ allNodesList m.inputs,
      x.name = NodeNameFromInput target := by
    intro hd
    have h1 := ho.inner nn (some target) ig rfl hd n hn
    rw [List.mem_map] at h1
    obtain ⟨x, hx, hxn⟩ := h1
    exact ⟨x, hx, hxn.trans hname⟩
  cases t with
  | removeNoopSplit => exact hdel rfl
  | removeNoopPadV2 => exact hdel rfl
  | foldTransposedPads => exact hdel rfl
  | dilation2DToMaxPool2D =>
    exfalso
    obtain ⟨st1, hcall, hmem⟩ := hacc
    rw [Dilation2DToMaxPool2DCallback_tables hcall] at hmem
    cases hmem
  | swapTransMulAdd =>
    obtain ⟨st1, hcall, hmem⟩ := hacc
    obtain ⟨bias_match, mul_match, weights_match, transpose_match, perm_match, input_match,
      a1, a2, a3, a4, a5, a6, hcase⟩ := SwapTransMulAddCallback_cases hcall
    rcases hcase with ⟨_, _, h2⟩ | ⟨_, _, _, _, _, _, _, _, _, _, hst⟩
    · rw [h2] at hmem
      cases hmem
    · rw [hst] at hmem
      have htarget : target = transpose_match.node.name := addRename_empty_target hmem rfl
      have hin : transpose_match.node ∈ allNodesList m.inputs :=
        inner_of_getElem? a2 _ (node_of_getElem? a4)
      refine ⟨transpose_match.node, hin, ?_⟩
      rw [htarget, NodeNameFromInput_of_good (hm.inner_good _ hin)]
  | swapTransRelu =>
    obtain ⟨transpose_match, perm_match, input_match, a1, a2, a3, _, htarget⟩ :=
      accepted_relu_fragment hacc
    have hin : transpose_match.node ∈ allNodesList m.inputs := node_of_getElem? a1
    refine ⟨transpose_match.node, hin, ?_⟩
    rw [htarget, NodeNameFromInput_of_good (hm.inner_good _ hin)]

/-- The base name of no value of the rename map of a run is the base name of a
key, when the node names are well formed and no match binds a node named as its
root below the root. -/
theorem target_base_is_no_key_base {t : Transform} {g : GraphDef}
    {ctx : TransformFuncContext} {r : TransformRun} (hrun : t.run g ctx = some r)
    (hnames : ∀ n ∈ g, GoodName n.name)
    (hroot : ∀ m ∈ GetOpTypeMatches g t.pattern, ∀ n ∈ allNodesList m.inputs,
      n.name ≠ m.node.name) :
    ∀ e1 ∈ r.inputs_to_rename, ∀ e2 ∈ r.inputs_to_rename,
      NodeNameFromInput e1.2 ≠ NodeNameFromInput e2.1 := by
  obtain ⟨_, _, _, hent⟩ := run_entries hrun
  intro e1 he1 e2 he2 heq
  obtain ⟨m1, hm1, nn1, target1, ig1, ho1, hk1, _⟩ := hent e1 he1
  obtain ⟨m2, hm2, nn2, target2, ig2, _, hk2, _⟩ := hent e2 he2
  obtain ⟨⟨x, hx, hxn⟩, hcaret⟩ := target_names_inner (GetOpTypeMatches_found hm1) ho1
  have hgood2 := hnames m2.node (GetOpTypeMatches_found hm2).root_mem
  have hv : NodeNameFromInput e1.2 = x.name := by
    rcases hk1 with rfl | rfl
    · exact hxn.symm
    · exact hcaret.trans hxn.symm
  have hk : NodeNameFromInput e2.1 = m2.node.name := by
    rcases hk2 with rfl | rfl
    · exact NodeNameFromInput_of_good hgood2
    · exact (NodeNameFromInput_caret hgood2.2).trans (NodeNameFromInput_of_good hgood2)
  have hname : x.name = m2.node.name := by rw [← hv, heq, hk]
  have hmeq : m1 = m2 :=
    pairwise_disjoint_eq (GetOpTypeMatches_disjoint g t.pattern) hm1 hm2
      (show x ∈ m1.allNodes from by
        rw [allNodes_eq]
        exact List.mem_cons_of_mem _ hx)
      (node_mem_allNodes m2) hname
  subst hmeq
  exact hroot m1 hm1 x hx hname

mutual
/-- In a graph whose data edges run from lower to higher rank, every node bound
below the root of a match has a lower rank than the root. -/
theorem DoesOpTypeMatch_rank (g : GraphDef) (rank : Str → Nat) (hrank : DataflowRank g rank)
    (prev : List Str) (node : NodeDef) (hnode : node ∈ g) :
    ∀ (p : OpTypePattern) (m : NodeMatch), DoesOpTypeMatch g prev node p = some m →
      ∀ n ∈ allNodesList m.inputs, rank n.name < rank node.name
  | .mk op inputs, m, h => by
    unfold DoesOpTypeMatch at h
    split_ifs at h with h1 h2 h3 h4
    · cases h
      simp [NodeMatch.inputs]
    · simp only [Option.map_eq_some'] at h
      obtain ⟨ms, hms, rfl⟩ := h
      exact matchInputs_rank g rank hrank prev (rank node.name) (nonControlInputs node) inputs ms
        (fun r hr x hx => hrank node hnode r hr x hx) hms
theorem matchInputs_rank (g : GraphDef) (rank : Str → Nat) (hrank : DataflowRank g rank)
    (prev : List Str) (k : Nat) :
    ∀ (rs : List Str) (ps : List OpTypePattern) (ms : List NodeMatch),
      (∀ r ∈ rs, ∀ x, nodeByName g (NodeNameFromInput r) = some x → rank x.name < k) →
      matchInputs g prev rs ps = some ms →
      ∀ n ∈ allNodesList ms, rank n.name < k
  | [], _, ms, _, h => by
    unfold matchInputs at h
    cases h; simp
  | _ :: _, [], ms, _, h => by
    unfold matchInputs at h
    cases h; simp
  | r :: rs, p :: ps, ms, hr, h => by
    unfold matchInputs at h
    split at h
    · cases h
    · next input_node hlook =>
      split at h
      · cases h
      · next m hm =>
        split at h
        · cases h
        · next ms1 hms1 =>
          cases h
          have hin := (nodeByName_some hlook).1
          have e1 := (DoesOpTypeMatch_sound g prev input_node p m hm).1
          have hlt := hr r (List.mem_cons_self _ _) input_node hlook
          have hinner := DoesOpTypeMatch_rank g rank hrank prev input_node hin p m hm
          have ih := matchInputs_rank g rank hrank prev k rs ps ms1
            (fun r hr1 => hr r (List.mem_cons_of_mem _ hr1)) hms1
          intro n hn
          simp only [allNodesList_cons, List.mem_append] at hn
          rcases hn with hn | hn
          · rw [allNodes_eq, e1, List.mem_cons] at hn
            rcases hn with rfl | hn
            · exact hlt
            · exact lt_trans (hinner n hn) hlt
          · exact ih n hn
end

/-- In a graph whose data edges form no cycle (they run from lower to higher
rank), no match binds a node named as its root below the root. -/
theorem ranked_graph_matches {g : GraphDef} {rank : Str → Nat} (hrank : DataflowRank g rank)
    (p : OpTypePattern) :
    ∀ m ∈ GetOpTypeMatches g p, ∀ n ∈ allNodesList m.inputs, n.name ≠ m.node.name := by
  intro m hm n hn hname
  obtain ⟨prev, hmatch⟩ := GetOpTypeMatches_matched hm
  have := DoesOpTypeMatch_rank g rank hrank prev m.node (GetOpTypeMatches_found hm).root_mem p m
    hmatch n hn
  rw [hname] at this
  exact lt_irrefl _ this

theorem NodeNameFromInput_canonical (s : Str) :
    NodeNameFromInput (CanonicalInputName s) = NodeNameFromInput s := by
  unfold CanonicalInputName
  split_ifs with h
  · have hall : ∀ c ∈ s, (fun c => decide (c ≠ ':')) c = true := by
      rw [List.dropWhile_eq_nil_iff] at h
      exact h
    unfold NodeNameFromInput
    rw [List.takeWhile_append_of_pos hall, List.takeWhile_eq_self_iff.mpr hall]
    simp
  · rfl

/-- C22: for each transform and every run on a graph whose node names are well
formed (no `:` inside, no leading `^`) and in which no match binds a node named
as its root below the root, which holds in every graph whose data edges form no
cycle (`ranked_graph_matches`): the base name of no value of `inputs_to_rename`
is the base name of a key, and the map sends no reference to the node of a value
anywhere: resolving a reference takes one hop. -/
theorem rename_targets_are_not_rename_keys (t : Transform) (g : GraphDef)
    (ctx : TransformFuncContext) (r : TransformRun) (hrun : t.run g ctx = some r)
    (hnames : ∀ n ∈ g, GoodName n.name)
    (hroot : ∀ m ∈ GetOpTypeMatches g t.pattern, ∀ n ∈ allNodesList m.inputs,
      n.name ≠ m.node.name) :
    (∀ e1 ∈ r.inputs_to_rename, ∀ e2 ∈ r.inputs_to_rename,
      NodeNameFromInput e1.2 ≠ NodeNameFromInput e2.1) ∧
    (∀ e ∈ r.inputs_to_rename, ∀ ref : Str,
      NodeNameFromInput ref = NodeNameFromInput e.2 →
        renameTarget r.inputs_to_rename ref = none) := by
  have key := target_base_is_no_key_base hrun hnames hroot
  refine ⟨key, ?_⟩
  intro e he ref href
  unfold renameTarget
  rw [Option.map_eq_none', List.find?_eq_none]
  intro k hk
  simp only [decide_eq_true_eq]
  intro hc
  apply key e he k hk
  rw [← href, ← NodeNameFromInput_canonical ref, ← hc, NodeNameFromInput_canonical]

/-- Witness of `rename_targets_are_not_rename_keys`: the run of
`FoldTransposedPads` on the two chains of `exTwoChainGraph`. -/
theorem rename_targets_are_not_rename_keys_witness :
    (∀ e1 ∈ [((['^', 'T', '2', 'b'] : Str), (['^', 'P', 'b'] : Str)),
          (['T', '2', 'b'], ['P', 'b']), (['^', 'T', '2'], ['^', 'P']), (['T', '2'], ['P'])],
      ∀ e2 ∈ [((['^', 'T', '2', 'b'] : Str), (['^', 'P', 'b'] : Str)),
          (['T', '2', 'b'], ['P', 'b']), (['^', 'T', '2'], ['^', 'P']), (['T', '2'], ['P'])],
      NodeNameFromInput e1.2 ≠ NodeNameFromInput e2.1) ∧
    (∀ e ∈ [((['^', 'T', '2', 'b'] : Str), (['^', 'P', 'b'] : Str)),
          (['T', '2', 'b'], ['P', 'b']), (['^', 'T', '2'], ['^', 'P']), (['T', '2'], ['P'])],
      ∀ ref : Str, NodeNameFromInput ref = NodeNameFromInput e.2 →
        renameTarget [((['^', 'T', '2', 'b'] : Str), (['^', 'P', 'b'] : Str)),
          (['T', '2', 'b'], ['P', 'b']), (['^', 'T', '2'], ['^', 'P']), (['T', '2'], ['P'])]
          ref = none) :=
  rename_targets_are_not_rename_keys .foldTransposedPads exTwoChainGraph ⟨[], []⟩
    ⟨[foldNewPaddingsNode exFoldPaddings exFoldNewPaddings,
        foldNewPadNode exFoldPad exX exFoldPaddings, exX, exFoldT1, exFoldPerm1,
        { exFoldY with input := [['P'], ['^', 'P']] },
        foldNewPaddingsNode exChainPaddings
          ⟨.DT_INT32, [4, 2], [10, 11, 30, 31, 40, 41, 20, 21]⟩,
        foldNewPadNode exChainPad exX2 exChainPaddings, exX2, exChainT1, exChainPerm1],
      [(['^', 'T', '2', 'b'], ['^', 'P', 'b']), (['T', '2', 'b'], ['P', 'b']),
        (['^', 'T', '2'], ['^', 'P']), (['T', '2'], ['P'])], []⟩
    (by decide) (by decide)
    (by
      rw [show GetOpTypeMatches exTwoChainGraph Transform.foldTransposedPads.pattern =
        [exFoldMatch, exChainMatch] from rfl]
      decide)

/-! ## C23: the constants of `SwapTransMulAdd` -/

theorem index_lt_mul {n k i j : Nat} (hi : i < n) (hj : j < k) : i * k + j < n * k := by
  calc i * k + j < i * k + k := by omega
    _ = (i + 1) * k := by ring
    _ ≤ n * k := Nat.mul_le_mul_right k hi

/-- Length of the concatenation of `n` blocks of length `k`. -/
theorem flatMap_range_length {α : Type} (k : Nat) (f : Nat → List α) :
    ∀ n : Nat, (∀ i < n, (f i).length = k) → ((List.range n).flatMap f).length = n * k
  | 0, _ => by simp
  | n + 1, hf => by
    rw [List.range_succ, List.flatMap_append, List.length_append, List.flatMap_singleton,
      flatMap_range_length k f n (fun i hi => hf i (by omega)), hf n (by omega)]
    ring

/-- Entry `i * k + j` of the concatenation of `n` blocks of length `k` is entry
`j` of block `i`. -/
theorem flatMap_range_getElem? {α : Type} (k : Nat) (f : Nat → List α) :
    ∀ n : Nat, (∀ i < n, (f i).length = k) → ∀ i j : Nat, i < n → j < k →
      ((List.range n).flatMap f)[i * k + j]? = (f i)[j]?
  | 0, _, i, _, hi, _ => by omega
  | n + 1, hf, i, j, hi, hj => by
    have hlen := flatMap_range_length k f n (fun i hi => hf i (by omega))
    rw [List.range_succ, List.flatMap_append, List.flatMap_singleton]
    by_cases hin : i < n
    · rw [List.getElem?_append_left (by rw [hlen]; exact index_lt_mul hin hj)]
      exact flatMap_range_getElem? k f n (fun i hi => hf i (by omega)) i j hin hj
    · have hi2 : i = n := by omega
      subst hi2
      rw [List.getElem?_append_right (by rw [hlen]; omega), hlen]
      congr 1
      omega

/-- The concatenation of `n` blocks of length `k`, block `i` listing
`h (i * k + j)` for `j < k`, lists `h` over `n * k`. -/
theorem flatMap_range_eq_map {α : Type} (k : Nat) (G : Nat → List α) (h : Nat → α) :
    ∀ n : Nat, (∀ i < n, G i = (List.range k).map (fun j => h (i * k + j))) →
      (List.range n).flatMap G = (List.range (n * k)).map h
  | 0, _ => by simp
  | n + 1, hG => by
    rw [List.range_succ, List.flatMap_append, List.flatMap_singleton,
      flatMap_range_eq_map k G h n (fun i hi => hG i (by omega)), hG n (by omega),
      show (n + 1) * k = n * k + k from by ring, List.range_add, List.map_append,
      List.map_map]
    rfl

theorem map_getD_range (vals : List Int) :
    (List.range vals.length).map (fun i => vals.getD i 0) = vals := by
  apply List.ext_getElem?
  intro n
  rw [List.getElem?_map]
  by_cases hn : n < vals.length
  · rw [List.getElem?_range hn, Option.map_some', List.getD_eq_getElem?_getD,
      List.getElem?_eq_getElem hn]
    rfl
  · rw [List.getElem?_eq_none (by simpa using hn), List.getElem?_eq_none (by omega)]
    rfl

/-- Entries of the shuffled scalars: the entry at the row-major position of
`[a, b, c, d]` in shape `(d0, d2, d3, d1)` is the entry of the source at the
row-major position of `[a, d, b, c]` in shape `(d0, d1, d2, d3)`. -/
theorem shuffle0231_getElem? (d0 d1 d2 d3 : Nat) (vals : List Int) {a b c d : Nat}
    (ha : a < d0) (hb : b < d2) (hc : c < d3) (hd : d < d1) :
    (shuffle0231 d0 d1 d2 d3 vals)[((a * d2 + b) * d3 + c) * d1 + d]? =
      some (vals.getD (((a * d1 + d) * d2 + b) * d3 + c) 0) := by
  have hidx : ((a * d2 + b) * d3 + c) * d1 + d =
      a * (d2 * (d3 * d1)) + (b * (d3 * d1) + (c * d1 + d)) := by ring
  unfold shuffle0231
  rw [hidx, flatMap_range_getElem? (d2 * (d3 * d1)) _ d0
      (fun i _ => flatMap_range_length (d3 * d1) _ d2
        (fun j _ => flatMap_range_length d1 _ d3 (fun k _ => by simp)))
      a _ ha (index_lt_mul hb (index_lt_mul hc hd)),
    flatMap_range_getElem? (d3 * d1) _ d2
      (fun j _ => flatMap_range_length d1 _ d3 (fun k _ => by simp))
      b _ hb (index_lt_mul hc hd),
    flatMap_range_getElem? d1 _ d3 (fun k _ => by simp) c d hc hd,
    List.getElem?_map, List.getElem?_range hd]
  rfl

theorem shuffle0231_length (d0 d1 d2 d3 : Nat) (vals : List Int) :
    (shuffle0231 d0 d1 d2 d3 vals).length = d0 * (d2 * (d3 * d1)) :=
  flatMap_range_length (d2 * (d3 * d1)) _ d0
    (fun i _ => flatMap_range_length (d3 * d1) _ d2
      (fun j _ => flatMap_range_length d1 _ d3 (fun k _ => by simp)))

/-- Transposing the shuffled scalars with the permutation `[0, 3, 1, 2]` gives
the source back. -/
theorem transpose0312_shuffle0231 (d0 d1 d2 d3 : Nat) (vals : List Int)
    (hlen : vals.length = d0 * d1 * d2 * d3) :
    transpose0312 d0 d2 d3 d1 (shuffle0231 d0 d1 d2 d3 vals) = vals := by
  have hlen1 : d0 * (d1 * (d2 * d3)) = vals.length := by rw [hlen]; ring
  unfold transpose0312
  rw [flatMap_range_eq_map (d1 * (d2 * d3)) _ (fun x => vals.getD x 0) d0, hlen1,
    map_getD_range]
  intro i hi
  refine flatMap_range_eq_map (d2 * d3) _
    (fun x => vals.getD (i * (d1 * (d2 * d3)) + x) 0) d1 ?_
  intro j hj
  refine flatMap_range_eq_map d3 _
    (fun x => vals.getD (i * (d1 * (d2 * d3)) + (j * (d2 * d3) + x)) 0) d2 ?_
  intro k hk
  apply List.map_congr_left
  intro l hl
  rw [List.mem_range] at hl
  rw [List.getD_eq_getElem?_getD, shuffle0231_getElem? d0 d1 d2 d3 vals hi hk hl hj]
  show vals.getD _ 0 = vals.getD _ 0
  congr 1
  ring

theorem tensor4_some {w : Tensor} {d0 d1 d2 d3 : Nat} {wv : List Int}
    (h : w.tensor4 = some (d0, d1, d2, d3, wv)) :
    w.dtype = .DT_FLOAT ∧ w.shape = [d0, d1, d2, d3] ∧ wv = w.vals := by
  unfold Tensor.tensor4 at h
  split_ifs at h with hd
  split at h
  · next e0 e1 e2 e3 hs =>
    simp only [Option.some.injEq, Prod.mk.injEq] at h
    obtain ⟨rfl, rfl, rfl, rfl, rfl⟩ := h
    exact ⟨hd, hs, rfl⟩
  · cases h

theorem GetNodeTensorAttr_length {node : NodeDef} {key : Str} {w : Tensor}
    (h : GetNodeTensorAttr node key = some w) : w.vals.length = w.shape.prod := by
  unfold GetNodeTensorAttr at h
  split at h
  · split_ifs at h with hl
    cases h
    exact hl
  · cases h

/-- The constant that `SwapTransMulAdd` builds from a 4-D float constant is
that constant moved to the layout before the transpose. -/
theorem shuffled_is_permuted {node : NodeDef} {w : Tensor} {d0 d1 d2 d3 : Nat}
    {wv : List Int} (hw : GetNodeTensorAttr node "value".data = some w)
    (h4 : w.tensor4 = some (d0, d1, d2, d3, wv)) :
    IsPermutedConstant node (mulAddConstNode node (shuffledTensor d0 d1 d2 d3 wv)) w := by
  obtain ⟨hdt, hshape, rfl⟩ := tensor4_some h4
  have hlen : w.vals.length = d0 * d1 * d2 * d3 := by
    rw [GetNodeTensorAttr_length hw, hshape]
    simp only [List.prod_cons, List.prod_nil]
    ring
  refine ⟨d0, d1, d2, d3, shuffledTensor d0 d1 d2 d3 w.vals, hshape, rfl, rfl, ?_, rfl, ?_, ?_⟩
  · simp only [mulAddConstNode, SetNodeTensorAttr, SetNodeAttr]
    exact attrFind_attrSet_same _ _ _
  · intro a b c d ha hb hc hd
    have hidx : ((a * d1 + d) * d2 + b) * d3 + c < w.vals.length := by
      rw [hlen]
      exact index_lt_mul (index_lt_mul (index_lt_mul ha hd) hb) hc
    have hl : (shuffledTensor d0 d1 d2 d3 w.vals).at4 a b c d =
        some (w.vals.getD (((a * d1 + d) * d2 + b) * d3 + c) 0) := by
      simp only [Tensor.at4, shuffledTensor]
      exact shuffle0231_getElem? d0 d1 d2 d3 w.vals ha hb hc hd
    have hr : w.at4 a d b c = some (w.vals.getD (((a * d1 + d) * d2 + b) * d3 + c) 0) := by
      simp only [Tensor.at4, hshape]
      rw [List.getD_eq_getElem?_getD, List.getElem?_eq_getElem hidx]
      rfl
    rw [hl, hr]
    exact ⟨rfl, rfl⟩
  · simp only [Tensor.transpose0312, shuffledTensor,
      transpose0312_shuffle0231 d0 d1 d2 d3 w.vals hlen]
    cases w
    simp only [Tensor.mk.injEq] at hdt hshape ⊢
    exact ⟨hdt.symm, hshape.symm, trivial⟩

/-- The constants in the list the callback of `SwapTransMulAdd` returns for a
match it accepts: the second and the fourth node are the weights and the bias
constant, rebuilt with the shuffled scalars of the values read. -/
theorem accepted_muladd_constants {required_nodes : List Str} {m : NodeMatch}
    {new_nodes : List NodeDef} {target : Str}
    (h : Accepts (SwapTransMulAddCallback required_nodes) m new_nodes target) :
    ∃ bias_match mul_match weights_match weights bias w0 w1 w2 w3 wv b0 b1 b2 b3 bv,
      m.inputs[1]? = some bias_match ∧ m.inputs[0]? = some mul_match ∧
      mul_match.inputs[1]? = some weights_match ∧
      GetNodeTensorAttr weights_match.node "value".data = some weights ∧
      weights.tensor4 = some (w0, w1, w2, w3, wv) ∧
      GetNodeTensorAttr bias_match.node "value".data = some bias ∧
      bias.tensor4 = some (b0, b1, b2, b3, bv) ∧
      new_nodes[1]? =
        some (mulAddConstNode weights_match.node (shuffledTensor w0 w1 w2 w3 wv)) ∧
      new_nodes[3]? =
        some (mulAddConstNode bias_match.node (shuffledTensor b0 b1 b2 b3 bv)) := by
  obtain ⟨st1, hcall, hmem⟩ := h
  simp only [SwapTransMulAddCallback] at hcall
  split at hcall
  swap
  · cases hcall
  next bias_match mul_match a1 a2 =>
  split at hcall
  swap
  · cases hcall
  next weights_match transpose_match a3 a4 =>
  split at hcall
  swap
  · cases hcall
  next perm_match input_match a5 a6 =>
  by_cases hr : ∃ node ∈ [m.node, bias_match.node, mul_match.node, weights_match.node,
      transpose_match.node, perm_match.node], node.name ∈ required_nodes
  · simp only [if_pos hr, CopyOriginalMatch_nil, Option.some.injEq, Prod.mk.injEq] at hcall
    rw [← hcall.2] at hmem
    cases hmem
  simp only [if_neg hr] at hcall
  split at hcall
  swap
  · cases hcall
  next perm weights bias c1 c2 c3 =>
  split at hcall
  swap
  · cases hcall
  next perm_vector w0 w1 w2 w3 wv b0 b1 b2 b3 bv e1 e2 e3 =>
  split at hcall
  · cases hcall
  · simp only [CopyOriginalMatch_nil, Option.some.injEq, Prod.mk.injEq] at hcall
    rw [← hcall.2] at hmem
    cases hmem
  · cases hadd : (if (attrFind m.node.attr "fused_activation_function".data).isSome then
        CopyNodeAttr m.node "fused_activation_function".data "fused_activation_function".data
          { NodeDef.empty with op := "AddV2".data, name := m.node.name }
      else some { NodeDef.empty with op := "AddV2".data, name := m.node.name }) with
    | none =>
      simp only [hadd] at hcall
      cases hcall
    | some new_add =>
      simp only [hadd, Option.some.injEq, Prod.mk.injEq] at hcall
      refine ⟨bias_match, mul_match, weights_match, weights, bias, w0, w1, w2, w3, wv,
        b0, b1, b2, b3, bv, a1, a2, a3, c2, e2, c3, e3, ?_, ?_⟩
      · rw [← hcall.1]
        rfl
      · rw [← hcall.1]
        rfl

/-- C23: for every match that the callback of `SwapTransMulAdd` accepts, with
the weights constant of value `w` and the bias constant of value `b` (4-D float
tensors): the second and the fourth node of the list the callback returns are
the replacement constants; each keeps the name of the constant it replaces, and
for the old shape `(d0, d1, d2, d3)` its value has the shape `(d0, d2, d3, d1)`,
its entry `[a, b, c, d]` is the entry `[a, d, b, c]` of the old value for all
in-range indices, and its transpose with the permutation `[0, 3, 1, 2]` is the
old value. -/
theorem constants_move_to_the_layout_before_the_transpose (required_nodes : List Str)
    (m : NodeMatch) (new_nodes : List NodeDef) (target : Str)
    (hacc : Accepts (SwapTransMulAddCallback required_nodes) m new_nodes target) :
    ∃ bias_match mul_match weights_match w b new_weights_node new_bias_node,
      m.inputs[1]? = some bias_match ∧ m.inputs[0]? = some mul_match ∧
      mul_match.inputs[1]? = some weights_match ∧
      GetNodeTensorAttr weights_match.node "value".data = some w ∧
      GetNodeTensorAttr bias_match.node "value".data = some b ∧
      w.dtype = .DT_FLOAT ∧ b.dtype = .DT_FLOAT ∧
      new_nodes[1]? = some new_weights_node ∧ new_nodes[3]? = some new_bias_node ∧
      IsPermutedConstant weights_match.node new_weights_node w ∧
      IsPermutedConstant bias_match.node new_bias_node b := by
  obtain ⟨bias_match, mul_match, weights_match, weights, bias, w0, w1, w2, w3, wv,
    b0, b1, b2, b3, bv, a1, a2, a3, hw, hw4, hb, hb4, h1, h3⟩ := accepted_muladd_constants hacc
  exact ⟨bias_match, mul_match, weights_match, weights, bias, _, _, a1, a2, a3, hw, hb,
    (tensor4_some hw4).1, (tensor4_some hb4).1, h1, h3, shuffled_is_permuted hw hw4,
    shuffled_is_permuted hb hb4⟩

/-- Witness of `constants_move_to_the_layout_before_the_transpose`: the match of
`exMulAddGraph`, with weights of shape `(1, 2, 2, 2)` and a bias of shape
`(1, 2, 1, 1)`. -/
theorem constants_move_to_the_layout_before_the_transpose_witness :
    ∃ bias_match mul_match weights_match w b new_weights_node new_bias_node,
      exMulAddMatch.inputs[1]? = some bias_match ∧
      exMulAddMatch.inputs[0]? = some mul_match ∧
      mul_match.inputs[1]? = some weights_match ∧
      GetNodeTensorAttr weights_match.node "value".data = some w ∧
      GetNodeTensorAttr bias_match.node "value".data = some b ∧
      w.dtype = .DT_FLOAT ∧ b.dtype = .DT_FLOAT ∧
      exMulAddNewNodes[1]? = some new_weights_node ∧
      exMulAddNewNodes[3]? = some new_bias_node ∧
      IsPermutedConstant weights_match.node new_weights_node w ∧
      IsPermutedConstant bias_match.node new_bias_node b :=
  constants_move_to_the_layout_before_the_transpose [['Y']] exMulAddMatch exMulAddNewNodes
    ['T', '1']
    ⟨⟨[(['^', 'A'], ['^', 'T', '1']), (['A'], ['T', '1'])], [['T', '1']]⟩, by decide,
      by decide⟩

/-! ## Nodes that reach the renamer -/

/-- The list a callback returns for a match does not depend on the side tables. -/
theorem callback_nodes_eq {t : Transform} {required_nodes : List Str} {m : NodeMatch}
    {o : Outcome} (ho : OutcomeOK t required_nodes m o) {s s1 s2 s3 : RewriteState}
    {nn nn1 : List NodeDef} (h1 : t.callback required_nodes m s = some (nn, s1))
    (h2 : t.callback required_nodes m s2 = some (nn1, s3)) : nn = nn1 := by
  have a1 := ho.agrees s
  have a2 := ho.agrees s2
  rw [h1] at a1
  rw [h2] at a2
  cases o with
  | crash => simp [Outcome.apply] at a1
  | skip =>
    simp only [Outcome.apply, Option.some.injEq, Prod.mk.injEq] at a1 a2
    rw [a1.1, a2.1]
  | rewrite nn2 rn ig =>
    simp only [Outcome.apply, Option.some.injEq, Prod.mk.injEq] at a1 a2
    rw [a1.1, a2.1]

/-- The list a callback returns for a match of the graph, whatever the side
tables it is called with, is part of the rebuilt graph: each of its nodes, passed
through the renamer, is a node of the output. -/
theorem fragment_in_output {t : Transform} {g : GraphDef} {ctx : TransformFuncContext}
    {r : TransformRun} (hrun : t.run g ctx = some r) {m : NodeMatch}
    (hm : m ∈ GetOpTypeMatches g t.pattern) {st st1 : RewriteState} {nn : List NodeDef}
    (hcall : t.callback (requiredNodes ctx) m st = some (nn, st1)) :
    ∀ n ∈ nn, renameNode r.inputs_to_rename r.nodes_to_ignore n ∈ r.output_graph_def := by
  obtain ⟨replaced, st0, hre, hout, _, _⟩ := run_spec hrun
  have hfound := GetOpTypeMatches_found hm
  obtain ⟨o, ho⟩ := callback_outcome t g (requiredNodes ctx) m hfound
  obtain ⟨s, s1, nn1, hgen, hsub⟩ := rebuildNodes_fragment _ _ g _ _ _ hre m.node
    hfound.root_mem m (find_head (GetOpTypeMatches_disjoint g t.pattern) hm)
  have heq := callback_nodes_eq ho hcall hgen
  subst heq
  intro n hn
  rw [hout]
  exact List.mem_map_of_mem _ (hsub n hn)

/-- The output graph of a run consists of the nodes handed to the renamer, each
passed through the renamer. -/
theorem output_of_kept_nodes {t : Transform} {g : GraphDef} {ctx : TransformFuncContext}
    {r : TransformRun} (hrun : t.run g ctx = some r) (A1 : NodeDef) :
    A1 ∈ r.output_graph_def ↔
      ∃ A, ReachesRenamer t g ctx A ∧
        A1 = renameNode r.inputs_to_rename r.nodes_to_ignore A := by
  constructor
  · intro h
    obtain ⟨replaced, hout, hmem, _⟩ := run_entries hrun
    rw [hout, List.mem_map] at h
    obtain ⟨A, hA, rfl⟩ := h
    refine ⟨A, ?_, rfl⟩
    rcases hmem A hA with h1 | ⟨m, hm, s, s1, nn, hgen, hin⟩
    · exact Or.inl h1
    · exact Or.inr ⟨m, hm, s, nn, s1, hgen, hin⟩
  · rintro ⟨A, hA, rfl⟩
    rcases hA with ⟨hAg, hfree⟩ | ⟨m, hm, st, nn, st1, hcall, hAn⟩
    · obtain ⟨replaced, st, hre, hout, _, _⟩ := run_spec hrun
      rw [hout]
      exact List.mem_map_of_mem _ (rebuildNodes_copy _ _ g _ _ _ hre A hAg hfree)
    · exact fragment_in_output hrun hm hcall A hAn

/-- After a run on a graph with well-formed node names, the rename map sends the
key of each of its entries to the value of that entry: no two entries stand for
the same reference. -/
theorem run_entry_target {t : Transform} {g : GraphDef} {ctx : TransformFuncContext}
    {r : TransformRun} (hrun : t.run g ctx = some r) (hnames : ∀ n ∈ g, GoodName n.name)
    {e : Str × Str} (he : e ∈ r.inputs_to_rename) :
    renameTarget r.inputs_to_rename e.1 = some e.2 := by
  obtain ⟨_, _, _, hent⟩ := run_entries hrun
  have hd := GetOpTypeMatches_disjoint g t.pattern
  refine renameTarget_of_unique ⟨e, he, rfl⟩ ?_
  intro e1 he1 hc
  obtain ⟨m, hm, nn, target, ig, ho, hk, _⟩ := hent e he
  obtain ⟨m1, hm1, nn1, target1, ig1, ho1, hk1, _⟩ := hent e1 he1
  have hgood := hnames m.node (GetOpTypeMatches_found hm).root_mem
  have hgood1 := hnames m1.node (GetOpTypeMatches_found hm1).root_mem
  have hcar : ∀ {s : Str}, GoodName s → CanonicalInputName ('^' :: s) = ('^' :: s) ++ [':', '0'] :=
    fun {s} hs => CanonicalInputName_good (s := '^' :: s) (by simpa using hs.1)
  have hsame : m1 = m → target1 = target := by
    intro heq
    subst heq
    have hacc : Accepts (t.callback (requiredNodes ctx)) m1 nn1 target1 :=
      ⟨_, ho1.agrees ⟨[], []⟩, by cases ig1 <;> exact addRename_mem _ _ _⟩
    obtain ⟨ig2, h2⟩ := outcome_of_accepts ho hacc
    cases h2
    rfl
  rcases hk with rfl | rfl <;> rcases hk1 with rfl | rfl
  · rw [CanonicalInputName_good hgood.1, CanonicalInputName_good hgood1.1] at hc
    have hname : m1.node.name = m.node.name := List.append_cancel_right hc
    exact hsame (pairwise_disjoint_eq hd hm1 hm (node_mem_allNodes m1) (node_mem_allNodes m) hname)
  · exfalso
    rw [CanonicalInputName_good hgood.1, hcar hgood1] at hc
    have hname : '^' :: m1.node.name = m.node.name := List.append_cancel_right hc
    apply hgood.2
    rw [← hname]
    rfl
  · exfalso
    rw [hcar hgood, CanonicalInputName_good hgood1.1] at hc
    have hname : m1.node.name = '^' :: m.node.name := List.append_cancel_right hc
    apply hgood1.2
    rw [hname]
    rfl
  · rw [hcar hgood, hcar hgood1] at hc
    have hname : m1.node.name = m.node.name := by
      have := List.append_cancel_right hc
      exact (List.cons.inj this).2
    have := hsame
      (pairwise_disjoint_eq hd hm1 hm (node_mem_allNodes m1) (node_mem_allNodes m) hname)
    show '^' :: target1 = '^' :: target
    rw [this]

/-! ## C6: control-edge propagation -/

/-- C6, as stated, fails, in two ways.  (1) `SwapTransRelu` on `exTwoReluGraph`
renames `R` to `T` (`inputs_to_rename[R] = T`), the transpose `T2` is a node of
the input and of the output graph and has the control input `^R` in the input
graph, and in the output graph that input is still the stale `^R`: `T2` is in
`nodes_to_ignore`, so the renamer leaves all of its inputs alone.
(2) `FoldTransposedPads` on `exTwoChainGraph` renames `T2` to `P`, the pad `Pb`
is a node of the input and of the output graph and has the control input `^T2`
in the input graph, and the node `Pb` of the output graph has the two inputs
`X2` and `padsb` only: the callback builds the new pad from scratch, and the
control input is gone before the renamer runs. -/
theorem control_edge_stale_or_dropped :
    (SwapTransRelu exTwoReluGraph ⟨[], []⟩ =
      some ⟨[exX, { exR with input := [['X']] }, exP, { exT with input := [['R'], ['p']] },
          exX2, { exR2 with input := [['X', '2']] }, exP2,
          { exT2 with input := [['R', '2'], ['p', '2'], ['^', 'R']] }],
        [(['^', 'R', '2'], ['^', 'T', '2']), (['R', '2'], ['T', '2']),
          (['^', 'R'], ['^', 'T']), (['R'], ['T'])],
        [['T', '2'], ['T']]⟩ ∧
      exT2.input[2]? = some ['^', 'R'] ∧
      renameTarget [(['^', 'R', '2'], ['^', 'T', '2']), (['R', '2'], ['T', '2']),
          (['^', 'R'], ['^', 'T']), (['R'], ['T'])] ['R'] = some ['T']) ∧
    (exChainPad ∈ exTwoChainGraph ∧ exChainPad.input[2]? = some ['^', 'T', '2'] ∧
      (FoldTransposedPads exTwoChainGraph ⟨[], []⟩).map
          (fun r => (r.inputs_to_rename, r.nodes_to_ignore,
            (r.output_graph_def.filter (fun n => n.name = exChainPad.name)).map
              NodeDef.input)) =
        some ([(['^', 'T', '2', 'b'], ['^', 'P', 'b']), (['T', '2', 'b'], ['P', 'b']),
            (['^', 'T', '2'], ['^', 'P']), (['T', '2'], ['P'])], [],
          [[['X', '2'], ['p', 'a', 'd', 's', 'b']]])) := by
  refine ⟨⟨by decide, by decide, by decide⟩, by decide, by decide, by decide⟩

/-- C6, amended: for each transform and every run on a graph with well-formed
node names.  Every node `A1` of the output graph is what the renamer makes of a
node `A` handed to it (a node of the input graph that no match consumes, or a
node of the list a callback returns for a match), with the name and the number
of inputs of `A`; and every node handed to the renamer gives such an output
node.  If the name of `A` is not in the exclusion set `nodes_to_ignore`, then
wherever `A` has the control input `^B` and the rename map has the entry
`inputs_to_rename[B] = C`, that input of `A1` is `^C`: not the data reference
`C`, and not the stale `^B` unless `C` is `B`.  And `C` is never `B` when no
match binds a node named as its root again below the root. -/
theorem control_edge_propagation (t : Transform) (g : GraphDef)
    (ctx : TransformFuncContext) (r : TransformRun) (hrun : t.run g ctx = some r)
    (hnames : ∀ n ∈ g, GoodName n.name) :
    (∀ A1 ∈ r.output_graph_def, ∃ A, ReachesRenamer t g ctx A ∧ A1.name = A.name ∧
        A1.input.length = A.input.length ∧
        (A.name ∉ r.nodes_to_ignore → ∀ (i : Nat) (B C : Str),
          A.input[i]? = some ('^' :: B) → (B, C) ∈ r.inputs_to_rename →
          A1.input[i]? = some ('^' :: C) ∧ A1.input[i]? ≠ some C ∧
            (C ≠ B → A1.input[i]? ≠ some ('^' :: B)))) ∧
      (∀ A, ReachesRenamer t g ctx A → ∃ A1 ∈ r.output_graph_def, A1.name = A.name ∧
        A1.input.length = A.input.length ∧
        (A.name ∉ r.nodes_to_ignore → ∀ (i : Nat) (B C : Str),
          A.input[i]? = some ('^' :: B) → (B, C) ∈ r.inputs_to_rename →
          A1.input[i]? = some ('^' :: C) ∧ A1.input[i]? ≠ some C ∧
            (C ≠ B → A1.input[i]? ≠ some ('^' :: B)))) ∧
      ((∀ m ∈ GetOpTypeMatches g t.pattern, ∀ n ∈ allNodesList m.inputs,
          n.name ≠ m.node.name) →
        ∀ e ∈ r.inputs_to_rename, e.2 ≠ e.1) := by
  have key : ∀ A : NodeDef,
      (renameNode r.inputs_to_rename r.nodes_to_ignore A).name = A.name ∧
      (renameNode r.inputs_to_rename r.nodes_to_ignore A).input.length = A.input.length ∧
      (A.name ∉ r.nodes_to_ignore → ∀ (i : Nat) (B C : Str),
        A.input[i]? = some ('^' :: B) → (B, C) ∈ r.inputs_to_rename →
        (renameNode r.inputs_to_rename r.nodes_to_ignore A).input[i]? = some ('^' :: C) ∧
          (renameNode r.inputs_to_rename r.nodes_to_ignore A).input[i]? ≠ some C ∧
          (C ≠ B →
            (renameNode r.inputs_to_rename r.nodes_to_ignore A).input[i]? ≠
              some ('^' :: B))) := by
    intro A
    refine ⟨(renameNode_name _ _ A).1, ?_, ?_⟩
    · unfold renameNode
      split_ifs
      · rfl
      · simp
    · intro hign i B C hi hBC
      have htarget : renameTarget r.inputs_to_rename B = some C :=
        run_entry_target hrun hnames hBC
      have hval : (renameNode r.inputs_to_rename r.nodes_to_ignore A).input[i]? =
          some ('^' :: C) := by
        simp only [renameNode, hign, if_false, List.getElem?_map, hi, Option.map_some']
        simp [renameInput, htarget]
      rw [hval]
      refine ⟨rfl, ?_, ?_⟩
      · intro h
        have := congrArg List.length (Option.some.inj h)
        simp at this
      · intro hne h
        exact hne (List.cons.inj (Option.some.inj h)).2
  refine ⟨?_, ?_, ?_⟩
  · intro A1 hA1
    obtain ⟨A, hA, rfl⟩ := (output_of_kept_nodes hrun A1).mp hA1
    exact ⟨A, hA, key A⟩
  · intro A hA
    exact ⟨_, (output_of_kept_nodes hrun _).mpr ⟨A, hA, rfl⟩, key A⟩
  · intro hroot e he heq
    have := target_base_is_no_key_base hrun hnames hroot e he e he
    rw [heq] at this
    exact this rfl

/-- Witness of `control_edge_propagation`: the run of `FoldTransposedPads` on
`exFoldGraph`, where `Y` reads the second transpose `T2` and waits for it (`^T2`);
`T2` is renamed to the pad `P`, and `Y` waits for `P` in the output. -/
theorem control_edge_propagation_witness :
    Transform.foldTransposedPads.run exFoldGraph ⟨[], [['Y']]⟩ = some exFoldRun ∧
      (∀ n ∈ exFoldGraph, GoodName n.name) ∧
      (∀ A1 ∈ exFoldRun.output_graph_def,
        ∃ A, ReachesRenamer .foldTransposedPads exFoldGraph ⟨[], [['Y']]⟩ A ∧
          A1.name = A.name ∧ A1.input.length = A.input.length ∧
          (A.name ∉ exFoldRun.nodes_to_ignore → ∀ (i : Nat) (B C : Str),
            A.input[i]? = some ('^' :: B) → (B, C) ∈ exFoldRun.inputs_to_rename →
            A1.input[i]? = some ('^' :: C) ∧ A1.input[i]? ≠ some C ∧
              (C ≠ B → A1.input[i]? ≠ some ('^' :: B)))) ∧
      (∀ A, ReachesRenamer .foldTransposedPads exFoldGraph ⟨[], [['Y']]⟩ A →
        ∃ A1 ∈ exFoldRun.output_graph_def, A1.name = A.name ∧
          A1.input.length = A.input.length ∧
          (A.name ∉ exFoldRun.nodes_to_ignore → ∀ (i : Nat) (B C : Str),
            A.input[i]? = some ('^' :: B) → (B, C) ∈ exFoldRun.inputs_to_rename →
            A1.input[i]? = some ('^' :: C) ∧ A1.input[i]? ≠ some C ∧
              (C ≠ B → A1.input[i]? ≠ some ('^' :: B)))) ∧
      ((∀ m ∈ GetOpTypeMatches exFoldGraph Transform.foldTransposedPads.pattern,
          ∀ n ∈ allNodesList m.inputs, n.name ≠ m.node.name) →
        ∀ e ∈ exFoldRun.inputs_to_rename, e.2 ≠ e.1) :=
  ⟨by decide, by decide,
    control_edge_propagation .foldTransposedPads exFoldGraph ⟨[], [['Y']]⟩ exFoldRun
      (by decide) (by decide)⟩

/-! ## C10: split elision -/

theorem mapSet_key_mem (m : List (Str × Str)) (a b : Str) :
    a ∈ (mapSet m a b).map Prod.fst := by
  unfold mapSet
  simp

theorem mapSet_key_mono {m : List (Str × Str)} {a b k : Str} (h : k ∈ m.map Prod.fst) :
    k ∈ (mapSet m a b).map Prod.fst := by
  unfold mapSet
  rw [List.mem_map] at h ⊢
  obtain ⟨e, he, rfl⟩ := h
  by_cases hk : e.1 = a
  · exact ⟨(a, b), List.mem_cons_self _ _, hk.symm⟩
  · exact ⟨e, List.mem_cons_of_mem _ (List.mem_filter.mpr ⟨he, by simpa using hk⟩), rfl⟩

/-- The two assignments of a renaming callback put the keys `old` and `^old`
into the rename map and remove no key. -/
theorem addRename_keys (st : RewriteState) (old target : Str) :
    old ∈ (st.addRename old target).inputs_to_rename.map Prod.fst ∧
      '^' :: old ∈ (st.addRename old target).inputs_to_rename.map Prod.fst ∧
      ∀ k ∈ st.inputs_to_rename.map Prod.fst,
        k ∈ (st.addRename old target).inputs_to_rename.map Prod.fst := by
  unfold RewriteState.addRename
  exact ⟨mapSet_key_mono (mapSet_key_mem _ _ _), mapSet_key_mem _ _ _,
    fun k hk => mapSet_key_mono (mapSet_key_mono hk)⟩

/-- A callback call removes no key of the rename map. -/
theorem callback_keys_mono {t : Transform} {required_nodes : List Str} {m : NodeMatch}
    {o : Outcome} (ho : OutcomeOK t required_nodes m o) {s s1 : RewriteState}
    {nn : List NodeDef} (hgen : t.callback required_nodes m s = some (nn, s1)) :
    ∀ k ∈ s.inputs_to_rename.map Prod.fst, k ∈ s1.inputs_to_rename.map Prod.fst := by
  have hag := ho.agrees s
  rw [hgen] at hag
  cases o with
  | crash => simp [Outcome.apply] at hag
  | skip =>
    simp only [Outcome.apply, Option.some.injEq, Prod.mk.injEq] at hag
    rw [hag.2]
    exact fun k hk => hk
  | rewrite nn1 rn ig =>
    simp only [Outcome.apply, Option.some.injEq, Prod.mk.injEq] at hag
    obtain ⟨_, rfl⟩ := hag
    intro k hk
    cases rn with
    | none => cases ig <;> exact hk
    | some target =>
      have := (addRename_keys s m.node.name target).2.2 k hk
      cases ig <;> exact this

/-- Whenever a callback returns, it either returns a node under the name of the
root of the match, or it has written the keys `root` and `^root` into the
rename map. -/
theorem root_emitted_or_renamed {t : Transform} {required_nodes : List Str} {m : NodeMatch}
    {st st1 : RewriteState} {nn : List NodeDef}
    (h : t.callback required_nodes m st = some (nn, st1)) :
    (∃ x ∈ nn, x.name = m.node.name) ∨
      (m.node.name ∈ st1.inputs_to_rename.map Prod.fst ∧
        '^' :: m.node.name ∈ st1.inputs_to_rename.map Prod.fst) := by
  have hskip : ∃ x ∈ MatchedNodesAsArray m, x.name = m.node.name :=
    ⟨m.node, root_mem_MatchedNodesAsArray m, rfl⟩
  have hren : ∀ (s : RewriteState) (target : Str),
      m.node.name ∈ (s.addRename m.node.name target).inputs_to_rename.map Prod.fst ∧
        '^' :: m.node.name ∈ (s.addRename m.node.name target).inputs_to_rename.map Prod.fst :=
    fun s target => ⟨(addRename_keys s _ target).1, (addRename_keys s _ target).2.1⟩
  cases t with
  | removeNoopSplit =>
    simp only [Transform.callback, RemoveNoopSplitCallback, CopyOriginalMatch_nil] at h
    split_ifs at h
    · simp only [Option.some.injEq, Prod.mk.injEq] at h
      obtain ⟨rfl, rfl⟩ := h
      exact Or.inl hskip
    · split at h
      · split at h
        · cases h
        · simp only [Option.some.injEq, Prod.mk.injEq] at h
          obtain ⟨rfl, rfl⟩ := h
          exact Or.inr (hren _ _)
      · simp only [Option.some.injEq, Prod.mk.injEq] at h
        obtain ⟨rfl, rfl⟩ := h
        exact Or.inl hskip
  | removeNoopPadV2 =>
    simp only [Transform.callback, RemoveNoopPadV2Callback, CopyOriginalMatch_nil] at h
    split_ifs at h
    · simp only [Option.some.injEq, Prod.mk.injEq] at h
      obtain ⟨rfl, rfl⟩ := h
      exact Or.inl hskip
    · split at h
      · cases h
      · simp only [Option.some.injEq, Prod.mk.injEq] at h
        obtain ⟨rfl, rfl⟩ := h
        exact Or.inr (hren _ _)
  | dilation2DToMaxPool2D =>
    left
    by_cases h1 : m.node.name ∈ required_nodes
    · simp only [Transform.callback, Dilation2DToMaxPool2DCallback, if_pos h1,
        CopyOriginalMatch_nil, Option.some.injEq, Prod.mk.injEq] at h
      obtain ⟨rfl, rfl⟩ := h
      exact hskip
    · simp only [Transform.callback, Dilation2DToMaxPool2DCallback, h1, if_false] at h
      split at h
      · cases h
      · next input_match h3 =>
        split at h
        · cases h
        · next mp1 h4 =>
          split at h
          · cases h
          · next mp2 h5 =>
            split at h
            · cases h
            · next mp3 h6 =>
              have hname : mp3.name = m.node.name := by
                have e1 := (CopyNodeAttr_name h4).1
                have e2 := (CopyNodeAttr_name h5).1
                have e3 : mp3.name = mp2.name := by
                  split_ifs at h6
                  · exact (CopyNodeAttr_name h6).1
                  · cases h6; rfl
                rw [e3, e2, e1]
                rfl
              simp only [Option.some.injEq, Prod.mk.injEq] at h
              obtain ⟨rfl, rfl⟩ := h
              exact ⟨_, List.mem_cons_of_mem _ (List.mem_singleton.mpr rfl), hname⟩
  | foldTransposedPads =>
    obtain ⟨_, _, _, _, _, _, _, _, _, _, _, _, hcase⟩ := FoldTransposedPadsCallback_cases h
    rcases hcase with ⟨_, rfl, _⟩ | ⟨_, _, _, _, _, _, _, _, _, _, _, _, rfl⟩
    · exact Or.inl hskip
    · exact Or.inr (hren _ _)
  | swapTransMulAdd =>
    obtain ⟨_, _, _, _, _, _, _, _, _, _, _, _, hcase⟩ := SwapTransMulAddCallback_cases h
    rcases hcase with ⟨_, rfl, _⟩ | ⟨_, _, _, _, _, _, _, _, _, _, rfl⟩
    · exact Or.inl hskip
    · exact Or.inr (hren _ _)
  | swapTransRelu =>
    obtain ⟨_, _, _, _, _, _, hcase⟩ := SwapTransReluCallback_cases h
    rcases hcase with ⟨_, rfl, _⟩ | ⟨_, _, rfl⟩
    · exact Or.inl hskip
    · exact Or.inr (hren _ _)

/-- The root of a match whose name is the name of no node of the output graph
has the keys `root` and `^root` in the rename map of the run. -/
theorem deleted_root_has_keys {t : Transform} {g : GraphDef} {ctx : TransformFuncContext}
    {r : TransformRun} (hrun : t.run g ctx = some r) {m : NodeMatch}
    (hm : m ∈ GetOpTypeMatches g t.pattern)
    (habs : ∀ n ∈ r.output_graph_def, n.name ≠ m.node.name) :
    m.node.name ∈ r.inputs_to_rename.map Prod.fst ∧
      '^' :: m.node.name ∈ r.inputs_to_rename.map Prod.fst := by
  obtain ⟨replaced, st, hre, hout, hmap, _⟩ := run_spec hrun
  rw [hmap]
  refine rebuildNodes_reaches _ _
    (fun s => m.node.name ∈ s.inputs_to_rename.map Prod.fst ∧
      '^' :: m.node.name ∈ s.inputs_to_rename.map Prod.fst) ?_ m
    (find_head (GetOpTypeMatches_disjoint g t.pattern) hm) ?_ g _ _ _
    (List.mem_map_of_mem _ (GetOpTypeMatches_found hm).root_mem) hre
  · intro m1 hm1 s nn s1 hs hgen
    obtain ⟨o, ho⟩ := callback_outcome t g (requiredNodes ctx) m1 (GetOpTypeMatches_found hm1)
    exact ⟨callback_keys_mono ho hgen _ hs.1, callback_keys_mono ho hgen _ hs.2⟩
  · intro s nn s1 hgen
    rcases root_emitted_or_renamed hgen with ⟨x, hx, hxn⟩ | h
    · exfalso
      exact habs _ (fragment_in_output hrun hm hgen x hx) ((renameNode_name _ _ x).1.trans hxn)
    · exact h

/-- C4, as stated, fails: `RemoveNoopSplit` on `exElisionGraph` deletes the nodes
`d` and `S` and records the keys `^S` and `S`; the deleted name `d` is no key,
and the key `^S` is no node name at all. -/
theorem deleted_names_differ_from_rename_keys :
    RemoveNoopSplit exElisionGraph ⟨[], [['Y']]⟩ =
      some ⟨[exX, { exY with input := [['X']] }],
        [(['^', 'S'], ['^', 'X']), (['S'], ['X'])], []⟩ ∧
      (exElisionGraph.map NodeDef.name).filter
          (fun k => k ∉ [exX, { exY with input := [['X']] }].map NodeDef.name) =
        [['d'], ['S']] ∧
      (['d'] : Str) ∉ [(['^', 'S'] : Str), ['S']] ∧
      (['^', 'S'] : Str) ∉ [(['d'] : Str), ['S']] := by
  refine ⟨by decide, by decide, by decide, by decide⟩

/-- C4, amended: for every transform, graph and context.  (a) Every node of the
input graph whose name is absent from the output graph was consumed by a match
(it is named as the root or as a node bound below the root of a match of the
pattern).  (b) Every root of a match whose name is absent from the output graph
has a rename entry: its name `S` and the control form `^S` are both keys of
`inputs_to_rename`; a node bound below a root is deleted without a key.
(c) Every key of `inputs_to_rename` is `S` or `^S` for the root `S` of a match,
a node of the input graph; and for `RemoveNoopSplit`, `RemoveNoopPadV2` and
`FoldTransposedPads`, when the match does not bind a node named `S` again below
its root, `S` names no node of the output graph. -/
theorem deleted_names_and_rename_keys (t : Transform) (g : GraphDef)
    (ctx : TransformFuncContext) (r : TransformRun) (hrun : t.run g ctx = some r) :
    (∀ n ∈ g, (∀ n1 ∈ r.output_graph_def, n1.name ≠ n.name) →
        n.name ∈ matchedNames (GetOpTypeMatches g t.pattern)) ∧
      (∀ m ∈ GetOpTypeMatches g t.pattern,
        (∀ n1 ∈ r.output_graph_def, n1.name ≠ m.node.name) →
        m.node.name ∈ r.inputs_to_rename.map Prod.fst ∧
          '^' :: m.node.name ∈ r.inputs_to_rename.map Prod.fst) ∧
      (∀ key ∈ r.inputs_to_rename.map Prod.fst, ∃ m ∈ GetOpTypeMatches g t.pattern,
        (key = m.node.name ∨ key = '^' :: m.node.name) ∧ m.node ∈ g ∧
        (t.deletesRoot = true → (∀ n ∈ allNodesList m.inputs, n.name ≠ m.node.name) →
          ∀ n ∈ r.output_graph_def, n.name ≠ m.node.name)) := by
  refine ⟨?_, fun m hm habs => deleted_root_has_keys hrun hm habs, ?_⟩
  · obtain ⟨replaced, st, hre, hout, _, _⟩ := run_spec hrun
    intro n hn habs
    by_contra hfree
    have h1 := rebuildNodes_copy _ _ g _ _ _ hre n hn hfree
    apply habs (renameNode r.inputs_to_rename r.nodes_to_ignore n)
    · rw [hout]
      exact List.mem_map_of_mem _ h1
    · exact (renameNode_name _ _ n).1
  · intro key hkey
    rw [List.mem_map] at hkey
    obtain ⟨e, he, rfl⟩ := hkey
    obtain ⟨replaced, _, _, hent⟩ := run_entries hrun
    obtain ⟨m, hm, nn, target, ig, ho, hk, _⟩ := hent e he
    refine ⟨m, hm, ?_, (GetOpTypeMatches_found hm).root_mem, ?_⟩
    · rcases hk with rfl | rfl
      · exact Or.inl rfl
      · exact Or.inr rfl
    · intro ht hroot
      exact rewritten_root_absent ht hrun hm hroot ho

/-- Witness of `deleted_names_and_rename_keys`: the split elision of
`exElisionGraph`, where `d` and `S` are deleted and the keys are `^S` and `S`. -/
theorem deleted_names_and_rename_keys_witness :
    Transform.removeNoopSplit.run exElisionGraph ⟨[], [['Y']]⟩ = some exElisionRun ∧
      (∀ n ∈ exElisionGraph, (∀ n1 ∈ exElisionRun.output_graph_def, n1.name ≠ n.name) →
        n.name ∈ matchedNames
          (GetOpTypeMatches exElisionGraph Transform.removeNoopSplit.pattern)) ∧
      (∀ m ∈ GetOpTypeMatches exElisionGraph Transform.removeNoopSplit.pattern,
        (∀ n1 ∈ exElisionRun.output_graph_def, n1.name ≠ m.node.name) →
        m.node.name ∈ exElisionRun.inputs_to_rename.map Prod.fst ∧
          '^' :: m.node.name ∈ exElisionRun.inputs_to_rename.map Prod.fst) ∧
      (∀ key ∈ exElisionRun.inputs_to_rename.map Prod.fst,
        ∃ m ∈ GetOpTypeMatches exElisionGraph Transform.removeNoopSplit.pattern,
          (key = m.node.name ∨ key = '^' :: m.node.name) ∧ m.node ∈ exElisionGraph ∧
          (Transform.removeNoopSplit.deletesRoot = true →
            (∀ n ∈ allNodesList m.inputs, n.name ≠ m.node.name) →
            ∀ n ∈ exElisionRun.output_graph_def, n.name ≠ m.node.name)) :=
  ⟨by decide,
    deleted_names_and_rename_keys .removeNoopSplit exElisionGraph ⟨[], [['Y']]⟩ exElisionRun
      (by decide)⟩

/-! ## C5: a second pass of a no-op removal -/

end GraphTransforms
